import Mathlib

/-!
Verification of the flo audio codec (repository `flo-audio/flo`) against its
natural-language specification.  The definitions below are a shallow
embedding of the Rust sources under `src/libflo/src/`: machine integers are
modelled as `Nat` / `Int` with explicit reductions modulo `2^w` at the
points where the Rust code wraps, byte strings are `List Nat` (each entry a
byte value), and fallible code returns `Except String _` or `Option _`.
Each definition is named after the Rust item it embeds and follows the
source line by line; comments point back to the files.
-/

set_option maxRecDepth 2000

namespace Flo

/-! ## Byte-level helpers (little-endian integers)

Rust's `u16/u32/u64::to_le_bytes` and the corresponding reads in
`reader.rs` (`Cursor::read_u16_le` etc.). -/

/-- Little-endian byte encoding of `n`, `k` bytes (`to_le_bytes`). -/
def leBytes (k : Nat) (n : Nat) : List Nat :=
  (List.range k).map (fun i => n / 256 ^ i % 256)

/-- Little-endian byte decoding (`from_le_bytes`). -/
def fromLe (bs : List Nat) : Nat :=
  bs.foldr (fun b acc => b % 256 + 256 * acc) 0

/-- Reinterpret a `u32` value as an `i32` (Rust `as i32` / `i32::from_le_bytes`). -/
def toI32 (n : Nat) : Int :=
  if n % 4294967296 < 2147483648 then (n % 4294967296 : Nat)
  else (n % 4294967296 : Nat) - 4294967296

/-- Reinterpret a `u16` value as an `i16` (Rust `i16::from_le_bytes`). -/
def toI16 (n : Nat) : Int :=
  if n % 65536 < 32768 then (n % 65536 : Nat) else (n % 65536 : Nat) - 65536

/-- Two's-complement little-endian bytes of an `i32` (Rust `i32::to_le_bytes`). -/
def i32le (c : Int) : List Nat :=
  leBytes 4 (c % 4294967296).toNat

/-- Rust release-mode `u32` left shift: the shift amount is masked mod 32 and
the result wraps mod `2^32`. -/
def shl32 (a b : Nat) : Nat :=
  (a <<< (b % 32)) % 4294967296

/-- Rust release-mode `u32` right shift: the shift amount is masked mod 32. -/
def shr32 (a b : Nat) : Nat :=
  (a % 4294967296) >>> (b % 32)

/-! ## Rice codec (`src/libflo/src/core/rice.rs`) -/

/-- Bit-level writer (`BitWriter` in `rice.rs`): accumulates a byte MSB first. -/
structure BitWriter where
  bytes : List Nat
  currentByte : Nat
  bitPos : Nat
deriving Repr, DecidableEq

/-- `BitWriter::new`. -/
def BitWriter.new : BitWriter :=
  { bytes := [], currentByte := 0, bitPos := 0 }

/-- `BitWriter::write_bit`: sets bit `7 - bit_pos` of the current byte when
`bit != 0`, flushing the byte once 8 bits are in. -/
def BitWriter.write_bit (w : BitWriter) (bit : Nat) : BitWriter :=
  let cur := if bit ≠ 0 then w.currentByte ||| (1 <<< (7 - w.bitPos)) else w.currentByte
  if w.bitPos + 1 = 8 then
    { bytes := w.bytes ++ [cur], currentByte := 0, bitPos := 0 }
  else
    { bytes := w.bytes, currentByte := cur, bitPos := w.bitPos + 1 }

/-- `BitWriter::into_bytes`: flush a trailing partial byte (zero padded). -/
def BitWriter.into_bytes (w : BitWriter) : List Nat :=
  if w.bitPos > 0 then w.bytes ++ [w.currentByte] else w.bytes

/-- Zigzag map of `encode_sample`: the Rust source computes
`((sample << 1) ^ (sample >> 31)) as u32` on `i32`, which in two's
complement equals `2*s` for `s ≥ 0` and `2*(-s) - 1` for `s < 0`,
wrapping mod `2^32`. -/
def zigzag (s : Int) : Nat :=
  if 0 ≤ s then (2 * s).toNat % 4294967296 else (2 * (-s) - 1).toNat % 4294967296

/-- Inverse zigzag of `decode_i32`: the Rust source computes
`((unsigned >> 1) as i32) ^ (-((unsigned & 1) as i32))`; xor of an `i32`
with `-1` is two's-complement negation minus one, so this equals
`u / 2` for even `u` and `-(u / 2) - 1` for odd `u`. -/
def unzigzag (u : Nat) : Int :=
  if u % 2 = 1 then -((u / 2 : Nat) : Int) - 1 else ((u / 2 : Nat) : Int)

/-- `encode_sample` in `rice.rs`: zigzag, then `min(q, 255)` unary one bits,
a zero bit, then the `k` remainder bits MSB first. -/
def encode_sample (bits : BitWriter) (sample : Int) (k : Nat) : BitWriter :=
  let unsigned := zigzag sample
  let quotient := shr32 unsigned k
  let remainder := unsigned &&& (shl32 1 k - 1)
  let qCapped := min quotient 255
  let bits1 := (List.range qCapped).foldl (fun w _ => w.write_bit 1) bits
  let bits2 := bits1.write_bit 0
  ((List.range k).reverse).foldl (fun w i => w.write_bit (shr32 remainder i &&& 1)) bits2

/-- `encode_i32` in `rice.rs`. -/
def encode_i32 (residuals : List Int) (k : Nat) : List Nat :=
  (residuals.foldl (fun w s => encode_sample w s k) BitWriter.new).into_bytes

/-- Bit-level reader (`BitReader` in `rice.rs`). -/
structure BitReader where
  bytes : List Nat
  bytePos : Nat
  bitPos : Nat
deriving Repr, DecidableEq

/-- `BitReader::new`. -/
def BitReader.new (bytes : List Nat) : BitReader :=
  { bytes := bytes, bytePos := 0, bitPos := 0 }

/-- `BitReader::read_bit`: returns 0 without advancing when past the end. -/
def BitReader.read_bit (r : BitReader) : Nat × BitReader :=
  if r.bytes.length ≤ r.bytePos then (0, r)
  else
    let bit := (r.bytes.getD r.bytePos 0 % 256) >>> (7 - r.bitPos) &&& 1
    if r.bitPos + 1 = 8 then (bit, { r with bitPos := 0, bytePos := r.bytePos + 1 })
    else (bit, { r with bitPos := r.bitPos + 1 })

/-- `BitReader::is_exhausted`. -/
def BitReader.is_exhausted (r : BitReader) : Bool :=
  r.bytes.length ≤ r.bytePos

/-- The unary-quotient loop of `decode_i32`:
`while !bits.is_exhausted() && bits.read_bit() == 1 { quotient += 1; if quotient > 255 { break } }`.
The loop body runs at most 256 times (the counter increments on every
iteration and the loop breaks once it exceeds 255), so it is phrased with a
structural fuel argument that is always called with fuel `256 - q`; the
fuel-zero case is unreachable from the real entry point `readQuotient`. -/
def readQuotientAux (r : BitReader) (q : Nat) : Nat → Nat × BitReader
  | 0 => (q, r)
  | fuel + 1 =>
    if r.is_exhausted then (q, r)
    else
      let p := r.read_bit
      if p.1 ≠ 1 then (q, p.2)
      else if q + 1 > 255 then (q + 1, p.2)
      else readQuotientAux p.2 (q + 1) fuel

/-- Entry point of the unary-quotient loop: starts at `quotient = 0`. -/
def readQuotient (r : BitReader) : Nat × BitReader :=
  readQuotientAux r 0 256

/-- The remainder loop of `decode_i32`:
`for _ in 0..k { remainder = (remainder << 1) | bits.read_bit() }`. -/
def readRemainderAux (r : BitReader) (rem : Nat) : Nat → Nat × BitReader
  | 0 => (rem, r)
  | k + 1 =>
    let p := r.read_bit
    readRemainderAux p.2 (shl32 rem 1 ||| p.1) k

/-- The per-sample body and loop of `decode_i32` in `rice.rs`. -/
def decodeLoop (r : BitReader) (k : Nat) : Nat → List Int
  | 0 => []
  | n + 1 =>
    if r.is_exhausted then 0 :: decodeLoop r k n
    else
      let pq := readQuotient r
      let pr := readRemainderAux pq.2 0 k
      let unsigned := shl32 pq.1 k ||| pr.1
      unzigzag unsigned :: decodeLoop pr.2 k n

/-- `decode_i32` in `rice.rs`. -/
def decode_i32 (encoded : List Nat) (k : Nat) (targetLen : Nat) : List Int :=
  decodeLoop (BitReader.new encoded) k targetLen

/-- Bit length of a natural number, phrased with structural fuel (the number
itself bounds the number of halvings).  `bitLen n` equals
`64 - n.leading_zeros()` for a `u64` (and `32 - n.leading_zeros()` for a
`u32`) in the Rust source; see `bitLen_eq_log2`. -/
def bitLenAux : Nat → Nat → Nat
  | 0, _ => 0
  | fuel + 1, n => if n = 0 then 0 else bitLenAux fuel (n / 2) + 1

/-- Bit length of a natural number (`bits_needed` in `rice.rs`). -/
def bitLen (n : Nat) : Nat :=
  bitLenAux n n

/-- `estimate_rice_parameter_i32` in `rice.rs`.  The Rust locals are inlined:
`max_abs` is `(residuals.map Int.natAbs).foldl max 0`, `max_unsigned` is twice
that, `min_k` is `bits_needed.saturating_sub(8)` for `max_unsigned > 255` and
0 otherwise, `sum / len` truncated to `u32` is `mean`, and `mean_k` is the bit
length of `mean` (`32 - mean.leading_zeros()`). -/
def estimate_rice_parameter_i32 (residuals : List Int) : Nat :=
  if residuals.isEmpty then 4
  else if (residuals.map Int.natAbs).foldl max 0 = 0 then 0
  else
    min (max
      (if 2 * ((residuals.map Int.natAbs).foldl max 0) > 255
       then bitLen (2 * ((residuals.map Int.natAbs).foldl max 0)) - 8 else 0)
      (if (residuals.map Int.natAbs).foldl (· + ·) 0 / residuals.length % 4294967296 > 0
       then bitLen ((residuals.map Int.natAbs).foldl (· + ·) 0 / residuals.length % 4294967296)
       else 0))
    15

/-! ## Flat bit-stream model

The bit writer and reader of `rice.rs` are byte-oriented; the proofs below
go through a flat `List Bool` view of the bit stream (MSB of the first byte
first), related to the byte-level code by simulation lemmas. -/

/-- The eight bits of a byte, most significant first. -/
def byteBits (b : Nat) : List Bool :=
  (List.range 8).map (fun i => (b % 256).testBit (7 - i))

/-- The bit stream carried by a byte string. -/
def bitsOf (bytes : List Nat) : List Bool :=
  bytes.flatMap byteBits

/-- All bits committed to a `BitWriter` so far: full bytes, then the
partially filled current byte. -/
def writerBits (w : BitWriter) : List Bool :=
  bitsOf w.bytes ++ (List.range w.bitPos).map (fun i => (w.currentByte % 256).testBit (7 - i))

/-- Well-formedness of a `BitWriter` state: the bit cursor is inside the
current byte, which is a byte with its not-yet-written low bits clear. -/
def WInv (w : BitWriter) : Prop :=
  w.bitPos < 8 ∧ w.currentByte < 256 ∧ w.currentByte % 2 ^ (8 - w.bitPos) = 0

/-- Absolute bit position of a `BitReader`. -/
def BitReader.pos (r : BitReader) : Nat :=
  8 * r.bytePos + r.bitPos

/-- Bits still unread by a `BitReader`. -/
def rdrop (r : BitReader) : List Bool :=
  (bitsOf r.bytes).drop r.pos

/-- The bitstream emitted by `encode_sample`: capped unary quotient, a stop
bit, then `k` remainder bits MSB first (mirrors the three write loops). -/
def encodeSampleBits (s : Int) (k : Nat) : List Bool :=
  List.replicate (min (shr32 (zigzag s) k) 255) true ++ [false] ++
    ((List.range k).reverse).map (fun i => (shr32 (zigzag s &&& (shl32 1 k - 1)) i &&& 1) != 0)

/-- The `k` bits of a remainder value, most significant first. -/
def msbBits (k v : Nat) : List Bool :=
  ((List.range k).reverse).map (fun i => v.testBit i)

/-! ## Mid-side stereo transform (`src/libflo/src/lossless/encoder.rs` and
`src/libflo/src/lossless/decoder.rs`)

Rust `i32` arithmetic wraps on overflow in release builds; `wrap32` applied
to the exact integer result of an expression equals the value obtained by
wrapping after every intermediate operation, because addition, subtraction
and multiplication commute with reduction modulo `2^32`. -/

/-- Two's-complement wrap-around of an integer to the `i32` range. -/
def wrap32 (x : Int) : Int :=
  (x + 2147483648) % 4294967296 - 2147483648

/-- `Encoder::to_mid_side` in `lossless/encoder.rs`: `mid = L + R`,
`side = L - R`, pairing the two channels with `zip`. -/
def to_mid_side (left right : List Int) : List Int × List Int :=
  ((left.zip right).map (fun p => wrap32 (p.1 + p.2)),
   (left.zip right).map (fun p => wrap32 (p.1 - p.2)))

/-- `Decoder::decode_mid_side` in `lossless/decoder.rs`:
`L = (mid + side) / 2`, `R = (mid - side) / 2` with Rust's truncating
(`i32`) division, modelled by `Int.tdiv`. -/
def decode_mid_side (mid side : List Int) : List Int × List Int :=
  ((mid.zip side).map (fun p => Int.tdiv (wrap32 (p.1 + p.2)) 2),
   (mid.zip side).map (fun p => Int.tdiv (wrap32 (p.1 - p.2)) 2))

/-! ## Fixed predictors (`src/libflo/src/lossless/lpc.rs`) -/

/-- `fixed_predictor_residuals` in `lpc.rs`.  The Rust function starts the
output for orders 1 to 4 with `vec![samples[0]]`, which panics (index out of
bounds) on an empty slice; the embedding returns `none` exactly there.
Indexing `samples[i]` inside the loops is in bounds and is modelled with
`getD`. -/
def fixed_predictor_residuals (samples : List Int) (order : Nat) : Option (List Int) :=
  match order with
  | 0 => some samples
  | 1 =>
    match samples with
    | [] => none
    | s0 :: _ =>
      some (s0 :: (List.range' 1 (samples.length - 1)).map
        (fun i => wrap32 (samples.getD i 0 - samples.getD (i - 1) 0)))
  | 2 =>
    match samples with
    | [] => none
    | s0 :: _ =>
      some (s0 ::
        (if 1 < samples.length
         then [wrap32 (samples.getD 1 0 - samples.getD 0 0)] else []) ++
        (List.range' 2 (samples.length - 2)).map
          (fun i => wrap32 (samples.getD i 0 - 2 * samples.getD (i - 1) 0 +
            samples.getD (i - 2) 0)))
  | 3 =>
    match samples with
    | [] => none
    | s0 :: _ =>
      some (s0 ::
        (if 1 < samples.length
         then [wrap32 (samples.getD 1 0 - samples.getD 0 0)] else []) ++
        ((if 2 < samples.length
          then [wrap32 (samples.getD 2 0 - 2 * samples.getD 1 0 + samples.getD 0 0)]
          else []) ++
         (List.range' 3 (samples.length - 3)).map
           (fun i => wrap32 (samples.getD i 0 - 3 * samples.getD (i - 1) 0 +
             3 * samples.getD (i - 2) 0 - samples.getD (i - 3) 0))))
  | 4 =>
    match samples with
    | [] => none
    | s0 :: _ =>
      some (s0 ::
        (if 1 < samples.length
         then [wrap32 (samples.getD 1 0 - samples.getD 0 0)] else []) ++
        ((if 2 < samples.length
          then [wrap32 (samples.getD 2 0 - 2 * samples.getD 1 0 + samples.getD 0 0)]
          else []) ++
         ((if 3 < samples.length
           then [wrap32 (samples.getD 3 0 - 3 * samples.getD 2 0 + 3 * samples.getD 1 0 -
             samples.getD 0 0)]
           else []) ++
          (List.range' 4 (samples.length - 4)).map
            (fun i => wrap32 (samples.getD i 0 - 4 * samples.getD (i - 1) 0 +
              6 * samples.getD (i - 2) 0 - 4 * samples.getD (i - 3) 0 +
              samples.getD (i - 4) 0)))))
  | _ => some samples

/-- The finite difference the source computes at index `i` for a fixed
predictor of order `o`: warm-up index `i < o` receives the order-`i`
difference, later indices the order-`o` difference. -/
def fixedDiff (x : List Int) (o i : Nat) : Int :=
  if min i o = 0 then x.getD i 0
  else if min i o = 1 then wrap32 (x.getD i 0 - x.getD (i - 1) 0)
  else if min i o = 2 then wrap32 (x.getD i 0 - 2 * x.getD (i - 1) 0 + x.getD (i - 2) 0)
  else if min i o = 3 then
    wrap32 (x.getD i 0 - 3 * x.getD (i - 1) 0 + 3 * x.getD (i - 2) 0 - x.getD (i - 3) 0)
  else wrap32 (x.getD i 0 - 4 * x.getD (i - 1) 0 + 6 * x.getD (i - 2) 0 -
      4 * x.getD (i - 3) 0 + x.getD (i - 4) 0)

/-! ## Sparse coefficient decoding (`src/libflo/src/lossy/decoder.rs`) -/

/-- `decode_varint` in `lossy/decoder.rs` (LEB128, value accumulated in a
`u32`): body of the `for` loop over the input bytes, carrying
`(value, shift, bytes_read)`. -/
def decode_varint_aux : List Nat → Nat → Nat → Nat → Nat × Nat
  | [], value, _, bytesRead => (value, bytesRead)
  | byte :: rest, value, shift, bytesRead =>
    let value2 := (value ||| (((byte % 256) &&& 127) <<< shift)) % 4294967296
    if (byte % 256) &&& 128 = 0 then (value2, bytesRead + 1)
    else if shift + 7 ≥ 32 then (value2, bytesRead + 1)
    else decode_varint_aux rest value2 (shift + 7) (bytesRead + 1)

/-- `decode_varint` in `lossy/decoder.rs`: returns `(value, bytes_read)`. -/
def decode_varint (data : List Nat) : Nat × Nat :=
  decode_varint_aux data 0 0 0

/-- The inner `for _ in 0..non_zero_count` loop of `deserialize_sparse`:
copies up to `cnt` little-endian `i16` values into `output`, stopping at the
end of the payload or of the output. -/
def sparse_values_loop : Nat → List Nat → Nat → Nat → List Int → Nat →
    List Int × Nat × Nat
  | 0, _, pos, outIdx, output, _ => (output, pos, outIdx)
  | cnt + 1, data, pos, outIdx, output, n =>
    if pos + 2 > data.length ∨ outIdx ≥ n then (output, pos, outIdx)
    else
      sparse_values_loop cnt data (pos + 2) (outIdx + 1)
        (output.set outIdx (toI16 (data.getD pos 0 % 256 + 256 * (data.getD (pos + 1) 0 % 256))))
        n

/-- The outer `while pos < data.len() && out_idx < num_coeffs` loop of
`deserialize_sparse`.  Every iteration advances `pos` by at least one byte
(the varint consumes at least one byte while `pos < data.len()`), so the
loop runs at most `data.length` times; it is phrased with a structural fuel
argument entered with fuel `data.length + 1`. -/
def sparse_outer : Nat → List Nat → Nat → Nat → List Int → Nat → List Int
  | 0, _, _, _, output, _ => output
  | fuel + 1, data, pos, outIdx, output, n =>
    if pos < data.length ∧ outIdx < n then
      let pv := decode_varint (data.drop pos)
      let pos1 := pos + pv.2
      let outIdx1 := outIdx + pv.1
      if pos1 ≥ data.length then output
      else
        let nzc := data.getD pos1 0 % 256
        let st := sparse_values_loop nzc data (pos1 + 1) outIdx1 output n
        sparse_outer fuel data st.2.1 st.2.2 st.1 n
    else output

/-- `deserialize_sparse` in `lossy/decoder.rs`: decodes runs of
`(zero_count varint, nonzero_count u8, nonzero values i16 LE)` into a vector
of exactly `num_coeffs` coefficients initialised to zero. -/
def deserialize_sparse (data : List Nat) (numCoeffs : Nat) : List Int :=
  sparse_outer (data.length + 1) data 0 0 (List.replicate numCoeffs 0) numCoeffs

/-! ## Container types (`src/libflo/src/core/types.rs`) -/

/-- Magic number, the ASCII bytes of `FLO!`. -/
def MAGIC : List Nat := [70, 76, 79, 33]

/-- Header size after the magic (`HEADER_SIZE`). -/
def HEADER_SIZE : Nat := 66

/-- `VERSION_MAJOR`. -/
def VERSION_MAJOR : Nat := 1

/-- `VERSION_MINOR`. -/
def VERSION_MINOR : Nat := 0

/-- `ResidualEncoding` in `types.rs`. -/
inductive ResidualEncoding where
  | Rice
  | Golomb
  | Raw
deriving Repr, DecidableEq

/-- `ResidualEncoding as u8`. -/
def ResidualEncoding.toByte : ResidualEncoding → Nat
  | .Rice => 0
  | .Golomb => 1
  | .Raw => 2

/-- `impl From<u8> for ResidualEncoding`. -/
def ResidualEncoding.ofByte (v : Nat) : ResidualEncoding :=
  if v = 0 then .Rice else if v = 1 then .Golomb else .Raw

/-- `FrameType` in `types.rs`. -/
inductive FrameType where
  | Silence
  | Alpc1
  | Alpc2
  | Alpc3
  | Alpc4
  | Alpc5
  | Alpc6
  | Alpc7
  | Alpc8
  | Alpc9
  | Alpc10
  | Alpc11
  | Alpc12
  | Transform
  | Raw
  | Reserved
deriving Repr, DecidableEq

/-- `FrameType as u8`. -/
def FrameType.toByte : FrameType → Nat
  | .Silence => 0
  | .Alpc1 => 1
  | .Alpc2 => 2
  | .Alpc3 => 3
  | .Alpc4 => 4
  | .Alpc5 => 5
  | .Alpc6 => 6
  | .Alpc7 => 7
  | .Alpc8 => 8
  | .Alpc9 => 9
  | .Alpc10 => 10
  | .Alpc11 => 11
  | .Alpc12 => 12
  | .Transform => 253
  | .Raw => 254
  | .Reserved => 255

/-- `impl From<u8> for FrameType`. -/
def FrameType.ofByte (v : Nat) : FrameType :=
  if v = 0 then .Silence
  else if v = 1 then .Alpc1
  else if v = 2 then .Alpc2
  else if v = 3 then .Alpc3
  else if v = 4 then .Alpc4
  else if v = 5 then .Alpc5
  else if v = 6 then .Alpc6
  else if v = 7 then .Alpc7
  else if v = 8 then .Alpc8
  else if v = 9 then .Alpc9
  else if v = 10 then .Alpc10
  else if v = 11 then .Alpc11
  else if v = 12 then .Alpc12
  else if v = 253 then .Transform
  else if v = 254 then .Raw
  else .Reserved

/-- `FrameType::is_alpc`: the discriminant is in `1..=12`. -/
def FrameType.is_alpc (ft : FrameType) : Bool :=
  1 ≤ ft.toByte && ft.toByte ≤ 12

/-- `FrameType::is_transform`. -/
def FrameType.is_transform (ft : FrameType) : Bool :=
  ft = .Transform

/-- `FrameType::from_order`: orders 1–12 map to the matching ALPC variant,
anything else falls back to `Alpc8`. -/
def FrameType.from_order (order : Nat) : FrameType :=
  if 1 ≤ order ∧ order ≤ 12 then FrameType.ofByte order else .Alpc8

/-- `ChannelData` in `types.rs`; residual payload bytes as `List Nat`. -/
structure ChannelData where
  predictor_coeffs : List Int
  shift_bits : Nat
  residual_encoding : ResidualEncoding
  rice_parameter : Nat
  residuals : List Nat
deriving Repr, DecidableEq

/-- `ChannelData::new_silence`. -/
def ChannelData.new_silence : ChannelData :=
  { predictor_coeffs := [], shift_bits := 0, residual_encoding := .Rice,
    rice_parameter := 0, residuals := [] }

/-- `ChannelData::new_raw`. -/
def ChannelData.new_raw (data : List Nat) : ChannelData :=
  { predictor_coeffs := [], shift_bits := 0, residual_encoding := .Raw,
    rice_parameter := 0, residuals := data }

/-- `Frame` in `types.rs` (`frame_type` kept as its `u8`). -/
structure Frame where
  frame_type : Nat
  frame_samples : Nat
  flags : Nat
  channels : List ChannelData
deriving Repr, DecidableEq

/-- Size of a serialized channel blob, per branch of `Frame::byte_size`. -/
def channel_byte_size (ft : FrameType) (ch : ChannelData) : Nat :=
  if ft.is_transform then ch.residuals.length
  else if ft.is_alpc then
    1 + ch.predictor_coeffs.length * 4 + 1 + 1 +
      (if ch.residual_encoding = .Rice then 1 else 0) + ch.residuals.length
  else if ft = .Raw then ch.residuals.length
  else 0

/-- `Frame::byte_size` in `types.rs`. -/
def Frame.byte_size (f : Frame) : Nat :=
  6 + (f.channels.map (fun ch => 4 + channel_byte_size (FrameType.ofByte f.frame_type) ch)).sum

/-- `Header` in `types.rs` (all machine-integer fields as `Nat`). -/
structure Header where
  version_major : Nat
  version_minor : Nat
  flags : Nat
  sample_rate : Nat
  channels : Nat
  bit_depth : Nat
  total_frames : Nat
  compression_level : Nat
  data_crc32 : Nat
  header_size : Nat
  toc_size : Nat
  data_size : Nat
  extra_size : Nat
  meta_size : Nat
deriving Repr, DecidableEq

/-- `TocEntry` in `types.rs`. -/
structure TocEntry where
  frame_index : Nat
  byte_offset : Nat
  frame_size : Nat
  timestamp_ms : Nat
deriving Repr, DecidableEq

/-- `FloFile` in `types.rs`. -/
structure FloFile where
  header : Header
  toc : List TocEntry
  frames : List Frame
  extra : List Nat
  metadata : List Nat
deriving Repr, DecidableEq

/-! ## CRC-32 -/

/-- Modelled from the spec: the file `core/crc32.rs` is not among the
provided sources (only its callers are).  Spec §4.1: CRC-32 with the
reversed IEEE polynomial `0xEDB88320`, initial value `0xFFFFFFFF` and final
XOR `0xFFFFFFFF`.  One bit step of the byte update. -/
def crc32_step (crc : Nat) : Nat :=
  if crc &&& 1 = 1 then (crc >>> 1) ^^^ 0xEDB88320 else crc >>> 1

/-- Modelled from the spec: CRC-32 update for one byte (8 bit steps after
xoring the byte into the low bits). -/
def crc32_byte (crc byte : Nat) : Nat :=
  (List.range 8).foldl (fun c _ => crc32_step c) (crc ^^^ byte % 256)

/-- Modelled from the spec: `crc32::compute` over a byte string. -/
def crc32_compute (data : List Nat) : Nat :=
  (data.foldl (fun crc b => crc32_byte crc b) 0xFFFFFFFF) ^^^ 0xFFFFFFFF

/-! ## Container writer (`src/libflo/src/writer.rs`) -/

/-- `Writer::write_channel_data`: serialize one channel blob for the given
frame type. -/
def write_channel_data (ch : ChannelData) (ft : FrameType) : List Nat :=
  if ft = .Silence then []
  else if ft = .Raw then ch.residuals
  else if ft = .Transform then ch.residuals
  else if ft.is_alpc then
    [ch.predictor_coeffs.length % 256] ++
    ch.predictor_coeffs.flatMap i32le ++
    [ch.shift_bits % 256] ++
    [ch.residual_encoding.toByte] ++
    (if ch.residual_encoding = .Rice then [ch.rice_parameter % 256] else []) ++
    ch.residuals
  else []

/-- `Writer::write_frame`: frame header then size-prefixed channel blobs. -/
def write_frame (f : Frame) : List Nat :=
  [f.frame_type % 256] ++ leBytes 4 f.frame_samples ++ [f.flags % 256] ++
  f.channels.flatMap (fun ch =>
    leBytes 4 (write_channel_data ch (FrameType.ofByte f.frame_type)).length ++
    write_channel_data ch (FrameType.ofByte f.frame_type))

/-- The TOC entry records of `Writer::build_toc_chunk` (frame index, running
byte offset, frame size, timestamp `index * 1000`).  The Rust code casts
`frame.byte_size() as u32` before serializing it and before adding it to the
running offset, hence the `% 2^32`. -/
def toc_entries_bytes : List Frame → Nat → Nat → List Nat
  | [], _, _ => []
  | f :: rest, i, off =>
    leBytes 4 i ++ leBytes 8 off ++ leBytes 4 (f.byte_size % 4294967296) ++
    leBytes 4 (i * 1000 % 4294967296) ++
    toc_entries_bytes rest (i + 1) (off + f.byte_size % 4294967296)

/-- `Writer::build_toc_chunk`. -/
def build_toc_chunk (frames : List Frame) : List Nat :=
  leBytes 4 frames.length ++ toc_entries_bytes frames 0 0

/-- `Writer::build_data_chunk`. -/
def build_data_chunk (frames : List Frame) : List Nat :=
  frames.flatMap write_frame

/-- `Writer::write_header_ex`. -/
def write_header_ex (sample_rate channels bit_depth compression_level total_frames
    data_crc32 flags toc_size data_size extra_size meta_size : Nat) : List Nat :=
  MAGIC ++ [VERSION_MAJOR] ++ [VERSION_MINOR] ++ leBytes 2 flags ++
  leBytes 4 sample_rate ++ [channels % 256] ++ [bit_depth % 256] ++
  leBytes 8 total_frames ++ [compression_level % 256] ++ [0, 0, 0] ++
  leBytes 4 data_crc32 ++ leBytes 8 HEADER_SIZE ++ leBytes 8 toc_size ++
  leBytes 8 data_size ++ leBytes 8 extra_size ++ leBytes 8 meta_size

/-- `Writer::write_ex`: assemble the whole file (the Rust function always
returns `Ok`). -/
def write_ex (sample_rate channels bit_depth compression_level : Nat) (lossy : Bool)
    (lossy_quality : Nat) (frames : List Frame) (metadata : List Nat) : List Nat :=
  write_header_ex sample_rate channels bit_depth compression_level frames.length
    (crc32_compute (build_data_chunk frames))
    (if lossy then (1 ||| (lossy_quality % 256) <<< 8) % 65536 else 0)
    (4 + frames.length * 20) (build_data_chunk frames).length 0 metadata.length ++
  build_toc_chunk frames ++ build_data_chunk frames ++ metadata

/-- `Writer::write`: `write_ex` with the lossy flag clear. -/
def write (sample_rate channels bit_depth compression_level : Nat)
    (frames : List Frame) (metadata : List Nat) : List Nat :=
  write_ex sample_rate channels bit_depth compression_level false 0 frames metadata

/-! ## Container reader (`src/libflo/src/reader.rs`)

The Rust `Cursor` holds a byte slice and a position; we pass the byte list
and the position explicitly, each read returning
`Except String (value × newPos)` exactly where the Rust helper returns
`FloResult`. -/

/-- `Cursor::read_bytes`. -/
def read_bytes (data : List Nat) (pos count : Nat) : Except String (List Nat × Nat) :=
  if pos + count > data.length then .error "Unexpected end of file"
  else .ok ((data.drop pos).take count, pos + count)

/-- `Cursor::skip`: clamps to the end, never fails. -/
def cursor_skip (data : List Nat) (pos count : Nat) : Nat :=
  min (pos + count) data.length

/-- `Cursor::read_u8`. -/
def read_u8 (data : List Nat) (pos : Nat) : Except String (Nat × Nat) :=
  if pos ≥ data.length then .error "Unexpected end of file"
  else .ok (data.getD pos 0, pos + 1)

/-- `Cursor::read_u16_le`. -/
def read_u16_le (data : List Nat) (pos : Nat) : Except String (Nat × Nat) := do
  let (bs, pos) ← read_bytes data pos 2
  .ok (fromLe bs, pos)

/-- `Cursor::read_u32_le`. -/
def read_u32_le (data : List Nat) (pos : Nat) : Except String (Nat × Nat) := do
  let (bs, pos) ← read_bytes data pos 4
  .ok (fromLe bs, pos)

/-- `Cursor::read_i32_le`. -/
def read_i32_le (data : List Nat) (pos : Nat) : Except String (Int × Nat) := do
  let (bs, pos) ← read_bytes data pos 4
  .ok (toI32 (fromLe bs), pos)

/-- `Cursor::read_u64_le`. -/
def read_u64_le (data : List Nat) (pos : Nat) : Except String (Nat × Nat) := do
  let (bs, pos) ← read_bytes data pos 8
  .ok (fromLe bs, pos)

/-- `Reader::read_header`: the fields are read in declaration order, with a
3-byte reserved skip before the CRC. -/
def read_header (data : List Nat) (pos : Nat) : Except String (Header × Nat) := do
  let (vmaj, pos) ← read_u8 data pos
  let (vmin, pos) ← read_u8 data pos
  let (flags, pos) ← read_u16_le data pos
  let (sr, pos) ← read_u32_le data pos
  let (ch, pos) ← read_u8 data pos
  let (bd, pos) ← read_u8 data pos
  let (tf, pos) ← read_u64_le data pos
  let (cl, pos) ← read_u8 data pos
  let pos := cursor_skip data pos 3
  let (crc, pos) ← read_u32_le data pos
  let (hs, pos) ← read_u64_le data pos
  let (ts, pos) ← read_u64_le data pos
  let (ds, pos) ← read_u64_le data pos
  let (es, pos) ← read_u64_le data pos
  let (ms, pos) ← read_u64_le data pos
  .ok ({ version_major := vmaj, version_minor := vmin, flags := flags,
         sample_rate := sr, channels := ch, bit_depth := bd, total_frames := tf,
         compression_level := cl, data_crc32 := crc, header_size := hs,
         toc_size := ts, data_size := ds, extra_size := es, meta_size := ms }, pos)

/-- The entry loop of `Reader::read_toc` (`num_entries` iterations). -/
def read_toc_entries (data : List Nat) : Nat → Nat → Except String (List TocEntry × Nat)
  | 0, pos => .ok ([], pos)
  | n + 1, pos => do
    let (fi, pos) ← read_u32_le data pos
    let (bo, pos) ← read_u64_le data pos
    let (fs, pos) ← read_u32_le data pos
    let (ts, pos) ← read_u32_le data pos
    let (rest, pos) ← read_toc_entries data n pos
    .ok ({ frame_index := fi, byte_offset := bo, frame_size := fs,
           timestamp_ms := ts } :: rest, pos)

/-- `Reader::read_toc`. -/
def read_toc (data : List Nat) (tocSize pos : Nat) : Except String (List TocEntry × Nat) :=
  if tocSize < 4 then .ok ([], pos)
  else do
    let (n, pos) ← read_u32_le data pos
    if n > 100000 then .error "Invalid TOC: too many entries"
    else read_toc_entries data n pos

/-- The coefficient loop of `Reader::read_channel_data`: stops early (without
error) when fewer than 4 bytes remain before `channel_end`. -/
def read_coeffs (data : List Nat) (chEnd : Nat) : Nat → Nat → Except String (List Int × Nat)
  | 0, pos => .ok ([], pos)
  | n + 1, pos =>
    if pos + 4 > chEnd then .ok ([], pos)
    else do
      let (c, pos) ← read_i32_le data pos
      let (rest, pos) ← read_coeffs data chEnd n pos
      .ok (c :: rest, pos)

/-- `Reader::read_channel_data`. -/
def read_channel_data (data : List Nat) (ft : FrameType) (frameSamples chEnd pos : Nat) :
    Except String (ChannelData × Nat) :=
  if frameSamples > 2000000 then .error "Invalid frame: too many samples"
  else if ft = .Silence then .ok (ChannelData.new_silence, pos)
  else if ft = .Raw then do
    let (res, pos) ← read_bytes data pos (min (frameSamples * 2) (chEnd - pos))
    .ok (ChannelData.new_raw res, pos)
  else if ft = .Transform then do
    let (res, pos) ← (if chEnd - pos > 0 then read_bytes data pos (chEnd - pos)
                      else .ok ([], pos))
    .ok ({ predictor_coeffs := [], shift_bits := 0, residual_encoding := .Raw,
           rice_parameter := 0, residuals := res }, pos)
  else if ft.is_alpc then do
    let (order, pos) ← read_u8 data pos
    if order > 12 then .error "Invalid LPC order"
    else do
      let (coeffs, pos) ← read_coeffs data chEnd order pos
      let (sb, pos) ← read_u8 data pos
      let (reb, pos) ← read_u8 data pos
      let re := ResidualEncoding.ofByte reb
      let (rp, pos) ← (if re = .Rice then read_u8 data pos else .ok (0, pos))
      let (res, pos) ← (if chEnd - pos > 0 then read_bytes data pos (chEnd - pos)
                        else .ok ([], pos))
      .ok ({ predictor_coeffs := coeffs, shift_bits := sb, residual_encoding := re,
             rice_parameter := rp, residuals := res }, pos)
  else .ok (ChannelData.new_silence, pos)

/-- The channel loop of `Reader::read_frame`: after each channel the cursor
jumps to the recorded channel end, wherever the read left it. -/
def read_channels (data : List Nat) (ft : FrameType) (frameSamples : Nat) :
    Nat → Nat → Except String (List ChannelData × Nat)
  | 0, pos => .ok ([], pos)
  | n + 1, pos => do
    let (chSize, pos) ← read_u32_le data pos
    let chEnd := pos + chSize
    let (ch, _) ← read_channel_data data ft frameSamples chEnd pos
    let (rest, pos2) ← read_channels data ft frameSamples n chEnd
    .ok (ch :: rest, pos2)

/-- `Reader::read_frame`: transform frames carry a single blob, every other
type one blob per declared channel; the cursor ends at `frame_end`. -/
def read_frame (data : List Nat) (channels frameSize pos : Nat) :
    Except String (Frame × Nat) := do
  let frameEnd := pos + frameSize
  let (ftb, pos) ← read_u8 data pos
  let (samples, pos) ← read_u32_le data pos
  let (flags, pos) ← read_u8 data pos
  let ft := FrameType.ofByte ftb
  let (chs, _) ← read_channels data ft samples (if ft = .Transform then 1 else channels) pos
  .ok ({ frame_type := ftb, frame_samples := samples, flags := flags,
         channels := chs }, frameEnd)

/-- The frame loop of `Reader::read_data_chunk`: a TOC entry whose start
offset is at or past `data_end` breaks the loop. -/
def read_frames_loop (data : List Nat) (channels dataStart dataEnd : Nat) :
    List TocEntry → Except String (List Frame)
  | [] => .ok []
  | e :: rest =>
    if dataStart + e.byte_offset ≥ dataEnd then .ok []
    else do
      let (f, _) ← read_frame data channels e.frame_size (dataStart + e.byte_offset)
      let fs ← read_frames_loop data channels dataStart dataEnd rest
      .ok (f :: fs)

/-- `Reader::read_data_chunk`: the cursor always ends at `data_end`. -/
def read_data_chunk (data : List Nat) (dataSize channels pos : Nat) (toc : List TocEntry) :
    Except String (List Frame × Nat) := do
  let fs ← read_frames_loop data channels pos (pos + dataSize) toc
  .ok (fs, pos + dataSize)

/-- `Reader::read`. -/
def reader_read (data : List Nat) : Except String FloFile := do
  let (magic, pos) ← read_bytes data 0 4
  if magic ≠ MAGIC then .error "Invalid flo file: bad magic"
  else do
    let (header, pos) ← read_header data pos
    let (toc, pos) ← read_toc data header.toc_size pos
    let (frames, pos) ← read_data_chunk data header.data_size header.channels pos toc
    let pos := cursor_skip data pos header.extra_size
    let (metadata, _) ← read_bytes data pos header.meta_size
    .ok { header := header, toc := toc, frames := frames, extra := [],
          metadata := metadata }

/-! ## Integer-level lossless decoder (`src/libflo/src/lossless/decoder.rs`)

`Decoder::decode_file` works on `i32` samples throughout and only converts
at the very end with the elementwise `i32_to_f32`; we embed everything up to
that final float conversion. -/

/-- Rust release-mode `i64` wrap-around (`wrapping_add` semantics and `as
i64` overflow). -/
def wrap64 (x : Int) : Int :=
  (x + 9223372036854775808) % 18446744073709551616 - 9223372036854775808

/-- The prediction accumulator of `Decoder::reconstruct_lpc_int`: each
`i32 × i32` product fits an `i64` exactly, the running sum wraps. -/
def lpc_prediction (coeffs samples : List Int) (order i : Nat) : Int :=
  (List.range order).foldl
    (fun p j => wrap64 (p + coeffs.getD j 0 * samples.getD (i - j - 1) 0)) 0

/-- The reconstruction loop of `Decoder::reconstruct_lpc_int` (`fuel` counts
the remaining iterations, `i` is the loop index): the `i64` prediction is
arithmetically shifted right by `shift % 64` (release-mode shift masking),
truncated to `i32`, and added (wrapping) to the residual. -/
def reconstruct_lpc_loop (coeffs residuals : List Int) (shift order : Nat) :
    Nat → List Int → Nat → List Int
  | 0, samples, _ => samples
  | fuel + 1, samples, i =>
    reconstruct_lpc_loop coeffs residuals shift order fuel
      (samples ++ [wrap32 (wrap32 (Int.ediv (lpc_prediction coeffs samples order i)
         (2 ^ (shift % 64))) + residuals.getD i 0)]) (i + 1)

/-- `Decoder::reconstruct_lpc_int`. -/
def reconstruct_lpc_int (coeffs residuals : List Int) (shift order targetLen : Nat) :
    List Int :=
  let actualLen := min targetLen residuals.length
  let samples := reconstruct_lpc_loop coeffs residuals shift order (actualLen - order)
    (residuals.take (min order actualLen)) order
  (samples ++ List.replicate (targetLen - samples.length) 0).take targetLen

/-- The order-specific loops of `Decoder::reconstruct_fixed`, shared over the
predictor expression `pred` (`fuel` counts remaining iterations, `i` the loop
index); each new sample is `residuals[i].wrapping_add(pred)`. -/
def recon_fixed_loop (residuals : List Int) (pred : List Int → Nat → Int) :
    Nat → List Int → Nat → List Int
  | 0, samples, _ => samples
  | fuel + 1, samples, i =>
    recon_fixed_loop residuals pred fuel
      (samples ++ [wrap32 (residuals.getD i 0 + pred samples i)]) (i + 1)

/-- `Decoder::reconstruct_fixed`: warm-up pushes are guarded by the residual
count (not the target length), the main loops run up to
`min residuals.length targetLen`, and only padding (never truncation) is
applied at the end.  The `i64` predictor expressions are truncated with `as
i32` before the wrapping add. -/
def reconstruct_fixed (order : Nat) (residuals : List Int) (targetLen : Nat) : List Int :=
  if residuals.isEmpty then List.replicate targetLen 0
  else
    let n := min residuals.length targetLen
    let samples :=
      if order = 0 then residuals
      else if order = 1 then
        recon_fixed_loop residuals (fun s i => s.getD (i - 1) 0)
          (n - 1) [residuals.getD 0 0] 1
      else if order = 2 then
        let w := [residuals.getD 0 0]
        let w := if residuals.length > 1 then
            w ++ [wrap32 (residuals.getD 1 0 + w.getD 0 0)] else w
        recon_fixed_loop residuals
          (fun s i => wrap32 (2 * s.getD (i - 1) 0 - s.getD (i - 2) 0)) (n - 2) w 2
      else if order = 3 then
        let w := [residuals.getD 0 0]
        let w := if residuals.length > 1 then
            w ++ [wrap32 (residuals.getD 1 0 + w.getD 0 0)] else w
        let w := if residuals.length > 2 then
            w ++ [wrap32 (residuals.getD 2 0 + wrap32 (2 * w.getD 1 0 - w.getD 0 0))] else w
        recon_fixed_loop residuals
          (fun s i => wrap32 (3 * s.getD (i - 1) 0 - 3 * s.getD (i - 2) 0 +
            s.getD (i - 3) 0)) (n - 3) w 3
      else if order = 4 then
        let w := [residuals.getD 0 0]
        let w := if residuals.length > 1 then
            w ++ [wrap32 (residuals.getD 1 0 + w.getD 0 0)] else w
        let w := if residuals.length > 2 then
            w ++ [wrap32 (residuals.getD 2 0 + wrap32 (2 * w.getD 1 0 - w.getD 0 0))] else w
        let w := if residuals.length > 3 then
            w ++ [wrap32 (residuals.getD 3 0 + wrap32 (3 * w.getD 2 0 - 3 * w.getD 1 0 +
              w.getD 0 0))] else w
        recon_fixed_loop residuals
          (fun s i => wrap32 (4 * s.getD (i - 1) 0 - 6 * s.getD (i - 2) 0 +
            4 * s.getD (i - 3) 0 - s.getD (i - 4) 0)) (n - 4) w 4
      else residuals
    samples ++ List.replicate (targetLen - samples.length) 0

/-- The raw-PCM branch of `Decoder::decode_channel_int`: full 2-byte chunks
become `i16` samples, then zero padding up to `frame_samples`. -/
def raw_pcm_channel (res : List Nat) (frameSamples : Nat) : List Int :=
  let samples := (List.range (res.length / 2)).map
    (fun i => toI16 (res.getD (2 * i) 0 % 256 + 256 * (res.getD (2 * i + 1) 0 % 256)))
  samples ++ List.replicate (frameSamples - samples.length) 0

/-- `Decoder::decode_channel_int`.  The Rust function returns `FloResult`
but every path is `Ok`, so the embedding is total. -/
def decode_channel_int (ch : ChannelData) (frameSamples : Nat) : List Int :=
  if ch.predictor_coeffs.isEmpty ∧ ¬ch.residuals.isEmpty ∧ ch.shift_bits ≥ 128 then
    reconstruct_fixed (ch.shift_bits - 128)
      (decode_i32 ch.residuals ch.rice_parameter frameSamples) frameSamples
  else if ¬ch.predictor_coeffs.isEmpty then
    reconstruct_lpc_int ch.predictor_coeffs
      (decode_i32 ch.residuals ch.rice_parameter frameSamples)
      ch.shift_bits ch.predictor_coeffs.length frameSamples
  else if ¬ch.residuals.isEmpty then raw_pcm_channel ch.residuals frameSamples
  else List.replicate frameSamples 0

/-- One iteration of the frame loop in `Decoder::decode_file`: decode every
channel blob, undo mid-side when the frame flag is set and exactly two blobs
decoded, and extend the per-channel accumulators (blobs beyond the declared
channel count are dropped). -/
def append_frame (channels : Nat) (all : List (List Int)) (frame : Frame) :
    List (List Int) :=
  let fc := frame.channels.map (fun ch => decode_channel_int ch frame.frame_samples)
  if channels = 2 ∧ frame.flags % 2 = 1 ∧ fc.length = 2 then
    [all.getD 0 [] ++ (decode_mid_side (fc.getD 0 []) (fc.getD 1 [])).1,
     all.getD 1 [] ++ (decode_mid_side (fc.getD 0 []) (fc.getD 1 [])).2]
  else
    (List.range channels).map (fun i => all.getD i [] ++ fc.getD i [])

/-- The per-channel sample accumulation of `Decoder::decode_file`. -/
def decode_file_channels (file : FloFile) : List (List Int) :=
  file.frames.foldl (append_frame file.header.channels)
    (List.replicate file.header.channels [])

/-- The interleaving step of `Decoder::decode_file`, before the final
elementwise `i32_to_f32`.  The Rust stereo fast path, taken when both
channels have equal length, produces exactly the general row-major order
modelled here. -/
def interleave_int (channels : Nat) (all : List (List Int)) : List Int :=
  (List.range ((all.map List.length).foldr max 0)).flatMap
    (fun i => (List.range channels).map (fun ch => (all.getD ch []).getD i 0))

/-- `Decoder::decode_file` up to the final elementwise `i32_to_f32`. -/
def decode_file_int (file : FloFile) : List Int :=
  interleave_int file.header.channels (decode_file_channels file)

/-! ## Top-level decode and metadata update (`src/libflo/src/lib.rs`) -/

/-- `decode` in `lib.rs`, at the integer stage: parse, then dispatch on
whether any frame is a transform frame.  The transform branch runs the
float-based lossy `TransformDecoder`, which is outside this integer
embedding; it is marked `none` (the lossless branch, the subject of the
claims, is fully modelled). -/
def decode_int (data : List Nat) : Except String (Option (List Int)) := do
  let file ← reader_read data
  if file.frames.any (fun f => f.frame_type = FrameType.Transform.toByte) then
    .ok none
  else
    .ok (some (decode_file_int file))

/-- Overwrite `bytes.length` bytes of `l` at offset `off`
(`copy_from_slice` on a slice known to be in range). -/
def setBytes (l : List Nat) (off : Nat) (bytes : List Nat) : List Nat :=
  l.take off ++ bytes ++ l.drop (off + bytes.length)

/-! ## Integer-level lossless encoder (`src/libflo/src/lossless/encoder.rs`)

`Encoder::encode_frame` converts the float frame to `i32` with the
elementwise `f32_to_i32` right after the silence check; everything from
there on is integer arithmetic.  The embedding takes the converted `i32`
samples and the boolean outcome of the float silence check
(`samples.iter().all(|s| s.abs() < 1e-7)`) as inputs. -/

/-- `Encoder::lpc_order_from_level`. -/
def lpc_order_from_level (level : Nat) : Nat :=
  if level = 0 then 0
  else if level = 1 then 2
  else if level = 2 then 4
  else if level = 3 then 4
  else if level = 4 then 6
  else if level = 5 then 8
  else if level = 6 then 8
  else if level = 7 then 10
  else if level = 8 then 12
  else 12

/-- `Encoder::encode_raw`: each sample truncated `as i16` and serialized LE. -/
def encode_raw (samples : List Int) : ChannelData :=
  ChannelData.new_raw (samples.flatMap (fun s => leBytes 2 (s % 65536).toNat))

/-- `Encoder::try_fixed_predictor`.  `fixed_predictor_residuals` panics on an
empty slice for orders ≥ 1; the only caller (`encode_channel_int`) returns
early on empty input, so the `.getD []` default is unreachable there. -/
def try_fixed_predictor (samples : List Int) (order : Nat) :
    Option (ChannelData × Nat) :=
  if order > 4 then none
  else
    let residuals := (fixed_predictor_residuals samples order).getD []
    let k := estimate_rice_parameter_i32 residuals
    let encoded := encode_i32 residuals k
    some ({ predictor_coeffs := [], shift_bits := 128 + order,
            residual_encoding := .Rice, rice_parameter := k,
            residuals := encoded }, encoded.length)

/-- `Encoder::encode_channel_int` restricted to `max_order ≤ 4`, where the
LPC strategy guard `compression_level >= 3 && max_order > 4` is false and
only strategies 1 (raw) and 2 (fixed predictors 0..=min(4, max_order)) run;
`lpc_order_from_level` returns at most 4 for levels 0–3, so the embedding is
exact at those levels.  Returns the best blob and the order it used; later
strategies win only with a strictly smaller byte size. -/
def encode_channel_int (samples : List Int) (maxOrder : Nat) : ChannelData × Nat :=
  if samples.isEmpty then (ChannelData.new_silence, 0)
  else
    let raw := encode_raw samples
    let best := (List.range (min 4 maxOrder + 1)).foldl
      (fun b order =>
        match try_fixed_predictor samples order with
        | none => b
        | some (d, sz) => if sz < b.2.1 then (d, sz, order) else b)
      (raw, raw.residuals.length, 0)
    (best.1, best.2.2)

/-- The deinterleaving in `Encoder::encode_frame`:
`iter().skip(ch).step_by(channels)`. -/
def deinterleave (samples : List Int) (channels ch : Nat) : List Int :=
  (List.range ((samples.length - ch + channels - 1) / channels)).map
    (fun i => samples.getD (ch + i * channels) 0)

/-- `Encoder::should_use_mid_side`: compare the wrapped `i64` energy of the
side channel (`l - r` computed in `i32`) against the average channel energy
with truncating `i64` division.  The Rust loop updates the three
accumulators together; they are independent, so three folds are equal. -/
def should_use_mid_side (chs : List (List Int)) : Bool :=
  if chs.length ≠ 2 then false
  else
    let z := (chs.getD 0 []).zip (chs.getD 1 [])
    let varL := z.foldl (fun a p => wrap64 (a + p.1 * p.1)) 0
    let varR := z.foldl (fun a p => wrap64 (a + p.2 * p.2)) 0
    let varS := z.foldl (fun a p => wrap64 (a + wrap32 (p.1 - p.2) * wrap32 (p.1 - p.2))) 0
    varS < Int.tdiv (wrap64 (varL + varR)) 2

/-- `Encoder::encode_frame` on the `i32` samples, with the float silence
check passed in as `silent`.  A channel encoded with order 0 keeps `all_raw`
true, so a frame whose channels all chose raw *or fixed order 0* is typed
`Raw`. -/
def encode_frame_int (channels compression_level : Nat) (silent : Bool)
    (samples : List Int) : Frame :=
  let numSamples := samples.length / channels
  if silent then
    { frame_type := FrameType.Silence.toByte, frame_samples := numSamples,
      flags := 0, channels := List.replicate channels ChannelData.new_silence }
  else
    let chData := (List.range channels).map (fun ch => deinterleave samples channels ch)
    let useMidSide := channels = 2 ∧ should_use_mid_side chData
    let chData := if useMidSide then
        [(to_mid_side (chData.getD 0 []) (chData.getD 1 [])).1,
         (to_mid_side (chData.getD 0 []) (chData.getD 1 [])).2]
      else chData
    let lpcOrder := lpc_order_from_level compression_level
    let encoded := chData.map (fun cs => encode_channel_int cs lpcOrder)
    let ftype := if encoded.all (fun e => e.2 = 0) then FrameType.Raw
      else FrameType.from_order lpcOrder
    { frame_type := ftype.toByte, frame_samples := numSamples,
      flags := if useMidSide then 1 else 0, channels := encoded.map Prod.fst }

/-- `Encoder::encode_frames`: chunk the interleaved stream into frames of
`samples_per_frame` samples per channel (`silent i` is the float silence
check of the `i`-th chunk). -/
def encode_frames_int (channels compression_level samplesPerFrame : Nat)
    (silent : Nat → Bool) (samples : List Int) : List Frame :=
  (List.range ((samples.length / channels + samplesPerFrame - 1) / samplesPerFrame)).map
    (fun i => encode_frame_int channels compression_level (silent i)
      ((samples.drop (i * samplesPerFrame * channels)).take
        (min ((i + 1) * samplesPerFrame * channels) samples.length -
          i * samplesPerFrame * channels)))

/-- `Encoder::encode` at the integer stage: frame chunking with
`samples_per_frame = sample_rate`, then `Writer::write`. -/
def encode_int (sample_rate channels bit_depth compression_level : Nat)
    (silent : Nat → Bool) (samples : List Int) (metadata : List Nat) : List Nat :=
  write sample_rate channels bit_depth compression_level
    (encode_frames_int channels compression_level sample_rate silent samples) metadata

/-! ## Streaming decoder (`src/libflo/src/streaming/decoder.rs`)

The state machine, buffering, header/TOC parsing and the lossless frame
path are integer code and embedded in full.  The lossy `TransformDecoder`
(held in the Rust struct's `lossy_decoder` field and used only for
`Transform` frames) runs float IMDCT and is outside the embedding; a
decoded transform frame is marked `none` and the two fields that only
influence transform output (`lossy_decoder`, `skipped_preroll`) are
omitted from the state. -/

/-- `DecoderState` in `streaming/types.rs`. -/
inductive DecoderState where
  | WaitingForHeader
  | WaitingForToc
  | Ready
  | Finished
  | Error
deriving Repr, DecidableEq

/-- `StreamingDecoder` (see the section comment for the omitted lossy-only
fields).  `is_lossy` is kept: it is set by header parsing. -/
structure SDecoder where
  buffer : List Nat
  state : DecoderState
  header : Option Header
  toc : List TocEntry
  current_frame : Nat
  data_offset : Nat
  is_lossy : Bool
deriving Repr, DecidableEq

/-- `StreamingDecoder::new`. -/
def SDecoder.new : SDecoder :=
  { buffer := [], state := .WaitingForHeader, header := none, toc := [],
    current_frame := 0, data_offset := 0, is_lossy := false }

/-- `StreamingDecoder::try_parse_header`: needs 70 buffered bytes; bad magic
moves to the `Error` state and returns the error (nothing is stored). -/
def SDecoder.try_parse_header (d : SDecoder) : SDecoder × Except String Bool :=
  if d.buffer.length < 70 then (d, .ok false)
  else if d.buffer.take 4 ≠ MAGIC then
    ({ d with state := .Error }, .error "Invalid flo file: bad magic")
  else
    let b := d.buffer
    let header : Header :=
      { version_major := b.getD 4 0, version_minor := b.getD 5 0,
        flags := fromLe [b.getD 6 0, b.getD 7 0],
        sample_rate := fromLe ((List.range 4).map (fun i => b.getD (8 + i) 0)),
        channels := b.getD 12 0, bit_depth := b.getD 13 0,
        total_frames := fromLe ((List.range 8).map (fun i => b.getD (14 + i) 0)),
        compression_level := b.getD 22 0,
        data_crc32 := fromLe ((List.range 4).map (fun i => b.getD (26 + i) 0)),
        header_size := fromLe ((List.range 8).map (fun i => b.getD (30 + i) 0)),
        toc_size := fromLe ((List.range 8).map (fun i => b.getD (38 + i) 0)),
        data_size := fromLe ((List.range 8).map (fun i => b.getD (46 + i) 0)),
        extra_size := fromLe ((List.range 8).map (fun i => b.getD (54 + i) 0)),
        meta_size := fromLe ((List.range 8).map (fun i => b.getD (62 + i) 0)) }
    ({ d with is_lossy := header.flags % 2 = 1, header := some header }, .ok true)

/-- One TOC record at byte offset `off` of the streaming buffer. -/
def toc_entry_at (b : List Nat) (off : Nat) : TocEntry :=
  { frame_index := fromLe ((List.range 4).map (fun i => b.getD (off + i) 0)),
    byte_offset := fromLe ((List.range 8).map (fun i => b.getD (off + 4 + i) 0)),
    frame_size := fromLe ((List.range 4).map (fun i => b.getD (off + 12 + i) 0)),
    timestamp_ms := fromLe ((List.range 4).map (fun i => b.getD (off + 16 + i) 0)) }

/-- The entry loop of `StreamingDecoder::try_parse_toc`: pushes onto the
decoder's (possibly non-empty) `toc` and bails out with `false` when a
record would run past the buffer, keeping the entries pushed so far. -/
def toc_push_loop (b : List Nat) (entriesStart : Nat) :
    Nat → Nat → List TocEntry → List TocEntry × Bool
  | 0, _, acc => (acc, true)
  | n + 1, i, acc =>
    if entriesStart + i * 20 + 20 > b.length then (acc, false)
    else toc_push_loop b entriesStart n (i + 1) (acc ++ [toc_entry_at b (entriesStart + i * 20)])

/-- `StreamingDecoder::try_parse_toc`. -/
def SDecoder.try_parse_toc (d : SDecoder) : SDecoder × Except String Bool :=
  match d.header with
  | none => (d, .error "No header")
  | some h =>
    if d.buffer.length < 70 + h.toc_size then (d, .ok false)
    else if h.toc_size ≥ 4 then
      let n := fromLe ((List.range 4).map (fun i => d.buffer.getD (70 + i) 0))
      match toc_push_loop d.buffer 74 n 0 d.toc with
      | (toc, true) => ({ d with toc := toc, data_offset := 70 + h.toc_size }, .ok true)
      | (toc, false) => ({ d with toc := toc }, .ok false)
    else ({ d with data_offset := 70 + h.toc_size }, .ok true)

/-- `StreamingDecoder::count_complete_frames` (stops at the first TOC entry
whose frame end lies past the buffer). -/
def count_complete_loop (bufLen dataOffset : Nat) : List TocEntry → Nat
  | [] => 0
  | e :: rest =>
    if dataOffset + e.byte_offset + e.frame_size ≤ bufLen then
      1 + count_complete_loop bufLen dataOffset rest
    else 0

/-- `StreamingDecoder::count_complete_frames`. -/
def SDecoder.count_complete_frames (d : SDecoder) : Nat :=
  count_complete_loop d.buffer.length d.data_offset d.toc

/-- The `WaitingForToc` step of `StreamingDecoder::try_advance_state`. -/
def SDecoder.advance_from_toc (d : SDecoder) : SDecoder × Except String Bool :=
  match d.try_parse_toc with
  | (d, .error e) => (d, .error e)
  | (d, .ok true) => ({ d with state := .Ready }, .ok true)
  | (d, .ok false) => (d, .ok false)

/-- `StreamingDecoder::try_advance_state`: after a parsed header the Rust
code recurses once with the state set to `WaitingForToc`, which is exactly
the `advance_from_toc` step. -/
def SDecoder.try_advance_state (d : SDecoder) : SDecoder × Except String Bool :=
  match d.state with
  | .WaitingForHeader =>
    (match d.try_parse_header with
     | (d, .error e) => (d, .error e)
     | (d, .ok true) => SDecoder.advance_from_toc { d with state := .WaitingForToc }
     | (d, .ok false) => (d, .ok false))
  | .WaitingForToc => d.advance_from_toc
  | .Ready => (d, .ok (d.count_complete_frames > d.current_frame))
  | _ => (d, .ok false)

/-- `StreamingDecoder::feed`: in the `Error` and `Finished` states it
returns `Ok(false)` immediately (the buffer is not even extended). -/
def SDecoder.feed (d : SDecoder) (data : List Nat) : SDecoder × Except String Bool :=
  if d.state = .Error ∨ d.state = .Finished then (d, .ok false)
  else SDecoder.try_advance_state { d with buffer := d.buffer ++ data }

/-- `StreamingDecoder::parse_alpc_channel`. -/
def parse_alpc_channel (data : List Nat) : Except String ChannelData :=
  if data.isEmpty then .ok ChannelData.new_silence
  else
    let order := data.getD 0 0
    if order > 12 then .error "Invalid LPC order"
    else if data.length < 1 + order * 4 + 2 then .error "ALPC channel too small"
    else
      let coeffs := (List.range order).map (fun i =>
        toI32 (fromLe ((List.range 4).map (fun j => data.getD (1 + i * 4 + j) 0))))
      let sb := data.getD (1 + order * 4) 0
      let re := ResidualEncoding.ofByte (data.getD (1 + order * 4 + 1) 0)
      if re = .Rice then
        if 1 + order * 4 + 2 ≥ data.length then .error "Missing rice parameter"
        else .ok { predictor_coeffs := coeffs, shift_bits := sb,
                   residual_encoding := re,
                   rice_parameter := data.getD (1 + order * 4 + 2) 0,
                   residuals := data.drop (1 + order * 4 + 3) }
      else .ok { predictor_coeffs := coeffs, shift_bits := sb,
                 residual_encoding := re, rice_parameter := 0,
                 residuals := data.drop (1 + order * 4 + 2) }

/-- The channel loop of `StreamingDecoder::parse_frame`; the catch-all match
arm sends every non-Silence/Raw/Transform type (ALPC *and* Reserved) to
`parse_alpc_channel`. -/
def parse_frame_channels (data : List Nat) (ft : FrameType) :
    Nat → Nat → Except String (List ChannelData)
  | 0, _ => .ok []
  | n + 1, pos =>
    if pos + 4 > data.length then .error "Frame truncated"
    else
      let chSize := fromLe ((List.range 4).map (fun i => data.getD (pos + i) 0))
      if pos + 4 + chSize > data.length then .error "Channel data truncated"
      else do
        let ch ← (match ft with
          | .Silence => .ok ChannelData.new_silence
          | .Raw => .ok { predictor_coeffs := [], shift_bits := 0,
                          residual_encoding := .Raw, rice_parameter := 0,
                          residuals := (data.drop (pos + 4)).take chSize }
          | .Transform => .ok { predictor_coeffs := [], shift_bits := 0,
                                residual_encoding := .Raw, rice_parameter := 0,
                                residuals := (data.drop (pos + 4)).take chSize }
          | _ => parse_alpc_channel ((data.drop (pos + 4)).take chSize))
        let rest ← parse_frame_channels data ft n (pos + 4 + chSize)
        .ok (ch :: rest)

/-- `StreamingDecoder::parse_frame`. -/
def parse_frame (data : List Nat) (channels : Nat) : Except String Frame := do
  if data.length < 6 then .error "Frame too small"
  else
    let ftb := data.getD 0 0
    let ft := FrameType.ofByte ftb
    let chs ← parse_frame_channels data ft (if ft = .Transform then 1 else channels) 6
    .ok { frame_type := ftb,
          frame_samples := fromLe ((List.range 4).map (fun i => data.getD (1 + i) 0)),
          flags := data.getD 5 0, channels := chs }

/-- The prediction sum of the streaming `reconstruct_lpc_int`: unlike the
lossless decoder's, each term is guarded by `i > j`. -/
def s_lpc_prediction (coeffs samples : List Int) (i : Nat) : Int :=
  (List.range coeffs.length).foldl
    (fun p j => if i > j then wrap64 (p + coeffs.getD j 0 * samples.getD (i - j - 1) 0)
                else p) 0

/-- The reconstruction loop of the streaming `reconstruct_lpc_int`. -/
def s_reconstruct_lpc_loop (coeffs residuals : List Int) (shift : Nat) :
    Nat → List Int → Nat → List Int
  | 0, samples, _ => samples
  | fuel + 1, samples, i =>
    s_reconstruct_lpc_loop coeffs residuals shift fuel
      (samples ++ [wrap32 (wrap32 (Int.ediv (s_lpc_prediction coeffs samples i)
        (2 ^ (shift % 64))) + residuals.getD i 0)]) (i + 1)

/-- `StreamingDecoder::reconstruct_lpc_int` (pads with zeros, never
truncates). -/
def s_reconstruct_lpc_int (coeffs residuals : List Int) (shift order targetLen : Nat) :
    List Int :=
  let samples := s_reconstruct_lpc_loop coeffs residuals shift
    (min targetLen residuals.length - order)
    (residuals.take (min order residuals.length)) order
  samples ++ List.replicate (targetLen - samples.length) 0

/-- `StreamingDecoder::decode_channel_int`.  `reconstruct_fixed` is
byte-for-byte the same function as the lossless decoder's and is shared;
the LPC branch additionally dispatches on the residual encoding, the
non-Rice case being exactly the i16 chunking of `raw_pcm_channel`. -/
def s_decode_channel_int (ch : ChannelData) (frameSamples : Nat) : List Int :=
  if ch.predictor_coeffs.isEmpty ∧ ¬ch.residuals.isEmpty ∧ ch.shift_bits ≥ 128 then
    reconstruct_fixed (ch.shift_bits - 128)
      (decode_i32 ch.residuals ch.rice_parameter frameSamples) frameSamples
  else if ¬ch.predictor_coeffs.isEmpty then
    let residuals := match ch.residual_encoding with
      | .Rice => decode_i32 ch.residuals ch.rice_parameter frameSamples
      | _ => raw_pcm_channel ch.residuals frameSamples
    s_reconstruct_lpc_int ch.predictor_coeffs residuals ch.shift_bits
      ch.predictor_coeffs.length frameSamples
  else if ¬ch.residuals.isEmpty then raw_pcm_channel ch.residuals frameSamples
  else List.replicate frameSamples 0

/-- `StreamingDecoder::decode_frame` at the integer stage (`none` marks the
float transform branch). -/
def s_decode_frame_int (frame : Frame) (h : Header) : Option (List Int) :=
  if FrameType.ofByte frame.frame_type = .Transform then none
  else
    let fc := frame.channels.map (fun ch => s_decode_channel_int ch frame.frame_samples)
    let all := if h.channels = 2 ∧ frame.flags % 2 = 1 ∧ fc.length = 2 then
        [(decode_mid_side (fc.getD 0 []) (fc.getD 1 [])).1,
         (decode_mid_side (fc.getD 0 []) (fc.getD 1 [])).2]
      else (List.range h.channels).map (fun i => fc.getD i [])
    some (interleave_int h.channels all)

/-- `StreamingDecoder::next_frame`: in any state other than `Ready`
(including `Error`) it returns `Ok(None)` at once.  The result's outer
`Option` is Rust's (`none` = nothing ready), the inner one marks a frame
decoded by the float transform path. -/
def SDecoder.next_frame (d : SDecoder) :
    SDecoder × Except String (Option (Option (List Int))) :=
  if d.state ≠ .Ready then (d, .ok none)
  else match d.header with
    | none => (d, .error "No header")
    | some h =>
      if d.current_frame ≥ d.toc.length then ({ d with state := .Finished }, .ok none)
      else
        let e := d.toc.getD d.current_frame
          { frame_index := 0, byte_offset := 0, frame_size := 0, timestamp_ms := 0 }
        let frameStart := d.data_offset + e.byte_offset
        if frameStart + e.frame_size > d.buffer.length then (d, .ok none)
        else
          match parse_frame ((d.buffer.drop frameStart).take e.frame_size) h.channels with
          | .error err => (d, .error err)
          | .ok frame =>
            ({ d with current_frame := d.current_frame + 1 },
             .ok (some (s_decode_frame_int frame h)))

/-- `update_metadata_bytes` in `lib.rs`.  The outer `Option` distinguishes
the two Rust panic sites (the `flo_data[..meta_offset]` slice and the
8-byte `copy_from_slice` at offset 62) from the `FloResult` error paths;
both slices are in range for every file the writer produces. -/
def update_metadata_bytes (flo_data new_metadata : List Nat) :
    Option (Except String (List Nat)) :=
  if flo_data.length < HEADER_SIZE then some (.error "File too small to be valid flo")
  else if flo_data.take 4 ≠ MAGIC then some (.error "Invalid flo file: bad magic")
  else match reader_read flo_data with
    | .error e => some (.error e)
    | .ok file =>
      let metaOffset := 4 + file.header.header_size + file.header.toc_size +
        file.header.data_size + file.header.extra_size
      if flo_data.length < metaOffset then none
      else
        let result := flo_data.take metaOffset ++ new_metadata
        if result.length < 70 then none
        else some (.ok (setBytes result 62 (leBytes 8 new_metadata.length)))


/-! ## Round-trip well-formedness and parsed-output descriptions

Verification artifacts used by the read-of-write characterization: the
header/TOC values the reader recovers from a written file, and the
decidable well-formedness classes under which a frame serializes and
parses back exactly. -/

/-- The TOC entries parsed back from `toc_entries_bytes`. -/
def writtenTocAux : List Frame → Nat → Nat → List TocEntry
  | [], _, _ => []
  | f :: rest, i, off =>
    { frame_index := i, byte_offset := off, frame_size := f.byte_size % 4294967296,
      timestamp_ms := i * 1000 % 4294967296 } ::
    writtenTocAux rest (i + 1) (off + f.byte_size % 4294967296)

/-- Total of the (u32-truncated) frame sizes. -/
def sizeSum (fs : List Frame) : Nat :=
  (fs.map (fun f => f.byte_size % 4294967296)).sum

/-- Well-formedness of an ALPC channel blob for exact write/read round-trip. -/
def chanWF_alpc (c : ChannelData) : Prop :=
  c.predictor_coeffs.length ≤ 12 ∧
  (∀ x ∈ c.predictor_coeffs, -2147483648 ≤ x ∧ x < 2147483648) ∧
  c.shift_bits < 256 ∧
  (c.residual_encoding = .Rice → c.rice_parameter < 256) ∧
  (c.residual_encoding ≠ .Rice → c.rice_parameter = 0)

/-- Well-formedness of one channel blob for the given frame type. -/
def chanWF (ft : FrameType) (samples : Nat) (c : ChannelData) : Prop :=
  if ft = .Silence then c = ChannelData.new_silence
  else if ft = .Raw then
    c = ChannelData.new_raw c.residuals ∧ c.residuals.length ≤ 2 * samples
  else chanWF_alpc c

/-- Well-formedness of a frame for exact write/read round-trip. -/
def frameWF (numCh : Nat) (f : Frame) : Prop :=
  f.frame_type < 256 ∧ f.flags < 256 ∧ f.frame_samples ≤ 2000000 ∧
  f.channels.length = numCh ∧
  (FrameType.ofByte f.frame_type = .Silence ∨ FrameType.ofByte f.frame_type = .Raw ∨
    (FrameType.ofByte f.frame_type).is_alpc = true) ∧
  ∀ c ∈ f.channels, chanWF (FrameType.ofByte f.frame_type) f.frame_samples c

/-- The first 62 header bytes (everything before the `meta_size` field). -/
def hdr62 (sr ch bd cl tf crc flags ts ds es : Nat) : List Nat :=
  MAGIC ++ [VERSION_MAJOR] ++ [VERSION_MINOR] ++ leBytes 2 flags ++
  leBytes 4 sr ++ [ch % 256] ++ [bd % 256] ++ leBytes 8 tf ++ [cl % 256] ++ [0, 0, 0] ++
  leBytes 4 crc ++ leBytes 8 HEADER_SIZE ++ leBytes 8 ts ++ leBytes 8 ds ++ leBytes 8 es

/-- The parsed header of a file written by `write_header_ex`. -/
def writtenHeader (sr ch bd cl tf crc flags ts ds es ms : Nat) : Header :=
  { version_major := 1, version_minor := 0, flags := flags, sample_rate := sr,
    channels := ch, bit_depth := bd, total_frames := tf, compression_level := cl,
    data_crc32 := crc, header_size := 66, toc_size := ts, data_size := ds,
    extra_size := es, meta_size := ms }

instance (c : ChannelData) : Decidable (chanWF_alpc c) := by
  unfold chanWF_alpc
  infer_instance

instance (ft : FrameType) (s : Nat) (c : ChannelData) : Decidable (chanWF ft s c) := by
  unfold chanWF
  infer_instance

instance (n : Nat) (f : Frame) : Decidable (frameWF n f) := by
  unfold frameWF
  infer_instance

end Flo

namespace Flo

/-! ## Bit-level simulation lemmas -/

theorem natBit_eq (x i : Nat) : ((x >>> i) &&& 1 != 0) = x.testBit i := by
  rw [Nat.testBit, Nat.and_comm]

theorem testBit_false_of_mod_two_pow {c m j : Nat} (h : c % 2 ^ m = 0) (hj : j < m) :
    c.testBit j = false := by
  have h1 := Nat.testBit_mod_two_pow c m j
  rw [h, Nat.zero_testBit] at h1
  simpa [hj] using h1.symm

theorem byteBits_length (b : Nat) : (byteBits b).length = 8 := by
  simp [byteBits]

theorem bitsOf_nil : bitsOf [] = [] := rfl

theorem bitsOf_cons (b : Nat) (bs : List Nat) : bitsOf (b :: bs) = byteBits b ++ bitsOf bs := by
  simp [bitsOf]

theorem bitsOf_append (xs ys : List Nat) : bitsOf (xs ++ ys) = bitsOf xs ++ bitsOf ys := by
  simp [bitsOf]

theorem bitsOf_length (bs : List Nat) : (bitsOf bs).length = 8 * bs.length := by
  induction bs with
  | nil => rfl
  | cons b t ih => rw [bitsOf_cons, List.length_append, byteBits_length, ih, List.length_cons]; ring

theorem WInv_new : WInv BitWriter.new :=
  ⟨by decide, by decide, by decide⟩

theorem writerBits_new : writerBits BitWriter.new = [] := rfl

theorem write_bit_spec (w : BitWriter) (hw : WInv w) (b : Nat) :
    writerBits (w.write_bit b) = writerBits w ++ [b != 0] ∧ WInv (w.write_bit b) := by
  obtain ⟨hpos, hlt, hlow⟩ := hw
  set c := w.currentByte with hc
  set cur := if b ≠ 0 then c ||| (1 <<< (7 - w.bitPos)) else c with hcur
  have hcur_lt : cur < 256 := by
    rw [hcur]
    split
    · have h1 : (1 : Nat) <<< (7 - w.bitPos) < 256 := by
        rw [Nat.one_shiftLeft]
        calc 2 ^ (7 - w.bitPos) ≤ 2 ^ 7 := Nat.pow_le_pow_right (by norm_num) (by omega)
        _ < 256 := by norm_num
      exact Nat.or_lt_two_pow (n := 8) hlt h1
    · exact hlt
  have hkeep : ∀ i, i < w.bitPos → cur.testBit (7 - i) = c.testBit (7 - i) := by
    intro i hi
    rw [hcur]
    split
    · rw [Nat.testBit_or, Nat.one_shiftLeft, Nat.testBit_two_pow]
      have : ¬ (7 - w.bitPos = 7 - i) := by omega
      simp [this]
    · rfl
  have hnew : cur.testBit (7 - w.bitPos) = (b != 0) := by
    rw [hcur]
    have hcbit : c.testBit (7 - w.bitPos) = false :=
      testBit_false_of_mod_two_pow hlow (by omega)
    split
    · rename_i hb
      rw [Nat.testBit_or, Nat.one_shiftLeft, Nat.testBit_two_pow, hcbit]
      simp [hb]
    · rename_i hb
      rw [hcbit]
      simp at hb
      simp [hb]
  constructor
  · show writerBits (if w.bitPos + 1 = 8 then _ else _) = _
    split
    · rename_i h8
      have hbp : w.bitPos = 7 := by omega
      show bitsOf (w.bytes ++ [cur]) ++ (List.range 0).map _ = _
      rw [bitsOf_append, List.range_zero, List.map_nil, List.append_nil]
      have hbyte : byteBits cur =
          (List.range w.bitPos).map (fun i => (c % 256).testBit (7 - i)) ++ [b != 0] := by
        rw [byteBits, hbp]
        have : List.range 8 = List.range 7 ++ [7] := List.range_succ 7
        rw [this, List.map_append, List.map_singleton]
        congr 1
        · apply List.map_congr_left
          intro i hi
          rw [List.mem_range] at hi
          rw [Nat.mod_eq_of_lt hcur_lt, Nat.mod_eq_of_lt hlt]
          exact hkeep i (by omega)
        · rw [Nat.mod_eq_of_lt hcur_lt]
          have := hnew
          rw [hbp] at this
          simp only [this]
      rw [show bitsOf [cur] = byteBits cur by simp [bitsOf], hbyte, writerBits]
      rw [List.append_assoc]
    · rename_i h8
      show bitsOf w.bytes ++ (List.range (w.bitPos + 1)).map
          (fun i => (cur % 256).testBit (7 - i)) = _
      rw [writerBits, List.append_assoc]
      congr 1
      rw [List.range_succ, List.map_append, List.map_singleton]
      congr 1
      · apply List.map_congr_left
        intro i hi
        rw [List.mem_range] at hi
        rw [Nat.mod_eq_of_lt hcur_lt, Nat.mod_eq_of_lt hlt]
        exact hkeep i hi
      · rw [Nat.mod_eq_of_lt hcur_lt, hnew]
  · show WInv (if w.bitPos + 1 = 8 then _ else _)
    split
    · refine ⟨?_, ?_, ?_⟩
      · show (0 : Nat) < 8
        decide
      · show (0 : Nat) < 256
        decide
      · show (0 : Nat) % 2 ^ (8 - 0) = 0
        decide
    · rename_i h8
      refine ⟨?_, ?_, ?_⟩
      · show w.bitPos + 1 < 8
        omega
      · show cur < 256
        exact hcur_lt
      show cur % 2 ^ (8 - (w.bitPos + 1)) = 0
      have hbits : ∀ j, j < 8 - (w.bitPos + 1) → cur.testBit j = false := by
        intro j hj
        rw [hcur]
        have hcb : c.testBit j = false := testBit_false_of_mod_two_pow hlow (by omega)
        split
        · rw [Nat.testBit_or, Nat.one_shiftLeft, Nat.testBit_two_pow, hcb]
          have : ¬ (7 - w.bitPos = j) := by omega
          simp [this]
        · exact hcb
      apply Nat.eq_of_testBit_eq
      intro i
      rw [Nat.testBit_mod_two_pow, Nat.zero_testBit]
      by_cases hi : i < 8 - (w.bitPos + 1)
      · simp [hi, hbits i hi]
      · have h7 : ¬ i < 7 - w.bitPos := by omega
        simp [hi, h7]

theorem foldl_write_spec {α : Type} (f : α → Nat) (ls : List α) (w : BitWriter) (hw : WInv w) :
    writerBits (ls.foldl (fun w x => w.write_bit (f x)) w) =
      writerBits w ++ ls.map (fun x => f x != 0) ∧
    WInv (ls.foldl (fun w x => w.write_bit (f x)) w) := by
  induction ls generalizing w with
  | nil => exact ⟨by simp, hw⟩
  | cons x t ih =>
    obtain ⟨h1, h2⟩ := write_bit_spec w hw (f x)
    obtain ⟨h3, h4⟩ := ih (w.write_bit (f x)) h2
    rw [List.foldl_cons]
    refine ⟨?_, h4⟩
    rw [h3, h1, List.map_cons, List.append_assoc, List.singleton_append]

theorem into_bytes_spec (w : BitWriter) (hw : WInv w) :
    bitsOf w.into_bytes = writerBits w ++ List.replicate ((8 - w.bitPos) % 8) false := by
  obtain ⟨hpos, hlt, hlow⟩ := hw
  rw [BitWriter.into_bytes]
  split
  · rename_i hbp
    rw [bitsOf_append, writerBits, List.append_assoc]
    congr 1
    rw [show bitsOf [w.currentByte] = byteBits w.currentByte by simp [bitsOf]]
    have hmod : (8 - w.bitPos) % 8 = 8 - w.bitPos := Nat.mod_eq_of_lt (by omega)
    rw [hmod, byteBits]
    apply List.ext_getElem?
    intro i
    rw [List.getElem?_map, List.getElem?_append]
    simp only [List.length_map, List.length_range]
    by_cases hi : i < 8
    · rw [List.getElem?_range hi]
      by_cases h2 : i < w.bitPos
      · rw [if_pos h2, List.getElem?_map, List.getElem?_range h2]
      · rw [if_neg h2, List.getElem?_replicate]
        have hibound : i - w.bitPos < 8 - w.bitPos := by omega
        rw [if_pos hibound]
        have hbit : (w.currentByte % 256).testBit (7 - i) = false := by
          rw [Nat.mod_eq_of_lt hlt]
          exact testBit_false_of_mod_two_pow hlow (by omega)
        show some ((w.currentByte % 256).testBit (7 - i)) = some false
        rw [hbit]
    · have hr : (List.range 8)[i]? = none := List.getElem?_eq_none (by simpa using by omega)
      rw [hr]
      have h2 : ¬ i < w.bitPos := by omega
      rw [if_neg h2]
      have hr2 : (List.replicate (8 - w.bitPos) false)[i - w.bitPos]? = none :=
        List.getElem?_eq_none (by simpa using by omega)
      rw [hr2]
      rfl
  · rename_i hbp
    have hbp0 : w.bitPos = 0 := by omega
    rw [writerBits, hbp0]
    simp

theorem foldl_write_ones_spec (n : Nat) (w : BitWriter) (hw : WInv w) :
    writerBits ((List.range n).foldl (fun w _ => w.write_bit 1) w) =
      writerBits w ++ List.replicate n true ∧
    WInv ((List.range n).foldl (fun w _ => w.write_bit 1) w) := by
  induction n with
  | zero => exact ⟨by simp, hw⟩
  | succ m ih =>
    obtain ⟨h1, h2⟩ := ih
    rw [List.range_succ, List.foldl_append, List.foldl_cons, List.foldl_nil]
    obtain ⟨h3, h4⟩ := write_bit_spec _ h2 1
    refine ⟨?_, h4⟩
    rw [h3, h1, List.append_assoc, List.replicate_succ']
    rfl

theorem encode_sample_spec (w : BitWriter) (hw : WInv w) (s : Int) (k : Nat) :
    writerBits (encode_sample w s k) = writerBits w ++ encodeSampleBits s k ∧
    WInv (encode_sample w s k) := by
  unfold encode_sample
  obtain ⟨h1, h2⟩ := foldl_write_ones_spec (min (shr32 (zigzag s) k) 255) w hw
  obtain ⟨h3, h4⟩ := write_bit_spec _ h2 0
  obtain ⟨h5, h6⟩ :=
    foldl_write_spec (fun i => shr32 (zigzag s &&& (shl32 1 k - 1)) i &&& 1)
      ((List.range k).reverse) _ h4
  refine ⟨?_, h6⟩
  rw [h5, h3, h1, encodeSampleBits]
  simp only [List.append_assoc, List.singleton_append]
  rfl

theorem foldl_encode_samples (rs : List Int) (k : Nat) (w : BitWriter) (hw : WInv w) :
    writerBits (rs.foldl (fun w s => encode_sample w s k) w) =
      writerBits w ++ rs.flatMap (fun s => encodeSampleBits s k) ∧
    WInv (rs.foldl (fun w s => encode_sample w s k) w) := by
  induction rs generalizing w with
  | nil => exact ⟨by simp, hw⟩
  | cons s t ih =>
    obtain ⟨h1, h2⟩ := encode_sample_spec w hw s k
    obtain ⟨h3, h4⟩ := ih _ h2
    rw [List.foldl_cons]
    refine ⟨?_, h4⟩
    rw [h3, h1, List.flatMap_cons, List.append_assoc]

theorem encode_i32_spec (rs : List Int) (k : Nat) :
    ∃ p, bitsOf (encode_i32 rs k) =
      rs.flatMap (fun s => encodeSampleBits s k) ++ List.replicate p false := by
  obtain ⟨h1, h2⟩ := foldl_encode_samples rs k BitWriter.new WInv_new
  refine ⟨(8 - (rs.foldl (fun w s => encode_sample w s k) BitWriter.new).bitPos) % 8, ?_⟩
  rw [encode_i32, into_bytes_spec _ h2, h1, writerBits_new, List.nil_append]

theorem bitsOf_getElem? (bs : List Nat) (bp bi : Nat) (hbi : bi < 8) (hbp : bp < bs.length) :
    (bitsOf bs)[8 * bp + bi]? = some ((bs.getD bp 0 % 256).testBit (7 - bi)) := by
  induction bs generalizing bp with
  | nil => simp at hbp
  | cons b t ih =>
    cases bp with
    | zero =>
      rw [bitsOf_cons, List.getElem?_append]
      rw [byteBits_length]
      rw [Nat.mul_zero, Nat.zero_add, if_pos hbi]
      rw [byteBits, List.getElem?_map, List.getElem?_range hbi]
      rfl
    | succ p =>
      rw [bitsOf_cons, List.getElem?_append, byteBits_length]
      have hn : ¬ (8 * (p + 1) + bi < 8) := by omega
      rw [if_neg hn]
      have he : 8 * (p + 1) + bi - 8 = 8 * p + bi := by omega
      rw [he]
      have hd : (b :: t).getD (p + 1) 0 = t.getD p 0 := by simp [List.getD]
      rw [hd]
      exact ih p (by simpa using hbp)

theorem is_exhausted_iff_rdrop {r : BitReader} (hInv : r.bitPos < 8) :
    r.is_exhausted = true ↔ rdrop r = [] := by
  rw [BitReader.is_exhausted, decide_eq_true_iff, rdrop, List.drop_eq_nil_iff,
    bitsOf_length, BitReader.pos]
  omega

theorem shiftRight_and_one (x j : Nat) :
    (x >>> j) &&& 1 = bif x.testBit j then 1 else 0 := by
  rw [Nat.and_one_is_mod, Nat.testBit_to_div_mod, Nat.shiftRight_eq_div_pow]
  rcases Nat.mod_two_eq_zero_or_one (x / 2 ^ j) with h | h <;> simp [h]

theorem read_bit_nil {r : BitReader} (hInv : r.bitPos < 8) (h : rdrop r = []) :
    r.read_bit = (0, r) := by
  have hex : r.is_exhausted = true := (is_exhausted_iff_rdrop hInv).mpr h
  rw [BitReader.is_exhausted, decide_eq_true_iff] at hex
  rw [BitReader.read_bit, if_pos hex]

theorem read_bit_cons {r : BitReader} {b : Bool} {rest : List Bool} (hInv : r.bitPos < 8)
    (h : rdrop r = b :: rest) :
    ∃ r2, r.read_bit = ((bif b then 1 else 0), r2) ∧ r2.bytes = r.bytes ∧ r2.bitPos < 8 ∧
      rdrop r2 = rest := by
  have hlt : r.pos < (bitsOf r.bytes).length := by
    by_contra hcon
    rw [rdrop, List.drop_eq_nil_of_le (by omega)] at h
    exact List.noConfusion h
  have hbp : r.bytePos < r.bytes.length := by
    rw [bitsOf_length] at hlt
    have := hInv
    unfold BitReader.pos at hlt
    omega
  have hsome : (bitsOf r.bytes)[r.pos]? = some b := by
    rw [← List.head?_drop]
    rw [rdrop] at h
    rw [h]
    rfl
  have hbit := bitsOf_getElem? r.bytes r.bytePos r.bitPos hInv hbp
  have hb : b = (r.bytes.getD r.bytePos 0 % 256).testBit (7 - r.bitPos) := by
    rw [show (8 : Nat) * r.bytePos + r.bitPos = r.pos from rfl] at hbit
    rw [hbit] at hsome
    exact (Option.some_inj.mp hsome).symm
  have hnotex : ¬ (r.bytes.length ≤ r.bytePos) := by omega
  have hdrop1 : ∀ r2 : BitReader, r2.bytes = r.bytes → r2.pos = r.pos + 1 → rdrop r2 = rest := by
    intro r2 hb2 hp2
    rw [rdrop, hb2, hp2]
    have : (bitsOf r.bytes).drop (r.pos + 1) = ((bitsOf r.bytes).drop r.pos).drop 1 := by
      rw [List.drop_drop]
    rw [this]
    rw [rdrop] at h
    rw [h, List.drop_one, List.tail_cons]
  rw [BitReader.read_bit, if_neg hnotex]
  have hbitval : (r.bytes.getD r.bytePos 0 % 256) >>> (7 - r.bitPos) &&& 1 =
      bif b then 1 else 0 := by
    rw [hb]
    exact shiftRight_and_one _ _
  by_cases h8 : r.bitPos + 1 = 8
  · refine ⟨{ r with bitPos := 0, bytePos := r.bytePos + 1 }, ?_, rfl,
      by show (0 : Nat) < 8; decide, ?_⟩
    · simp only [h8, if_pos, hbitval]
    · exact hdrop1 _ rfl (by show 8 * (r.bytePos + 1) + 0 = 8 * r.bytePos + r.bitPos + 1; omega)
  · refine ⟨{ r with bitPos := r.bitPos + 1 }, ?_, rfl,
      by show r.bitPos + 1 < 8; omega, ?_⟩
    · simp only [h8, if_neg, hbitval]
      rfl
    · exact hdrop1 _ rfl (by show 8 * r.bytePos + (r.bitPos + 1) = 8 * r.bytePos + r.bitPos + 1; omega)

theorem not_exhausted_of_rdrop_cons {r : BitReader} {b : Bool} {rest : List Bool}
    (hInv : r.bitPos < 8) (h : rdrop r = b :: rest) : ¬ (r.is_exhausted = true) := by
  rw [is_exhausted_iff_rdrop hInv, h]
  exact fun hc => List.noConfusion hc

theorem readQuotientAux_spec (n : Nat) :
    ∀ (r : BitReader) (q fuel : Nat) (rest : List Bool), r.bitPos < 8 →
    rdrop r = List.replicate n true ++ false :: rest → q + n ≤ 255 → n + 1 ≤ fuel →
    ∃ r2, readQuotientAux r q fuel = (q + n, r2) ∧ r2.bytes = r.bytes ∧ r2.bitPos < 8 ∧
      rdrop r2 = rest := by
  induction n with
  | zero =>
    intro r q fuel rest hInv h hq hfuel
    rw [List.replicate_zero, List.nil_append] at h
    obtain ⟨f, rfl⟩ := Nat.exists_eq_add_of_le hfuel
    obtain ⟨r2, hr, hb2, hp2, hd2⟩ := read_bit_cons hInv h
    refine ⟨r2, ?_, hb2, hp2, hd2⟩
    have hf1 : 0 + 1 + f = f + 1 := by omega
    rw [hf1, readQuotientAux, if_neg (not_exhausted_of_rdrop_cons hInv h)]
    rw [hr]
    simp
  | succ m ih =>
    intro r q fuel rest hInv h hq hfuel
    rw [List.replicate_succ, List.cons_append] at h
    obtain ⟨f, rfl⟩ := Nat.exists_eq_add_of_le hfuel
    obtain ⟨r1, hr, hb1, hp1, hd1⟩ := read_bit_cons hInv h
    have hrec := ih r1 (q + 1) (m + 1 + f) rest hp1 hd1 (by omega) (by omega)
    obtain ⟨r2, hr2, hb2, hp2, hd2⟩ := hrec
    refine ⟨r2, ?_, by rw [hb2, hb1], hp2, hd2⟩
    have hfs : m + 1 + 1 + f = (m + 1 + f) + 1 := by omega
    rw [hfs, readQuotientAux, if_neg (not_exhausted_of_rdrop_cons hInv h)]
    rw [hr]
    rw [if_neg (show ¬ ((bif true then 1 else 0, r1).1 ≠ 1) by simp)]
    rw [if_neg (show ¬ (q + 1 > 255) by omega)]
    rw [hr2]
    have : q + 1 + m = q + (m + 1) := by omega
    rw [this]

theorem msbBits_succ (k v : Nat) : msbBits (k + 1) v = v.testBit k :: msbBits k v := by
  rw [msbBits, msbBits, List.range_succ, List.reverse_append, List.reverse_singleton,
    List.singleton_append, List.map_cons]

theorem msbBits_mod (k v : Nat) : msbBits k v = msbBits k (v % 2 ^ k) := by
  rw [msbBits, msbBits]
  apply List.map_congr_left
  intro i hi
  rw [List.mem_reverse, List.mem_range] at hi
  rw [Nat.testBit_mod_two_pow]
  simp [hi]

theorem two_mul_or_bit (a b : Nat) (hb : b ≤ 1) : 2 * a ||| b = 2 * a + b := by
  interval_cases b
  · simp [Nat.or_zero]
  · apply Nat.eq_of_testBit_eq
    intro i
    cases i with
    | zero => simp [Nat.testBit_or, Nat.testBit_zero, Nat.mul_add_mod]
    | succ j => rw [Nat.testBit_or]; simp [Nat.testBit_succ, Nat.mul_add_div]

theorem readRemainderAux_spec (k : Nat) :
    ∀ (r : BitReader) (acc v : Nat) (rest : List Bool), r.bitPos < 8 →
    rdrop r = msbBits k v ++ rest → v < 2 ^ k → k ≤ 15 → acc < 2 ^ (31 - k) →
    ∃ r2, readRemainderAux r acc k = (acc * 2 ^ k + v, r2) ∧ r2.bytes = r.bytes ∧
      r2.bitPos < 8 ∧ rdrop r2 = rest := by
  induction k with
  | zero =>
    intro r acc v rest hInv h hv _ _
    have hv0 : v = 0 := by omega
    subst hv0
    rw [msbBits, List.range_zero] at h
    simp only [List.reverse_nil, List.map_nil, List.nil_append] at h
    exact ⟨r, by rw [readRemainderAux]; congr 1; omega, rfl, hInv, h⟩
  | succ m ih =>
    intro r acc v rest hInv h hv hk hacc
    rw [msbBits_succ, List.cons_append] at h
    obtain ⟨r1, hr, hb1, hp1, hd1⟩ := read_bit_cons hInv h
    have hd1m : rdrop r1 = msbBits m (v % 2 ^ m) ++ rest := by
      rw [hd1, ← msbBits_mod]
    have hpos : 0 < 2 ^ m := Nat.pos_pow_of_pos m (by norm_num)
    have hdiv : v / 2 ^ m < 2 := by
      rw [Nat.div_lt_iff_lt_mul hpos]
      calc v < 2 ^ (m + 1) := hv
      _ = 2 * 2 ^ m := by ring
    have hbit : (bif v.testBit m then 1 else 0) = v / 2 ^ m := by
      rw [Nat.testBit_to_div_mod]
      have hd01 : v / 2 ^ m = 0 ∨ v / 2 ^ m = 1 :=
        Nat.le_one_iff_eq_zero_or_eq_one.mp (Nat.lt_succ_iff.mp hdiv)
      rcases hd01 with h0 | h1
      · rw [h0]; simp
      · rw [h1]; simp
    have h2le : 2 ^ (31 - (m + 1)) ≤ 2 ^ 30 :=
      Nat.pow_le_pow_right (by norm_num) (by omega)
    have hacc30 : acc < 2 ^ 30 := lt_of_lt_of_le hacc h2le
    have hacc1 : shl32 acc 1 ||| (bif v.testBit m then 1 else 0) = 2 * acc + v / 2 ^ m := by
      have hsh : shl32 acc 1 = 2 * acc := by
        rw [shl32]
        have h1 : (1 : Nat) % 32 = 1 := by norm_num
        rw [h1, Nat.shiftLeft_eq, Nat.mod_eq_of_lt]
        · ring
        · have : acc * 2 ^ 1 = 2 * acc := by ring
          rw [this]
          omega
      rw [hsh, hbit, two_mul_or_bit _ _ (Nat.lt_succ_iff.mp hdiv)]
    have haccrec : 2 * acc + v / 2 ^ m < 2 ^ (31 - m) := by
      have h31 : 31 - m = (31 - (m + 1)) + 1 := by omega
      rw [h31, pow_succ]
      omega
    have hrec := ih r1 (2 * acc + v / 2 ^ m) (v % 2 ^ m) rest hp1 hd1m
      (Nat.mod_lt _ hpos) (by omega) haccrec
    obtain ⟨r2, hr2, hb2, hp2, hd2⟩ := hrec
    refine ⟨r2, ?_, by rw [hb2, hb1], hp2, hd2⟩
    rw [readRemainderAux]
    rw [hr]
    simp only
    rw [hacc1, hr2]
    have heq : (2 * acc + v / 2 ^ m) * 2 ^ m + v % 2 ^ m = acc * 2 ^ (m + 1) + v := by
      calc (2 * acc + v / 2 ^ m) * 2 ^ m + v % 2 ^ m
          = acc * (2 ^ m * 2) + (2 ^ m * (v / 2 ^ m) + v % 2 ^ m) := by ring
      _ = acc * 2 ^ (m + 1) + v := by rw [Nat.div_add_mod, pow_succ]
    rw [heq]

theorem zigzag_lt (s : Int) : zigzag s < 4294967296 := by
  rw [zigzag]
  split <;> exact Nat.mod_lt _ (by norm_num)

theorem unzigzag_zigzag {s : Int} (h1 : -2147483648 ≤ s) (h2 : s < 2147483648) :
    unzigzag (zigzag s) = s := by
  rcases le_or_lt 0 s with hs | hs
  · have hz : zigzag s = (2 * s).toNat := by
      rw [zigzag, if_pos hs]
      exact Nat.mod_eq_of_lt (by omega)
    rw [hz, unzigzag, if_neg (by omega)]
    omega
  · have hz : zigzag s = (2 * (-s) - 1).toNat := by
      rw [zigzag, if_neg (by omega)]
      exact Nat.mod_eq_of_lt (by omega)
    rw [hz, unzigzag, if_pos (by omega)]
    omega

theorem shiftRight_shiftLeft_or_mod (z k : Nat) : (z >>> k) <<< k ||| z % 2 ^ k = z := by
  apply Nat.eq_of_testBit_eq
  intro i
  rw [Nat.testBit_or, Nat.testBit_shiftLeft, Nat.testBit_shiftRight, Nat.testBit_mod_two_pow]
  by_cases hik : k ≤ i
  · have he : k + (i - k) = i := by omega
    rw [he]
    have h2 : ¬ (i < k) := by omega
    simp [hik, h2]
  · have h2 : i < k := by omega
    simp [hik, h2]

theorem encodeSampleBits_eq (s : Int) (k : Nat) (hk : k ≤ 15) (hcap : zigzag s >>> k ≤ 255) :
    encodeSampleBits s k =
      List.replicate (zigzag s >>> k) true ++ false :: msbBits k (zigzag s % 2 ^ k) := by
  have hzlt : zigzag s < 4294967296 := zigzag_lt s
  have hk32 : k % 32 = k := Nat.mod_eq_of_lt (by omega)
  have hshr : shr32 (zigzag s) k = zigzag s >>> k := by
    rw [shr32, Nat.mod_eq_of_lt hzlt, hk32]
  have hshl : shl32 1 k = 2 ^ k := by
    rw [shl32, hk32, Nat.one_shiftLeft, Nat.mod_eq_of_lt]
    exact lt_of_le_of_lt (Nat.pow_le_pow_right (by norm_num) hk) (by norm_num)
  rw [encodeSampleBits, hshr, hshl, Nat.and_pow_two_sub_one_eq_mod, min_eq_left hcap,
    List.append_assoc, List.singleton_append]
  congr 2
  rw [msbBits]
  apply List.map_congr_left
  intro i hi
  rw [List.mem_reverse, List.mem_range] at hi
  have hmlt : zigzag s % 2 ^ k < 4294967296 := by
    calc zigzag s % 2 ^ k < 2 ^ k := Nat.mod_lt _ (Nat.pos_pow_of_pos k (by norm_num))
    _ ≤ 2 ^ 15 := Nat.pow_le_pow_right (by norm_num) hk
    _ < 4294967296 := by norm_num
  rw [shr32, Nat.mod_eq_of_lt hmlt, Nat.mod_eq_of_lt (show i < 32 by omega)]
  exact natBit_eq _ i

theorem not_exhausted_of_rdrop_ne_nil {r : BitReader} (hInv : r.bitPos < 8)
    (h : rdrop r ≠ []) : ¬ (r.is_exhausted = true) := by
  rw [is_exhausted_iff_rdrop hInv]
  exact h

theorem decodeLoop_length (n : Nat) : ∀ (r : BitReader) (k : Nat),
    (decodeLoop r k n).length = n := by
  induction n with
  | zero => intro r k; rfl
  | succ m ih =>
    intro r k
    rw [decodeLoop]
    split
    · rw [List.length_cons, ih]
    · rw [List.length_cons, ih]

theorem decodeLoop_exhausted (n : Nat) : ∀ (r : BitReader) (k : Nat), r.is_exhausted = true →
    decodeLoop r k n = List.replicate n 0 := by
  induction n with
  | zero => intro r k _; rfl
  | succ m ih =>
    intro r k h
    rw [decodeLoop, if_pos h, ih r k h, List.replicate_succ]

theorem decodeLoop_roundtrip (rs : List Int) : ∀ (r : BitReader) (k : Nat) (extra : List Bool),
    r.bitPos < 8 → rdrop r = rs.flatMap (fun s => encodeSampleBits s k) ++ extra → k ≤ 15 →
    (∀ s ∈ rs, -2147483648 ≤ s ∧ s < 2147483648) → (∀ s ∈ rs, zigzag s >>> k ≤ 255) →
    decodeLoop r k rs.length = rs := by
  induction rs with
  | nil => intro r k extra _ _ _ _ _; rfl
  | cons s t ih =>
    intro r k extra hInv h hk hrange hcap
    have hcs : zigzag s >>> k ≤ 255 := hcap s (by simp)
    have hrs := hrange s (by simp)
    rw [List.flatMap_cons, encodeSampleBits_eq s k hk hcs] at h
    simp only [List.append_assoc, List.cons_append] at h
    have hz2 : 0 < 2 ^ k := Nat.pos_pow_of_pos k (by norm_num)
    obtain ⟨r1, hq1, hb1, hp1, hd1⟩ :=
      readQuotientAux_spec (zigzag s >>> k) r 0 256 _ hInv h (by omega) (by omega)
    rw [Nat.zero_add] at hq1
    obtain ⟨r2, hq2, hb2, hp2, hd2⟩ :=
      readRemainderAux_spec k r1 0 (zigzag s % 2 ^ k) _ hp1 hd1 (Nat.mod_lt _ hz2) hk
        (Nat.pos_pow_of_pos _ (by norm_num))
    rw [Nat.zero_mul, Nat.zero_add] at hq2
    have hpq : readQuotient r = (zigzag s >>> k, r1) := by rw [readQuotient]; exact hq1
    have hnes : ¬ (r.is_exhausted = true) := by
      apply not_exhausted_of_rdrop_ne_nil hInv
      rw [h]
      simp
    show decodeLoop r k (t.length + 1) = s :: t
    rw [decodeLoop, if_neg hnes]
    simp only [hpq, hq2]
    have hle : (zigzag s >>> k) <<< k < 4294967296 := by
      calc (zigzag s >>> k) <<< k = zigzag s / 2 ^ k * 2 ^ k := by
            rw [Nat.shiftLeft_eq, Nat.shiftRight_eq_div_pow]
      _ ≤ zigzag s := Nat.div_mul_le_self _ _
      _ < 4294967296 := zigzag_lt s
    have hu : shl32 (zigzag s >>> k) k ||| zigzag s % 2 ^ k = zigzag s := by
      rw [shl32, Nat.mod_eq_of_lt (show k < 32 by omega), Nat.mod_eq_of_lt hle]
      exact shiftRight_shiftLeft_or_mod _ k
    rw [hu, unzigzag_zigzag hrs.1 hrs.2]
    congr 1
    exact ih r2 k extra hp2 hd2 hk (fun x hx => hrange x (List.mem_cons_of_mem _ hx))
      (fun x hx => hcap x (List.mem_cons_of_mem _ hx))

theorem bitLenAux_lt (fuel : Nat) : ∀ n, n ≤ fuel → n < 2 ^ bitLenAux fuel n := by
  induction fuel with
  | zero =>
    intro n hn
    have : n = 0 := by omega
    subst this
    decide
  | succ f ih =>
    intro n hn
    rw [bitLenAux]
    by_cases h0 : n = 0
    · subst h0; simp
    · rw [if_neg h0]
      have hrec := ih (n / 2) (by omega)
      rw [pow_succ]
      omega

theorem bitLen_lt (n : Nat) : n < 2 ^ bitLen n :=
  bitLenAux_lt n n le_rfl

theorem bitLenAux_le (fuel : Nat) : ∀ n m, n ≤ fuel → n < 2 ^ m → bitLenAux fuel n ≤ m := by
  induction fuel with
  | zero => intro n m _ _; simp [bitLenAux]
  | succ f ih =>
    intro n m hn hm
    rw [bitLenAux]
    by_cases h0 : n = 0
    · simp [h0]
    · rw [if_neg h0]
      have hm1 : 1 ≤ m := by
        by_contra hc
        have : m = 0 := by omega
        subst this
        simp at hm
        omega
      have hpow : 2 ^ m = 2 * 2 ^ (m - 1) := by
        conv_lhs => rw [show m = (m - 1) + 1 by omega]
        rw [pow_succ]
        ring
      have hdiv : n / 2 < 2 ^ (m - 1) := by omega
      have := ih (n / 2) (m - 1) (by omega) hdiv
      omega

theorem bitLen_le {n m : Nat} (h : n < 2 ^ m) : bitLen n ≤ m :=
  bitLenAux_le n n m le_rfl h

theorem foldl_max_all_zero : ∀ l : List Nat, (∀ x ∈ l, x = 0) → l.foldl max 0 = 0 := by
  intro l hl
  induction l with
  | nil => rfl
  | cons x t ih =>
    rw [List.foldl_cons]
    have hx : x = 0 := hl x (by simp)
    rw [hx]
    exact ih (fun y hy => hl y (List.mem_cons_of_mem _ hy))

/-- C2 counterexample: the claim asserts a round trip for every `i32` array and
every `k ∈ [0, 15]`, but the encoder caps the unary quotient at 255, so the
residual 128 with `k = 0` (zigzag value 256, quotient 256) is encoded as the
capped quotient 255 and decodes to `-128`, not `128`. -/
theorem c2_rice_roundtrip_counterexample :
    decode_i32 (encode_i32 [128] 0) 0 1 = [-128] ∧
    decode_i32 (encode_i32 [128] 0) 0 1 ≠ [128] := by
  obtain ⟨p, hbits⟩ := encode_i32_spec [128] 0
  have hflat : ([(128 : Int)].flatMap fun s => encodeSampleBits s 0) =
      List.replicate 255 true ++ [false] := by
    rw [List.flatMap_cons, List.flatMap_nil, List.append_nil]
    have h1 : min (shr32 (zigzag 128) 0) 255 = 255 := by decide
    rw [encodeSampleBits, h1, List.range_zero]
    simp
  rw [hflat] at hbits
  have hmain : decode_i32 (encode_i32 [128] 0) 0 1 = [-128] := by
    rw [decode_i32]
    generalize he : encode_i32 [128] 0 = e at hbits ⊢
    have hstart : (BitReader.new e).bitPos < 8 := by
      show (0 : Nat) < 8
      decide
    have hd : rdrop (BitReader.new e) =
        List.replicate 255 true ++ false :: List.replicate p false := by
      rw [rdrop,
        show (BitReader.new e).pos = 0 from rfl,
        show (BitReader.new e).bytes = e from rfl,
        List.drop_zero, hbits, List.append_assoc, List.singleton_append]
    obtain ⟨r1, hq1, hb1, hp1, hd1⟩ :=
      readQuotientAux_spec 255 (BitReader.new e) 0 256 _ hstart hd (by omega) (by omega)
    rw [Nat.zero_add] at hq1
    have hpq : readQuotient (BitReader.new e) = (255, r1) := by
      rw [readQuotient]; exact hq1
    have hnes : ¬ ((BitReader.new e).is_exhausted = true) := by
      apply not_exhausted_of_rdrop_ne_nil hstart
      rw [hd]
      simp
    rw [decodeLoop, if_neg hnes]
    simp only [hpq]
    have hrm : readRemainderAux r1 0 0 = (0, r1) := rfl
    simp only [hrm]
    rw [show shl32 255 0 ||| 0 = 255 by decide]
    rw [show unzigzag 255 = (-128 : Int) by decide]
    rfl
  exact ⟨hmain, by rw [hmain]; decide⟩

/-- C2 (amended): the Rice codec round-trips exactly for every `i32` residual
array and every `k ∈ [0, 15]` provided no sample's capped unary quotient loses
information, i.e. `zigzag s >>> k ≤ 255` for every sample (in particular for
every `k` chosen by `estimate_rice_parameter_i32` on residuals below `2^22`).
The claim as frozen omits the quotient-cap side condition and is refuted by
`c2_rice_roundtrip_counterexample`. -/
theorem c2_rice_roundtrip (rs : List Int) (k : Nat) (hk : k ≤ 15)
    (hrange : ∀ s ∈ rs, -2147483648 ≤ s ∧ s < 2147483648)
    (hcap : ∀ s ∈ rs, zigzag s >>> k ≤ 255) :
    decode_i32 (encode_i32 rs k) k rs.length = rs := by
  obtain ⟨p, hbits⟩ := encode_i32_spec rs k
  rw [decode_i32]
  have h08 : (BitReader.new (encode_i32 rs k)).bitPos < 8 := by
    show (0 : Nat) < 8
    decide
  apply decodeLoop_roundtrip rs (BitReader.new (encode_i32 rs k)) k
    (List.replicate p false) h08 _ hk hrange hcap
  rw [rdrop,
    show (BitReader.new (encode_i32 rs k)).pos = 0 from rfl,
    show (BitReader.new (encode_i32 rs k)).bytes = encode_i32 rs k from rfl,
    List.drop_zero, hbits]

/-- C2 witness: the round trip applied to the concrete residual array of the
specification's Rice scenario with its estimated parameter. -/
theorem c2_rice_roundtrip_witness :
    decode_i32 (encode_i32 [100, -200, 50, -10, 0, 150, -300] 7) 7 7 =
      [100, -200, 50, -10, 0, 150, -300] :=
  c2_rice_roundtrip [100, -200, 50, -10, 0, 150, -300] 7 (by decide) (by decide) (by decide)

/-- C9: Rice decoding is total: `decode_i32` always returns exactly the
requested number of residuals; once the bit reader is exhausted every
remaining sample decodes to zero, and reading past the end of the buffer
returns a zero bit without failing or advancing. -/
theorem c9_decode_total :
    (∀ (encoded : List Nat) (k n : Nat), (decode_i32 encoded k n).length = n) ∧
    (∀ (r : BitReader) (k n : Nat), r.is_exhausted = true →
      decodeLoop r k n = List.replicate n 0) ∧
    (∀ r : BitReader, r.is_exhausted = true → r.read_bit = (0, r)) := by
  refine ⟨?_, ?_, ?_⟩
  · intro e k n
    rw [decode_i32]
    exact decodeLoop_length n _ k
  · intro r k n h
    exact decodeLoop_exhausted n r k h
  · intro r h
    rw [BitReader.is_exhausted, decide_eq_true_iff] at h
    rw [BitReader.read_bit, if_pos h]

/-- C9 witness: totality at concrete inputs, including an exhausted reader. -/
theorem c9_decode_total_witness :
    (decode_i32 [170] 2 3).length = 3 ∧
    decodeLoop { bytes := [5], bytePos := 1, bitPos := 0 } 2 4 = List.replicate 4 0 ∧
    BitReader.read_bit { bytes := [5], bytePos := 1, bitPos := 0 } =
      (0, { bytes := [5], bytePos := 1, bitPos := 0 }) :=
  ⟨c9_decode_total.1 [170] 2 3,
   c9_decode_total.2.1 { bytes := [5], bytePos := 1, bitPos := 0 } 2 4 (by decide),
   c9_decode_total.2.2 { bytes := [5], bytePos := 1, bitPos := 0 } (by decide)⟩

/-- C6 counterexample: for the residual array `[2^30]` the estimator clamps
`k` to 15, and the correctness rule `(2 * max_abs) >> k ≤ 255` fails
(`2^31 >> 15 = 2^16 > 255`), refuting the claim as frozen. -/
theorem c6_estimate_counterexample :
    estimate_rice_parameter_i32 [1073741824] = 15 ∧
    ¬ ((2 * 1073741824) >>> 15 ≤ 255) := by
  constructor
  · decide
  · decide

/-- C6 (amended): `estimate_rice_parameter_i32` returns 4 for the empty array,
0 for every all-zero array, always a value in `[0, 15]`, and the correctness
rule `(2 * max_abs) >> k ≤ 255` holds whenever `max_abs < 2^22` (for larger
residuals the rule is unachievable with `k ≤ 15` because of the clamp; see
`c6_estimate_counterexample`). -/
theorem c6_estimate_amended :
    estimate_rice_parameter_i32 [] = 4 ∧
    (∀ rs : List Int, rs ≠ [] → (∀ s ∈ rs, s = 0) → estimate_rice_parameter_i32 rs = 0) ∧
    (∀ rs : List Int, estimate_rice_parameter_i32 rs ≤ 15) ∧
    (∀ rs : List Int, (rs.map Int.natAbs).foldl max 0 < 4194304 →
      (2 * (rs.map Int.natAbs).foldl max 0) >>> estimate_rice_parameter_i32 rs ≤ 255) := by
  refine ⟨by decide, ?_, ?_, ?_⟩
  · intro rs hne hz
    have hempty : rs.isEmpty = false := by
      cases rs with
      | nil => exact absurd rfl hne
      | cons a t => rfl
    have hmax : (rs.map Int.natAbs).foldl max 0 = 0 := by
      apply foldl_max_all_zero
      intro x hx
      rw [List.mem_map] at hx
      obtain ⟨s, hs, rfl⟩ := hx
      rw [hz s hs]
      rfl
    rw [estimate_rice_parameter_i32, hempty]
    simp [hmax]
  · intro rs
    rw [estimate_rice_parameter_i32]
    split
    · omega
    · split
      · omega
      · exact min_le_right _ 15
  · intro rs hmax
    rw [estimate_rice_parameter_i32]
    split
    · rename_i hemp
      have : rs = [] := by
        cases rs with
        | nil => rfl
        | cons a t => simp [List.isEmpty] at hemp
      subst this
      simp
    · split
      · rename_i h0
        rw [h0]
        simp
      · rename_i hemp h0
        set M := (rs.map Int.natAbs).foldl max 0 with hM
        set minK := if 2 * M > 255 then bitLen (2 * M) - 8 else 0 with hminK
        set meanK := if (rs.map Int.natAbs).foldl (· + ·) 0 / rs.length % 4294967296 > 0
          then bitLen ((rs.map Int.natAbs).foldl (· + ·) 0 / rs.length % 4294967296) else 0
          with hmeanK
        have hA : (2 * M) >>> minK ≤ 255 := by
          rw [hminK]
          split
          · rename_i hgt
            have hb9 : 9 ≤ bitLen (2 * M) := by
              by_contra hc
              have h8 : bitLen (2 * M) ≤ 8 := by omega
              have := bitLen_lt (2 * M)
              have h256 : 2 * M < 2 ^ 8 :=
                lt_of_lt_of_le this (Nat.pow_le_pow_right (by norm_num) h8)
              norm_num at h256
              omega
            rw [Nat.shiftRight_eq_div_pow]
            have hlt : 2 * M < 256 * 2 ^ (bitLen (2 * M) - 8) := by
              have : (8 : Nat) + (bitLen (2 * M) - 8) = bitLen (2 * M) := by omega
              calc 2 * M < 2 ^ bitLen (2 * M) := bitLen_lt _
              _ = 2 ^ (8 + (bitLen (2 * M) - 8)) := by rw [this]
              _ = 256 * 2 ^ (bitLen (2 * M) - 8) := by rw [pow_add]; norm_num
            have := (Nat.div_lt_iff_lt_mul
              (Nat.pos_pow_of_pos (bitLen (2 * M) - 8) (by norm_num))).mpr
              (by omega : 2 * M < 256 * 2 ^ (bitLen (2 * M) - 8))
            omega
          · rename_i hle
            simp only [Nat.shiftRight_zero]
            omega
        have hB : minK ≤ 15 := by
          rw [hminK]
          split
          · have h23 : bitLen (2 * M) ≤ 23 := by
              apply bitLen_le
              calc 2 * M < 2 * 4194304 := by omega
              _ = 2 ^ 23 := by norm_num
            omega
          · omega
        have hC : minK ≤ min (max minK meanK) 15 :=
          le_min (le_max_left _ _) hB
        calc (2 * M) >>> min (max minK meanK) 15
            ≤ (2 * M) >>> minK := by
              rw [Nat.shiftRight_eq_div_pow, Nat.shiftRight_eq_div_pow]
              exact Nat.div_le_div_left
                (Nat.pow_le_pow_right (by norm_num) hC)
                (Nat.pos_pow_of_pos _ (by norm_num))
        _ ≤ 255 := hA

/-- C6 witness: the amended estimator facts at the concrete arrays of the
specification (the all-zero array and the Rice scenario array). -/
theorem c6_estimate_amended_witness :
    estimate_rice_parameter_i32 [0, 0] = 0 ∧
    (2 * ([100, -200, 50, -10, 0, 150, -300].map Int.natAbs).foldl max 0) >>>
      estimate_rice_parameter_i32 [100, -200, 50, -10, 0, 150, -300] ≤ 255 :=
  ⟨c6_estimate_amended.2.1 [0, 0] (by decide) (by decide),
   c6_estimate_amended.2.2.2 [100, -200, 50, -10, 0, 150, -300] (by decide)⟩

theorem wrap32_eq_self {x : Int} (h1 : -2147483648 ≤ x) (h2 : x ≤ 2147483647) :
    wrap32 x = x := by
  rw [wrap32]
  omega

/-- C4: on stereo channels of equal length whose samples lie in the 16-bit
range, the decoder's mid-side inverse recovers the encoder's mid-side
transform exactly: `decode_mid_side (to_mid_side L R) = (L, R)`, with
truncating integer division. -/
theorem c4_mid_side_roundtrip (L R : List Int) (hlen : L.length = R.length)
    (hrange : ∀ p ∈ L.zip R, (-32768 ≤ p.1 ∧ p.1 ≤ 32767) ∧ (-32768 ≤ p.2 ∧ p.2 ≤ 32767)) :
    decode_mid_side (to_mid_side L R).1 (to_mid_side L R).2 = (L, R) := by
  unfold to_mid_side decode_mid_side
  simp only [List.zip_map', List.map_map]
  have hL : ∀ p ∈ L.zip R,
      Int.tdiv (wrap32 (wrap32 (p.1 + p.2) + wrap32 (p.1 - p.2))) 2 = p.1 := by
    intro p hp
    obtain ⟨⟨ha1, ha2⟩, hb1, hb2⟩ := hrange p hp
    have hw1 : wrap32 (p.1 + p.2) = p.1 + p.2 := wrap32_eq_self (by omega) (by omega)
    have hw2 : wrap32 (p.1 - p.2) = p.1 - p.2 := wrap32_eq_self (by omega) (by omega)
    rw [hw1, hw2, wrap32_eq_self (by omega) (by omega)]
    rw [show p.1 + p.2 + (p.1 - p.2) = 2 * p.1 by ring]
    exact Int.mul_tdiv_cancel_left p.1 (by norm_num)
  have hR : ∀ p ∈ L.zip R,
      Int.tdiv (wrap32 (wrap32 (p.1 + p.2) - wrap32 (p.1 - p.2))) 2 = p.2 := by
    intro p hp
    obtain ⟨⟨ha1, ha2⟩, hb1, hb2⟩ := hrange p hp
    have hw1 : wrap32 (p.1 + p.2) = p.1 + p.2 := wrap32_eq_self (by omega) (by omega)
    have hw2 : wrap32 (p.1 - p.2) = p.1 - p.2 := wrap32_eq_self (by omega) (by omega)
    rw [hw1, hw2, wrap32_eq_self (by omega) (by omega)]
    rw [show p.1 + p.2 - (p.1 - p.2) = 2 * p.2 by ring]
    exact Int.mul_tdiv_cancel_left p.2 (by norm_num)
  have e1 : ((L.zip R).map fun p =>
      Int.tdiv (wrap32 (wrap32 (p.1 + p.2) + wrap32 (p.1 - p.2))) 2) = L := by
    rw [List.map_congr_left hL]
    exact List.map_fst_zip L R (le_of_eq hlen)
  have e2 : ((L.zip R).map fun p =>
      Int.tdiv (wrap32 (wrap32 (p.1 + p.2) - wrap32 (p.1 - p.2))) 2) = R := by
    rw [List.map_congr_left hR]
    exact List.map_snd_zip L R (ge_of_eq hlen)
  rw [Prod.mk.injEq]
  exact ⟨e1, e2⟩

/-- C4 witness: the mid-side round trip at concrete 16-bit extremes. -/
theorem c4_mid_side_roundtrip_witness :
    decode_mid_side (to_mid_side [32767, -32768, 5] [-32768, 100, 5]).1
      (to_mid_side [32767, -32768, 5] [-32768, 100, 5]).2 =
      ([32767, -32768, 5], [-32768, 100, 5]) :=
  c4_mid_side_roundtrip [32767, -32768, 5] [-32768, 100, 5] (by decide) (by decide)

theorem toI16_range (m : Nat) : -32768 ≤ toI16 m ∧ toI16 m ≤ 32767 := by
  rw [toI16]
  split <;> omega

theorem sparse_values_loop_length (cnt : Nat) :
    ∀ (data : List Nat) (pos outIdx : Nat) (output : List Int) (n : Nat),
    (sparse_values_loop cnt data pos outIdx output n).1.length = output.length := by
  induction cnt with
  | zero => intro data pos outIdx output n; rfl
  | succ m ih =>
    intro data pos outIdx output n
    rw [sparse_values_loop]
    split
    · rfl
    · rw [ih]
      exact List.length_set output outIdx _

theorem sparse_values_loop_mem (cnt : Nat) :
    ∀ (data : List Nat) (pos outIdx : Nat) (output : List Int) (n : Nat) (v : Int),
    (∀ u ∈ output, -32768 ≤ u ∧ u ≤ 32767) →
    v ∈ (sparse_values_loop cnt data pos outIdx output n).1 → -32768 ≤ v ∧ v ≤ 32767 := by
  induction cnt with
  | zero => intro data pos outIdx output n v hout hv; exact hout v hv
  | succ m ih =>
    intro data pos outIdx output n v hout hv
    rw [sparse_values_loop] at hv
    split at hv
    · exact hout v hv
    · refine ih data _ _ _ n v ?_ hv
      intro u hu
      rcases List.mem_or_eq_of_mem_set hu with h | h
      · exact hout u h
      · rw [h]
        exact toI16_range _

theorem sparse_outer_length (fuel : Nat) :
    ∀ (data : List Nat) (pos outIdx : Nat) (output : List Int) (n : Nat),
    (sparse_outer fuel data pos outIdx output n).length = output.length := by
  induction fuel with
  | zero => intro data pos outIdx output n; rfl
  | succ f ih =>
    intro data pos outIdx output n
    simp only [sparse_outer]
    split
    · split
      · rfl
      · rw [ih]
        exact sparse_values_loop_length _ data _ _ output n
    · rfl

theorem sparse_outer_mem (fuel : Nat) :
    ∀ (data : List Nat) (pos outIdx : Nat) (output : List Int) (n : Nat) (v : Int),
    (∀ u ∈ output, -32768 ≤ u ∧ u ≤ 32767) →
    v ∈ sparse_outer fuel data pos outIdx output n → -32768 ≤ v ∧ v ≤ 32767 := by
  induction fuel with
  | zero => intro data pos outIdx output n v hout hv; exact hout v hv
  | succ f ih =>
    intro data pos outIdx output n v hout hv
    simp only [sparse_outer] at hv
    split at hv
    · split at hv
      · exact hout v hv
      · refine ih data _ _ _ n v ?_ hv
        intro u hu
        exact sparse_values_loop_mem _ data _ _ output n u hout hu
    · exact hout v hv

/-- C10: sparse coefficient decoding is total: for every byte payload and
every coefficient count `n`, `deserialize_sparse` returns exactly `n`
values, each a 16-bit integer (unwritten positions keep their zero
initialisation); malformed runs only cut the copying short, they never make
the function fail or read out of bounds. -/
theorem c10_deserialize_sparse_total :
    (∀ (data : List Nat) (n : Nat), (deserialize_sparse data n).length = n) ∧
    (∀ (data : List Nat) (n : Nat) (v : Int), v ∈ deserialize_sparse data n →
      -32768 ≤ v ∧ v ≤ 32767) := by
  constructor
  · intro data n
    rw [deserialize_sparse, sparse_outer_length]
    exact List.length_replicate n 0
  · intro data n v hv
    refine sparse_outer_mem _ data 0 0 _ n v ?_ hv
    intro u hu
    rw [List.eq_of_mem_replicate hu]
    norm_num

/-- C10 witness: totality on a malformed payload (a zero run that overshoots
the output, then a nonzero count that overruns the payload). -/
theorem c10_deserialize_sparse_total_witness :
    (deserialize_sparse [3, 2, 1] 4).length = 4 ∧
    (-32768 ≤ (deserialize_sparse [2, 9] 3).getD 0 0 ∧
      (deserialize_sparse [2, 9] 3).getD 0 0 ≤ 32767) :=
  ⟨c10_deserialize_sparse_total.1 [3, 2, 1] 4,
   c10_deserialize_sparse_total.2 [2, 9] 3 _ (by decide)⟩

theorem range_map_getElem? {α : Type} (n : Nat) (f : Nat → α) (m : Nat) :
    ((List.range n).map f)[m]? = if m < n then some (f m) else none := by
  rw [List.getElem?_map]
  by_cases h : m < n
  · rw [List.getElem?_range h, if_pos h]
    rfl
  · have hn : (List.range n)[m]? = none :=
      List.getElem?_eq_none (by rw [List.length_range]; omega)
    rw [hn, if_neg h]
    rfl

theorem range'_map_getElem? {α : Type} (s n : Nat) (f : Nat → α) (m : Nat) :
    ((List.range' s n).map f)[m]? = if m < n then some (f (s + m)) else none := by
  rw [List.getElem?_map]
  by_cases h : m < n
  · rw [List.getElem?_range' s 1 h, if_pos h]
    show some (f (s + 1 * m)) = some (f (s + m))
    rw [one_mul]
  · have hn : (List.range' s n)[m]? = none :=
      List.getElem?_eq_none (by rw [List.length_range']; omega)
    rw [hn, if_neg h]
    rfl

theorem range_map_getD (l : List Int) :
    (List.range l.length).map (fun i => l.getD i 0) = l := by
  apply List.ext_getElem?
  intro i
  rw [range_map_getElem?]
  by_cases h : i < l.length
  · rw [if_pos h, List.getD_eq_getElem l 0 h, List.getElem?_eq_getElem h]
  · rw [if_neg h]
    symm
    exact List.getElem?_eq_none (by omega)

/-- C7 counterexample: the claim asserts that warm-up samples pass through
unchanged (`residual[i] = x[i]` for `i < o`), but for order 2 the source
emits `x[1] - x[0]` at index 1: on `[3, 5]` it produces `[3, 2]`, not
`[3, 5]`. -/
theorem c7_fixed_predictor_counterexample :
    fixed_predictor_residuals [3, 5] 2 = some [3, 2] ∧
    fixed_predictor_residuals [3, 5] 2 ≠ some [3, 5] := by
  constructor
  · decide
  · decide

/-- C7 (amended): for every order `o ≤ 4` and every sample list (non-empty
when `o ≥ 1`; for orders 1–4 the source indexes `samples[0]` and panics on
an empty slice), `fixed_predictor_residuals` succeeds and returns one
residual per sample, where index `i` carries the finite difference of order
`min i o`: warm-up samples are progressive lower-order differences (only
index 0 passes through unchanged), and indices `i ≥ o` carry the order-`o`
difference, all in wrapping 32-bit arithmetic. -/
theorem c7_fixed_predictor_amended (x : List Int) (o : Nat) (ho : o ≤ 4)
    (hne : x ≠ [] ∨ o = 0) :
    fixed_predictor_residuals x o = some ((List.range x.length).map (fixedDiff x o)) := by
  interval_cases o
  · rw [fixed_predictor_residuals]
    refine congrArg some ?_
    have he : (List.range x.length).map (fixedDiff x 0) =
        (List.range x.length).map (fun i => x.getD i 0) := by
      apply List.map_congr_left
      intro i _
      rw [fixedDiff, if_pos (by omega)]
    rw [he, range_map_getD]
  · rcases hne with hne | h0
    · rcases x with _ | ⟨s0, t⟩
      · exact absurd rfl hne
      · simp only [fixed_predictor_residuals]
        refine congrArg some ?_
        apply List.ext_getElem?
        intro i
        rw [range_map_getElem?]
        cases i with
        | zero =>
          rw [List.getElem?_cons_zero, if_pos (by simp)]
          rw [fixedDiff, if_pos (by omega)]
          rfl
        | succ j =>
          rw [List.getElem?_cons_succ, range'_map_getElem?]
          by_cases hj : j < (s0 :: t).length - 1
          · rw [if_pos hj, if_pos (by simp at hj ⊢; omega)]
            rw [fixedDiff, if_neg (by omega), if_pos (by omega)]
            have h1 : 1 + j = j + 1 := by omega
            rw [h1]
          · rw [if_neg hj, if_neg (by simp at hj ⊢; omega)]
    · exact absurd h0 (by norm_num)
  · rcases hne with hne | h0
    · rcases x with _ | ⟨s0, t⟩
      · exact absurd rfl hne
      · rcases t with _ | ⟨x1, t2⟩
        · rfl
        · simp only [fixed_predictor_residuals]
          rw [if_pos (by simp)]
          refine congrArg some ?_
          simp only [List.cons_append, List.nil_append]
          apply List.ext_getElem?
          intro i
          rw [range_map_getElem?]
          cases i with
          | zero =>
            rw [List.getElem?_cons_zero, if_pos (by simp)]
            rw [fixedDiff, if_pos (by omega)]
            rfl
          | succ i1 =>
            cases i1 with
            | zero =>
              rw [List.getElem?_cons_succ, List.getElem?_cons_zero, if_pos (by simp)]
              rw [fixedDiff, if_neg (by omega), if_pos (by omega)]
            | succ j =>
              rw [List.getElem?_cons_succ, List.getElem?_cons_succ, range'_map_getElem?]
              by_cases hj : j < (s0 :: x1 :: t2).length - 2
              · rw [if_pos hj, if_pos (by simp at hj ⊢; omega)]
                rw [fixedDiff, if_neg (by omega), if_neg (by omega), if_pos (by omega)]
                have h1 : 2 + j = j + 1 + 1 := by omega
                rw [h1]
              · rw [if_neg hj, if_neg (by simp at hj ⊢; omega)]
    · exact absurd h0 (by norm_num)
  · rcases hne with hne | h0
    · rcases x with _ | ⟨s0, t⟩
      · exact absurd rfl hne
      · rcases t with _ | ⟨x1, t2⟩
        · rfl
        · rcases t2 with _ | ⟨x2, t3⟩
          · rfl
          · simp only [fixed_predictor_residuals]
            rw [if_pos (by simp), if_pos (by simp)]
            refine congrArg some ?_
            simp only [List.cons_append, List.nil_append]
            apply List.ext_getElem?
            intro i
            rw [range_map_getElem?]
            cases i with
            | zero =>
              rw [List.getElem?_cons_zero, if_pos (by simp)]
              rw [fixedDiff, if_pos (by omega)]
              rfl
            | succ i1 =>
              cases i1 with
              | zero =>
                rw [List.getElem?_cons_succ, List.getElem?_cons_zero, if_pos (by simp)]
                rw [fixedDiff, if_neg (by omega), if_pos (by omega)]
              | succ i2 =>
                cases i2 with
                | zero =>
                  rw [List.getElem?_cons_succ, List.getElem?_cons_succ,
                    List.getElem?_cons_zero, if_pos (by simp)]
                  rw [fixedDiff, if_neg (by omega), if_neg (by omega), if_pos (by omega)]
                | succ j =>
                  rw [List.getElem?_cons_succ, List.getElem?_cons_succ,
                    List.getElem?_cons_succ, range'_map_getElem?]
                  by_cases hj : j < (s0 :: x1 :: x2 :: t3).length - 3
                  · rw [if_pos hj, if_pos (by simp at hj ⊢; omega)]
                    rw [fixedDiff, if_neg (by omega), if_neg (by omega), if_neg (by omega),
                      if_pos (by omega)]
                    have h1 : 3 + j = j + 1 + 1 + 1 := by omega
                    rw [h1]
                  · rw [if_neg hj, if_neg (by simp at hj ⊢; omega)]
    · exact absurd h0 (by norm_num)
  · rcases hne with hne | h0
    · rcases x with _ | ⟨s0, t⟩
      · exact absurd rfl hne
      · rcases t with _ | ⟨x1, t2⟩
        · rfl
        · rcases t2 with _ | ⟨x2, t3⟩
          · rfl
          · rcases t3 with _ | ⟨x3, t4⟩
            · rfl
            · simp only [fixed_predictor_residuals]
              rw [if_pos (by simp), if_pos (by simp), if_pos (by simp)]
              refine congrArg some ?_
              simp only [List.cons_append, List.nil_append]
              apply List.ext_getElem?
              intro i
              rw [range_map_getElem?]
              cases i with
              | zero =>
                rw [List.getElem?_cons_zero, if_pos (by simp)]
                rw [fixedDiff, if_pos (by omega)]
                rfl
              | succ i1 =>
                cases i1 with
                | zero =>
                  rw [List.getElem?_cons_succ, List.getElem?_cons_zero, if_pos (by simp)]
                  rw [fixedDiff, if_neg (by omega), if_pos (by omega)]
                | succ i2 =>
                  cases i2 with
                  | zero =>
                    rw [List.getElem?_cons_succ, List.getElem?_cons_succ,
                      List.getElem?_cons_zero, if_pos (by simp)]
                    rw [fixedDiff, if_neg (by omega), if_neg (by omega), if_pos (by omega)]
                  | succ i3 =>
                    cases i3 with
                    | zero =>
                      rw [List.getElem?_cons_succ, List.getElem?_cons_succ,
                        List.getElem?_cons_succ, List.getElem?_cons_zero, if_pos (by simp)]
                      rw [fixedDiff, if_neg (by omega), if_neg (by omega),
                        if_neg (by omega), if_pos (by omega)]
                    | succ j =>
                      rw [List.getElem?_cons_succ, List.getElem?_cons_succ,
                        List.getElem?_cons_succ, List.getElem?_cons_succ,
                        range'_map_getElem?]
                      by_cases hj : j < (s0 :: x1 :: x2 :: x3 :: t4).length - 4
                      · rw [if_pos hj, if_pos (by simp at hj ⊢; omega)]
                        rw [fixedDiff, if_neg (by omega), if_neg (by omega),
                          if_neg (by omega), if_neg (by omega)]
                        have h1 : 4 + j = j + 1 + 1 + 1 + 1 := by omega
                        rw [h1]
                      · rw [if_neg hj, if_neg (by simp at hj ⊢; omega)]
    · exact absurd h0 (by norm_num)

/-- C7 witness: the amended fixed-predictor description at a concrete
order-2 input. -/
theorem c7_fixed_predictor_amended_witness :
    fixed_predictor_residuals [10, 14, 30, 31] 2 =
      some ((List.range ([10, 14, 30, 31] : List Int).length).map
        (fixedDiff [10, 14, 30, 31] 2)) :=
  c7_fixed_predictor_amended [10, 14, 30, 31] 2 (by decide) (Or.inl (by decide))

example : decode_i32 (encode_i32 [3, -2, 0] 2) 2 3 = [3, -2, 0] := by decide

example : estimate_rice_parameter_i32 [100, -200, 50, -10, 0, 150, -300] = 7 := by decide

example : estimate_rice_parameter_i32 [] = 4 := by decide

example : estimate_rice_parameter_i32 [0, 0] = 0 := by decide

end Flo

set_option maxRecDepth 4000

namespace Flo

theorem leBytes_length (k n : Nat) : (leBytes k n).length = k := by
  simp [leBytes]

theorem leBytes_succ (k n : Nat) : leBytes (k + 1) n = n % 256 :: leBytes k (n / 256) := by
  simp only [leBytes, List.range_succ_eq_map, List.map_cons, List.map_map, pow_zero,
    Nat.div_one]
  congr 1
  apply List.map_congr_left
  intro i _
  simp only [Function.comp_apply]
  rw [Nat.div_div_eq_div_mul, pow_succ, mul_comm (256 ^ i) 256]

theorem fromLe_leBytes (k n : Nat) : fromLe (leBytes k n) = n % 256 ^ k := by
  induction k generalizing n with
  | zero => simp [leBytes, fromLe, Nat.mod_one]
  | succ k ih =>
    rw [leBytes_succ]
    simp only [fromLe, List.foldr_cons] at ih ⊢
    rw [ih, pow_succ', Nat.mod_mul]
    omega

theorem i32le_length (c : Int) : (i32le c).length = 4 := by
  simp [i32le, leBytes_length]

theorem toI32_i32le (c : Int) (h1 : -2147483648 ≤ c) (h2 : c < 2147483648) :
    toI32 (fromLe (i32le c)) = c := by
  rw [i32le, fromLe_leBytes, toI32]
  have h0 : (0:Int) ≤ c % 4294967296 := Int.emod_nonneg _ (by norm_num)
  have hlt : c % 4294967296 < 4294967296 := Int.emod_lt_of_pos _ (by norm_num)
  have hm : ((c % 4294967296).toNat : Int) = c % 4294967296 := Int.toNat_of_nonneg h0
  have hmn : (c % 4294967296).toNat % (256 ^ 4) = (c % 4294967296).toNat :=
    Nat.mod_eq_of_lt (by omega)
  rw [hmn]
  have h32 : (4294967296 : Nat) = 256 ^ 4 := by norm_num
  split <;> omega

theorem read_bytes_drop (l xs rest : List Nat) (p n : Nat) (h : l.drop p = xs ++ rest)
    (hn : xs.length = n) (hp : p ≤ l.length) : read_bytes l p n = .ok (xs, p + n) := by
  have hlen : l.length - p = xs.length + rest.length := by
    rw [← List.length_drop, h, List.length_append]
  rw [read_bytes, if_neg (by omega)]
  rw [h, ← hn, List.take_left]

theorem read_u8_drop (l : List Nat) (p b : Nat) (rest : List Nat)
    (h : l.drop p = b :: rest) : read_u8 l p = .ok (b, p + 1) := by
  have hlen : l.length - p = rest.length + 1 := by
    rw [← List.length_drop, h]; simp
  rw [read_u8, if_neg (by omega)]
  have hget : l[p]? = some b := by
    have := List.getElem?_drop l p 0
    rw [h] at this
    simpa using this.symm
  simp [List.getD_eq_getElem?_getD, hget]

theorem drop_advance (l X rest : List Nat) (p k : Nat) (h : l.drop p = X ++ rest)
    (hk : X.length = k) : l.drop (p + k) = rest := by
  rw [← List.drop_drop, h, ← hk, List.drop_left]

theorem drop_advance_cons (l rest : List Nat) (p b : Nat) (h : l.drop p = b :: rest) :
    l.drop (p + 1) = rest := by
  rw [← List.drop_drop, h, List.drop_one, List.tail_cons]

theorem read_u16_drop (l rest : List Nat) (p n : Nat) (h : l.drop p = leBytes 2 n ++ rest)
    (hn : n < 65536) (hp : p ≤ l.length) : read_u16_le l p = .ok (n, p + 2) := by
  rw [read_u16_le, read_bytes_drop l _ rest p 2 h (leBytes_length 2 n) hp]
  show Except.ok (fromLe (leBytes 2 n), p + 2) = _
  have h2 : (256:Nat) ^ 2 = 65536 := by norm_num
  rw [fromLe_leBytes, h2, Nat.mod_eq_of_lt hn]

theorem read_u32_drop (l rest : List Nat) (p n : Nat) (h : l.drop p = leBytes 4 n ++ rest)
    (hn : n < 4294967296) (hp : p ≤ l.length) : read_u32_le l p = .ok (n, p + 4) := by
  rw [read_u32_le, read_bytes_drop l _ rest p 4 h (leBytes_length 4 n) hp]
  show Except.ok (fromLe (leBytes 4 n), p + 4) = _
  have h2 : (256:Nat) ^ 4 = 4294967296 := by norm_num
  rw [fromLe_leBytes, h2, Nat.mod_eq_of_lt hn]

theorem read_u64_drop (l rest : List Nat) (p n : Nat) (h : l.drop p = leBytes 8 n ++ rest)
    (hn : n < 18446744073709551616) (hp : p ≤ l.length) :
    read_u64_le l p = .ok (n, p + 8) := by
  rw [read_u64_le, read_bytes_drop l _ rest p 8 h (leBytes_length 8 n) hp]
  show Except.ok (fromLe (leBytes 8 n), p + 8) = _
  have h2 : (256:Nat) ^ 8 = 18446744073709551616 := by norm_num
  rw [fromLe_leBytes, h2, Nat.mod_eq_of_lt hn]

theorem read_i32_drop (l rest : List Nat) (p : Nat) (c : Int)
    (h : l.drop p = i32le c ++ rest) (h1 : -2147483648 ≤ c) (h2 : c < 2147483648)
    (hp : p ≤ l.length) : read_i32_le l p = .ok (c, p + 4) := by
  rw [read_i32_le, read_bytes_drop l _ rest p 4 h (i32le_length c) hp]
  show Except.ok (toI32 (fromLe (i32le c)), p + 4) = _
  rw [toI32_i32le c h1 h2]

theorem drop_length_le (l X rest : List Nat) (p : Nat) (h : l.drop p = X ++ rest)
    (hne : X ≠ []) : p ≤ l.length := by
  by_contra hc
  rw [List.drop_eq_nil_of_le (by omega)] at h
  cases X with
  | nil => exact hne rfl
  | cons a t => simp at h


set_option maxHeartbeats 1000000 in
theorem read_header_drops (l rest : List Nat) (sr ch bd cl tf crc flags ts ds es ms : Nat)
    (hsr : sr < 4294967296) (hch : ch < 256) (hbd : bd < 256) (hcl : cl < 256)
    (htf : tf < 18446744073709551616) (hcrc : crc < 4294967296) (hflags : flags < 65536)
    (hts : ts < 18446744073709551616) (hds : ds < 18446744073709551616)
    (hes : es < 18446744073709551616) (hms : ms < 18446744073709551616)
    (hlen : l.length = 70 + rest.length)
    (h4 : l.drop 4 = 1 :: 0 :: (leBytes 2 flags ++ (leBytes 4 sr ++ (ch :: bd ::
      (leBytes 8 tf ++ (cl :: 0 :: 0 :: 0 :: (leBytes 4 crc ++ (leBytes 8 66 ++
      (leBytes 8 ts ++ (leBytes 8 ds ++ (leBytes 8 es ++ (leBytes 8 ms ++
      rest)))))))))))) :
    read_header l 4 = .ok (writtenHeader sr ch bd cl tf crc flags ts ds es ms, 70) := by
  have h5 := drop_advance_cons l _ 4 1 h4
  have h6 := drop_advance_cons l _ 5 0 h5
  have h8 := drop_advance l _ _ 6 2 h6 (leBytes_length 2 flags)
  have h12 := drop_advance l _ _ 8 4 h8 (leBytes_length 4 sr)
  have h13 := drop_advance_cons l _ 12 ch h12
  have h14 := drop_advance_cons l _ 13 bd h13
  have h22 := drop_advance l _ _ 14 8 h14 (leBytes_length 8 tf)
  have h23 := drop_advance_cons l _ 22 cl h22
  have h24 := drop_advance_cons l _ 23 0 h23
  have h25 := drop_advance_cons l _ 24 0 h24
  have h26 := drop_advance_cons l _ 25 0 h25
  have h30 := drop_advance l _ _ 26 4 h26 (leBytes_length 4 crc)
  have h38 := drop_advance l _ _ 30 8 h30 (leBytes_length 8 66)
  have h46 := drop_advance l _ _ 38 8 h38 (leBytes_length 8 ts)
  have h54 := drop_advance l _ _ 46 8 h46 (leBytes_length 8 ds)
  have h62 := drop_advance l _ _ 54 8 h54 (leBytes_length 8 es)
  have h70 := drop_advance l _ _ 62 8 h62 (leBytes_length 8 ms)
  have r1 := read_u8_drop l 4 1 _ h4
  have r2 := read_u8_drop l 5 0 _ h5
  have r3 := read_u16_drop l _ 6 flags h6 hflags (by omega)
  have r4 := read_u32_drop l _ 8 sr h8 hsr (by omega)
  have r5 := read_u8_drop l 12 ch _ h12
  have r6 := read_u8_drop l 13 bd _ h13
  have r7 := read_u64_drop l _ 14 tf h14 htf (by omega)
  have r8 := read_u8_drop l 22 cl _ h22
  have r9 := read_u32_drop l _ 26 crc h26 hcrc (by omega)
  have r10 := read_u64_drop l _ 30 66 h30 (by norm_num) (by omega)
  have r11 := read_u64_drop l _ 38 ts h38 hts (by omega)
  have r12 := read_u64_drop l _ 46 ds h46 hds (by omega)
  have r13 := read_u64_drop l _ 54 es h54 hes (by omega)
  have r14 := read_u64_drop l _ 62 ms h62 hms (by omega)
  have hskip : cursor_skip l 23 3 = 26 := by
    rw [cursor_skip]; omega
  rw [read_header]
  rw [r1]
  show (do
    let (vmin, pos) ← read_u8 l 5
    let (flags2, pos) ← read_u16_le l pos
    let (sr2, pos) ← read_u32_le l pos
    let (ch2, pos) ← read_u8 l pos
    let (bd2, pos) ← read_u8 l pos
    let (tf2, pos) ← read_u64_le l pos
    let (cl2, pos) ← read_u8 l pos
    let pos := cursor_skip l pos 3
    let (crc2, pos) ← read_u32_le l pos
    let (hs2, pos) ← read_u64_le l pos
    let (ts2, pos) ← read_u64_le l pos
    let (ds2, pos) ← read_u64_le l pos
    let (es2, pos) ← read_u64_le l pos
    let (ms2, pos) ← read_u64_le l pos
    .ok (({ version_major := 1, version_minor := vmin, flags := flags2,
            sample_rate := sr2, channels := ch2, bit_depth := bd2, total_frames := tf2,
            compression_level := cl2, data_crc32 := crc2, header_size := hs2,
            toc_size := ts2, data_size := ds2, extra_size := es2,
            meta_size := ms2 } : Header), pos)) = _
  rw [r2]
  show (do
    let (flags2, pos) ← read_u16_le l 6
    let (sr2, pos) ← read_u32_le l pos
    let (ch2, pos) ← read_u8 l pos
    let (bd2, pos) ← read_u8 l pos
    let (tf2, pos) ← read_u64_le l pos
    let (cl2, pos) ← read_u8 l pos
    let pos := cursor_skip l pos 3
    let (crc2, pos) ← read_u32_le l pos
    let (hs2, pos) ← read_u64_le l pos
    let (ts2, pos) ← read_u64_le l pos
    let (ds2, pos) ← read_u64_le l pos
    let (es2, pos) ← read_u64_le l pos
    let (ms2, pos) ← read_u64_le l pos
    .ok (({ version_major := 1, version_minor := 0, flags := flags2,
            sample_rate := sr2, channels := ch2, bit_depth := bd2, total_frames := tf2,
            compression_level := cl2, data_crc32 := crc2, header_size := hs2,
            toc_size := ts2, data_size := ds2, extra_size := es2,
            meta_size := ms2 } : Header), pos)) = _
  rw [r3]
  show (do
    let (sr2, pos) ← read_u32_le l 8
    let (ch2, pos) ← read_u8 l pos
    let (bd2, pos) ← read_u8 l pos
    let (tf2, pos) ← read_u64_le l pos
    let (cl2, pos) ← read_u8 l pos
    let pos := cursor_skip l pos 3
    let (crc2, pos) ← read_u32_le l pos
    let (hs2, pos) ← read_u64_le l pos
    let (ts2, pos) ← read_u64_le l pos
    let (ds2, pos) ← read_u64_le l pos
    let (es2, pos) ← read_u64_le l pos
    let (ms2, pos) ← read_u64_le l pos
    .ok (({ version_major := 1, version_minor := 0, flags := flags,
            sample_rate := sr2, channels := ch2, bit_depth := bd2, total_frames := tf2,
            compression_level := cl2, data_crc32 := crc2, header_size := hs2,
            toc_size := ts2, data_size := ds2, extra_size := es2,
            meta_size := ms2 } : Header), pos)) = _
  rw [r4]
  show (do
    let (ch2, pos) ← read_u8 l 12
    let (bd2, pos) ← read_u8 l pos
    let (tf2, pos) ← read_u64_le l pos
    let (cl2, pos) ← read_u8 l pos
    let pos := cursor_skip l pos 3
    let (crc2, pos) ← read_u32_le l pos
    let (hs2, pos) ← read_u64_le l pos
    let (ts2, pos) ← read_u64_le l pos
    let (ds2, pos) ← read_u64_le l pos
    let (es2, pos) ← read_u64_le l pos
    let (ms2, pos) ← read_u64_le l pos
    .ok (({ version_major := 1, version_minor := 0, flags := flags,
            sample_rate := sr, channels := ch2, bit_depth := bd2, total_frames := tf2,
            compression_level := cl2, data_crc32 := crc2, header_size := hs2,
            toc_size := ts2, data_size := ds2, extra_size := es2,
            meta_size := ms2 } : Header), pos)) = _
  rw [r5]
  show (do
    let (bd2, pos) ← read_u8 l 13
    let (tf2, pos) ← read_u64_le l pos
    let (cl2, pos) ← read_u8 l pos
    let pos := cursor_skip l pos 3
    let (crc2, pos) ← read_u32_le l pos
    let (hs2, pos) ← read_u64_le l pos
    let (ts2, pos) ← read_u64_le l pos
    let (ds2, pos) ← read_u64_le l pos
    let (es2, pos) ← read_u64_le l pos
    let (ms2, pos) ← read_u64_le l pos
    .ok (({ version_major := 1, version_minor := 0, flags := flags,
            sample_rate := sr, channels := ch, bit_depth := bd2, total_frames := tf2,
            compression_level := cl2, data_crc32 := crc2, header_size := hs2,
            toc_size := ts2, data_size := ds2, extra_size := es2,
            meta_size := ms2 } : Header), pos)) = _
  rw [r6]
  show (do
    let (tf2, pos) ← read_u64_le l 14
    let (cl2, pos) ← read_u8 l pos
    let pos := cursor_skip l pos 3
    let (crc2, pos) ← read_u32_le l pos
    let (hs2, pos) ← read_u64_le l pos
    let (ts2, pos) ← read_u64_le l pos
    let (ds2, pos) ← read_u64_le l pos
    let (es2, pos) ← read_u64_le l pos
    let (ms2, pos) ← read_u64_le l pos
    .ok (({ version_major := 1, version_minor := 0, flags := flags,
            sample_rate := sr, channels := ch, bit_depth := bd, total_frames := tf2,
            compression_level := cl2, data_crc32 := crc2, header_size := hs2,
            toc_size := ts2, data_size := ds2, extra_size := es2,
            meta_size := ms2 } : Header), pos)) = _
  rw [r7]
  show (do
    let (cl2, pos) ← read_u8 l 22
    let pos := cursor_skip l pos 3
    let (crc2, pos) ← read_u32_le l pos
    let (hs2, pos) ← read_u64_le l pos
    let (ts2, pos) ← read_u64_le l pos
    let (ds2, pos) ← read_u64_le l pos
    let (es2, pos) ← read_u64_le l pos
    let (ms2, pos) ← read_u64_le l pos
    .ok (({ version_major := 1, version_minor := 0, flags := flags,
            sample_rate := sr, channels := ch, bit_depth := bd, total_frames := tf,
            compression_level := cl2, data_crc32 := crc2, header_size := hs2,
            toc_size := ts2, data_size := ds2, extra_size := es2,
            meta_size := ms2 } : Header), pos)) = _
  rw [r8]
  show (do
    let (crc2, pos) ← read_u32_le l (cursor_skip l 23 3)
    let (hs2, pos) ← read_u64_le l pos
    let (ts2, pos) ← read_u64_le l pos
    let (ds2, pos) ← read_u64_le l pos
    let (es2, pos) ← read_u64_le l pos
    let (ms2, pos) ← read_u64_le l pos
    .ok (({ version_major := 1, version_minor := 0, flags := flags,
            sample_rate := sr, channels := ch, bit_depth := bd, total_frames := tf,
            compression_level := cl, data_crc32 := crc2, header_size := hs2,
            toc_size := ts2, data_size := ds2, extra_size := es2,
            meta_size := ms2 } : Header), pos)) = _
  rw [hskip, r9]
  show (do
    let (hs2, pos) ← read_u64_le l 30
    let (ts2, pos) ← read_u64_le l pos
    let (ds2, pos) ← read_u64_le l pos
    let (es2, pos) ← read_u64_le l pos
    let (ms2, pos) ← read_u64_le l pos
    .ok (({ version_major := 1, version_minor := 0, flags := flags,
            sample_rate := sr, channels := ch, bit_depth := bd, total_frames := tf,
            compression_level := cl, data_crc32 := crc, header_size := hs2,
            toc_size := ts2, data_size := ds2, extra_size := es2,
            meta_size := ms2 } : Header), pos)) = _
  rw [r10]
  show (do
    let (ts2, pos) ← read_u64_le l 38
    let (ds2, pos) ← read_u64_le l pos
    let (es2, pos) ← read_u64_le l pos
    let (ms2, pos) ← read_u64_le l pos
    .ok (({ version_major := 1, version_minor := 0, flags := flags,
            sample_rate := sr, channels := ch, bit_depth := bd, total_frames := tf,
            compression_level := cl, data_crc32 := crc, header_size := 66,
            toc_size := ts2, data_size := ds2, extra_size := es2,
            meta_size := ms2 } : Header), pos)) = _
  rw [r11]
  show (do
    let (ds2, pos) ← read_u64_le l 46
    let (es2, pos) ← read_u64_le l pos
    let (ms2, pos) ← read_u64_le l pos
    .ok (({ version_major := 1, version_minor := 0, flags := flags,
            sample_rate := sr, channels := ch, bit_depth := bd, total_frames := tf,
            compression_level := cl, data_crc32 := crc, header_size := 66,
            toc_size := ts, data_size := ds2, extra_size := es2,
            meta_size := ms2 } : Header), pos)) = _
  rw [r12]
  show (do
    let (es2, pos) ← read_u64_le l 54
    let (ms2, pos) ← read_u64_le l pos
    .ok (({ version_major := 1, version_minor := 0, flags := flags,
            sample_rate := sr, channels := ch, bit_depth := bd, total_frames := tf,
            compression_level := cl, data_crc32 := crc, header_size := 66,
            toc_size := ts, data_size := ds, extra_size := es2,
            meta_size := ms2 } : Header), pos)) = _
  rw [r13]
  show (do
    let (ms2, pos) ← read_u64_le l 62
    .ok (({ version_major := 1, version_minor := 0, flags := flags,
            sample_rate := sr, channels := ch, bit_depth := bd, total_frames := tf,
            compression_level := cl, data_crc32 := crc, header_size := 66,
            toc_size := ts, data_size := ds, extra_size := es,
            meta_size := ms2 } : Header), pos)) = _
  rw [r14]
  rfl

theorem read_header_of_write (sr ch bd cl tf crc flags ts ds es ms : Nat) (rest : List Nat)
    (hsr : sr < 4294967296) (hch : ch < 256) (hbd : bd < 256) (hcl : cl < 256)
    (htf : tf < 18446744073709551616) (hcrc : crc < 4294967296) (hflags : flags < 65536)
    (hts : ts < 18446744073709551616) (hds : ds < 18446744073709551616)
    (hes : es < 18446744073709551616) (hms : ms < 18446744073709551616) :
    read_header (write_header_ex sr ch bd cl tf crc flags ts ds es ms ++ rest) 4 =
      .ok (writtenHeader sr ch bd cl tf crc flags ts ds es ms, 70) := by
  apply read_header_drops _ rest sr ch bd cl tf crc flags ts ds es ms hsr hch hbd hcl htf
    hcrc hflags hts hds hes hms
  · simp [write_header_ex, MAGIC, leBytes_length]
    omega
  · simp only [write_header_ex, MAGIC, VERSION_MAJOR, VERSION_MINOR, HEADER_SIZE,
      List.append_assoc, List.cons_append, List.nil_append, List.singleton_append]
    rw [Nat.mod_eq_of_lt hch, Nat.mod_eq_of_lt hbd, Nat.mod_eq_of_lt hcl]
    rfl

theorem toc_entries_bytes_length (fs : List Frame) (i off : Nat) :
    (toc_entries_bytes fs i off).length = 20 * fs.length := by
  induction fs generalizing i off with
  | nil => simp [toc_entries_bytes]
  | cons f t ih => simp [toc_entries_bytes, leBytes_length, ih]; omega



theorem sizeSum_cons (f : Frame) (fs : List Frame) :
    sizeSum (f :: fs) = f.byte_size % 4294967296 + sizeSum fs := by
  simp [sizeSum]

theorem sizeSum_lt (fs : List Frame) (h : fs.length ≤ 100000) :
    sizeSum fs < 18446744073709551616 := by
  have : sizeSum fs ≤ fs.length * 4294967296 := by
    induction fs with
    | nil => simp [sizeSum]
    | cons f t ih =>
      rw [sizeSum_cons]
      have h1 : f.byte_size % 4294967296 < 4294967296 := Nat.mod_lt _ (by norm_num)
      have h2 := ih (by simp at h ⊢; omega)
      simp only [List.length_cons]
      omega
  omega

theorem read_toc_entries_of_write (fs : List Frame) (i off p : Nat) (l rest : List Nat)
    (hdrop : l.drop p = toc_entries_bytes fs i off ++ rest)
    (hi : i + fs.length ≤ 100000)
    (hoff : off + sizeSum fs < 18446744073709551616) :
    read_toc_entries l fs.length p = .ok (writtenTocAux fs i off, p + 20 * fs.length) := by
  induction fs generalizing i off p with
  | nil =>
    simp only [List.length_nil]
    rw [read_toc_entries, writtenTocAux]
    norm_num
  | cons f t ih =>
    rw [toc_entries_bytes] at hdrop
    simp only [List.append_assoc] at hdrop
    have hlen0 := congrArg List.length hdrop
    rw [List.length_drop] at hlen0
    simp only [List.length_append, leBytes_length, toc_entries_bytes_length] at hlen0
    have hp : p ≤ l.length := drop_length_le l _ _ p hdrop
      (by intro hc; have := congrArg List.length hc; simp [leBytes_length] at this)
    have r1 := read_u32_drop l _ p i hdrop (by omega) hp
    have h2 := drop_advance l _ _ p 4 hdrop (leBytes_length 4 i)
    have r2 := read_u64_drop l _ (p + 4) off h2 (by rw [sizeSum_cons] at hoff; omega)
      (by omega)
    have h3 := drop_advance l _ _ (p + 4) 8 h2 (leBytes_length 8 off)
    have r3 := read_u32_drop l _ (p + 4 + 8) (f.byte_size % 4294967296) h3
      (Nat.mod_lt _ (by norm_num)) (by omega)
    have h4 := drop_advance l _ _ (p + 4 + 8) 4 h3 (leBytes_length 4 _)
    have r4 := read_u32_drop l _ (p + 4 + 8 + 4) (i * 1000 % 4294967296) h4
      (Nat.mod_lt _ (by norm_num)) (by omega)
    have h5 := drop_advance l _ _ (p + 4 + 8 + 4) 4 h4 (leBytes_length 4 _)
    have hrec := ih (i + 1) (off + f.byte_size % 4294967296) (p + 4 + 8 + 4 + 4)
      h5 (by simp at hi ⊢; omega)
      (by rw [sizeSum_cons] at hoff; omega)
    show read_toc_entries l (t.length + 1) p = _
    rw [read_toc_entries]
    rw [r1]
    show (do
      let (bo, pos) ← read_u64_le l (p + 4)
      let (fs2, pos) ← read_u32_le l pos
      let (ts2, pos) ← read_u32_le l pos
      let (rest2, pos) ← read_toc_entries l t.length pos
      .ok (({ frame_index := i, byte_offset := bo, frame_size := fs2,
              timestamp_ms := ts2 } : TocEntry) :: rest2, pos)) = _
    rw [r2]
    show (do
      let (fs2, pos) ← read_u32_le l (p + 4 + 8)
      let (ts2, pos) ← read_u32_le l pos
      let (rest2, pos) ← read_toc_entries l t.length pos
      .ok (({ frame_index := i, byte_offset := off, frame_size := fs2,
              timestamp_ms := ts2 } : TocEntry) :: rest2, pos)) = _
    rw [r3]
    show (do
      let (ts2, pos) ← read_u32_le l (p + 4 + 8 + 4)
      let (rest2, pos) ← read_toc_entries l t.length pos
      .ok (({ frame_index := i, byte_offset := off,
              frame_size := f.byte_size % 4294967296,
              timestamp_ms := ts2 } : TocEntry) :: rest2, pos)) = _
    rw [r4]
    show (do
      let (rest2, pos) ← read_toc_entries l t.length (p + 4 + 8 + 4 + 4)
      .ok (({ frame_index := i, byte_offset := off,
              frame_size := f.byte_size % 4294967296,
              timestamp_ms := i * 1000 % 4294967296 } : TocEntry) :: rest2, pos)) = _
    rw [hrec]
    show Except.ok _ = _
    rw [writtenTocAux]
    simp only [List.length_cons]
    congr 2
    omega

theorem i32le_flatMap_length (cs : List Int) : (cs.flatMap i32le).length = 4 * cs.length := by
  induction cs with
  | nil => simp
  | cons c t ih => simp [List.flatMap_cons, i32le_length, ih]; omega

theorem i32le_map_sum (cs : List Int) :
    (cs.map (List.length ∘ i32le)).sum = 4 * cs.length := by
  have := i32le_flatMap_length cs
  rwa [List.length_flatMap] at this

theorem write_channel_data_length (c : ChannelData) (ft : FrameType) :
    (write_channel_data c ft).length = channel_byte_size ft c := by
  cases ft <;>
    simp [write_channel_data, channel_byte_size, FrameType.is_alpc, FrameType.is_transform,
      FrameType.toByte, i32le_map_sum, i32le_flatMap_length, leBytes_length] <;>
    (try split) <;> simp [leBytes_length] <;> omega

theorem write_frame_length (f : Frame) : (write_frame f).length = f.byte_size := by
  rw [write_frame, Frame.byte_size]
  simp only [List.length_append, List.length_cons, List.length_flatMap, leBytes_length]
  have hmap : List.map (List.length ∘ fun ch =>
      leBytes 4 (write_channel_data ch (FrameType.ofByte f.frame_type)).length ++
        write_channel_data ch (FrameType.ofByte f.frame_type)) f.channels =
      List.map (fun ch => 4 + channel_byte_size (FrameType.ofByte f.frame_type) ch)
        f.channels := by
    apply List.map_congr_left
    intro ch _
    simp [Function.comp, leBytes_length, write_channel_data_length]
  rw [hmap]
  simp

theorem build_data_chunk_cons (f : Frame) (fs : List Frame) :
    build_data_chunk (f :: fs) = write_frame f ++ build_data_chunk fs := by
  simp [build_data_chunk]

theorem build_data_chunk_length (fs : List Frame) :
    (build_data_chunk fs).length = (fs.map Frame.byte_size).sum := by
  induction fs with
  | nil => simp [build_data_chunk]
  | cons f t ih => rw [build_data_chunk_cons]; simp [write_frame_length, ih]




theorem read_coeffs_of_write (l rest : List Nat) (cs : List Int) (chEnd : Nat)
    (hrange : ∀ x ∈ cs, -2147483648 ≤ x ∧ x < 2147483648) :
    ∀ p, l.drop p = cs.flatMap i32le ++ rest → p + 4 * cs.length ≤ chEnd →
      p ≤ l.length →
      read_coeffs l chEnd cs.length p = .ok (cs, p + 4 * cs.length) := by
  induction cs with
  | nil =>
    intro p hdrop hend hp
    simp only [List.length_nil]
    rw [read_coeffs]
    norm_num
  | cons c t ih =>
    intro p hdrop hend hp
    simp only [List.flatMap_cons, List.append_assoc] at hdrop
    have hlen0 := congrArg List.length hdrop
    rw [List.length_drop] at hlen0
    simp only [List.length_append, i32le_length] at hlen0
    have r1 := read_i32_drop l _ p c hdrop ((hrange c (by simp)).1)
      ((hrange c (by simp)).2) hp
    have h2 := drop_advance l _ _ p 4 hdrop (i32le_length c)
    have hrec := ih (fun x hx => hrange x (by simp [hx])) (p + 4) h2
      (by simp at hend ⊢; omega) (by omega)
    simp only [List.length_cons]
    rw [read_coeffs, if_neg (by simp at hend; omega)]
    rw [r1]
    show (do
      let (rest2, pos) ← read_coeffs l chEnd t.length (p + 4)
      .ok (c :: rest2, pos)) = _
    rw [hrec]
    show Except.ok _ = _
    congr 2
    omega

theorem ofByte_toByte (e : ResidualEncoding) : ResidualEncoding.ofByte e.toByte = e := by
  cases e <;> rfl

theorem alpc_ne_silence (ft : FrameType) (h : ft.is_alpc = true) : ft ≠ .Silence := by
  cases ft <;> simp_all [FrameType.is_alpc, FrameType.toByte]

theorem alpc_ne_raw (ft : FrameType) (h : ft.is_alpc = true) : ft ≠ .Raw := by
  cases ft <;> simp_all [FrameType.is_alpc, FrameType.toByte]

theorem alpc_ne_transform (ft : FrameType) (h : ft.is_alpc = true) : ft ≠ .Transform := by
  cases ft <;> simp_all [FrameType.is_alpc, FrameType.toByte]

set_option maxHeartbeats 1000000 in
theorem read_channel_data_alpc (l rest : List Nat) (p samples : Nat) (ft : FrameType)
    (hft : ft.is_alpc = true) (c : ChannelData) (hwf : chanWF_alpc c)
    (hs : samples ≤ 2000000)
    (hdrop : l.drop p = write_channel_data c ft ++ rest) :
    read_channel_data l ft samples (p + (write_channel_data c ft).length) p =
      .ok (c, p + (write_channel_data c ft).length) := by
  obtain ⟨hn, hrange, hsb, hk, hk0⟩ := hwf
  have hwcd : write_channel_data c ft =
      [c.predictor_coeffs.length] ++ (c.predictor_coeffs.flatMap i32le ++
      ([c.shift_bits] ++ ([c.residual_encoding.toByte] ++
      ((if c.residual_encoding = .Rice then [c.rice_parameter] else []) ++
      c.residuals)))) := by
    rw [write_channel_data, if_neg (alpc_ne_silence ft hft),
      if_neg (alpc_ne_raw ft hft), if_neg (alpc_ne_transform ft hft), if_pos hft]
    rw [Nat.mod_eq_of_lt (by omega), Nat.mod_eq_of_lt hsb]
    by_cases hre : c.residual_encoding = .Rice
    · rw [if_pos hre, if_pos hre, Nat.mod_eq_of_lt (hk hre)]
      simp [List.append_assoc]
    · rw [if_neg hre, if_neg hre]
      simp [List.append_assoc]
  rw [hwcd] at hdrop
  have hlen0 := congrArg List.length hdrop
  rw [List.length_drop] at hlen0
  simp only [List.length_append, List.length_cons, List.length_nil,
    i32le_flatMap_length] at hlen0
  have hrice_len : (if c.residual_encoding = .Rice then [c.rice_parameter] else []).length =
      (if c.residual_encoding = .Rice then 1 else 0) := by
    split <;> rfl
  have hbound : (if c.residual_encoding = .Rice then 1 else 0) ≤ 1 := by
    split <;> omega
  rw [hrice_len] at hlen0
  have hlwcd : (write_channel_data c ft).length = 1 + 4 * c.predictor_coeffs.length +
      1 + 1 + (if c.residual_encoding = .Rice then 1 else 0) + c.residuals.length := by
    rw [hwcd]
    simp only [List.length_append, List.length_cons, List.length_nil, hrice_len,
      i32le_flatMap_length]
    omega
  have hp : p ≤ l.length := by omega
  rw [read_channel_data, if_neg (by omega), if_neg (alpc_ne_silence ft hft),
    if_neg (alpc_ne_raw ft hft), if_neg (alpc_ne_transform ft hft), if_pos hft]
  simp only [List.append_assoc, List.cons_append, List.nil_append] at hdrop
  have r1 := read_u8_drop l p c.predictor_coeffs.length _ hdrop
  have h2 := drop_advance_cons l _ p c.predictor_coeffs.length hdrop
  have L := (write_channel_data c ft).length
  have hrc := read_coeffs_of_write l _ c.predictor_coeffs
    (p + (write_channel_data c ft).length) hrange (p + 1) h2
    (by rw [hlwcd]; omega) (by omega)
  have h3 := drop_advance l _ _ (p + 1) (4 * c.predictor_coeffs.length) h2
    (i32le_flatMap_length c.predictor_coeffs)
  have r3 := read_u8_drop l (p + 1 + 4 * c.predictor_coeffs.length) c.shift_bits _ h3
  have h4 := drop_advance_cons l _ (p + 1 + 4 * c.predictor_coeffs.length) c.shift_bits h3
  have r4 := read_u8_drop l (p + 1 + 4 * c.predictor_coeffs.length + 1)
    c.residual_encoding.toByte _ h4
  have h5 := drop_advance_cons l _ (p + 1 + 4 * c.predictor_coeffs.length + 1)
    c.residual_encoding.toByte h4
  have r5 : (if ResidualEncoding.ofByte c.residual_encoding.toByte = .Rice then
        read_u8 l (p + 1 + 4 * c.predictor_coeffs.length + 1 + 1)
      else .ok (0, p + 1 + 4 * c.predictor_coeffs.length + 1 + 1)) =
      .ok (c.rice_parameter, p + 1 + 4 * c.predictor_coeffs.length + 1 + 1 +
        (if c.residual_encoding = .Rice then 1 else 0)) := by
    rw [ofByte_toByte]
    by_cases hre : c.residual_encoding = .Rice
    · simp only [hre, reduceIte] at h5 ⊢
      simp only [List.cons_append, List.nil_append] at h5
      exact read_u8_drop l _ c.rice_parameter _ h5
    · simp only [if_neg hre, hk0 hre]
  have h6 : l.drop (p + 1 + 4 * c.predictor_coeffs.length + 1 + 1 +
      (if c.residual_encoding = .Rice then 1 else 0)) = c.residuals ++ rest := by
    by_cases hre : c.residual_encoding = .Rice
    · simp only [hre, reduceIte] at h5 ⊢
      simp only [List.cons_append, List.nil_append] at h5
      have := drop_advance_cons l _ _ c.rice_parameter h5
      simpa using this
    · simp only [if_neg hre] at h5 ⊢
      simpa using h5
  have r6 : (if (p + (write_channel_data c ft).length) -
        (p + 1 + 4 * c.predictor_coeffs.length + 1 + 1 +
          (if c.residual_encoding = .Rice then 1 else 0)) > 0 then
        read_bytes l (p + 1 + 4 * c.predictor_coeffs.length + 1 + 1 +
          (if c.residual_encoding = .Rice then 1 else 0))
          ((p + (write_channel_data c ft).length) -
            (p + 1 + 4 * c.predictor_coeffs.length + 1 + 1 +
              (if c.residual_encoding = .Rice then 1 else 0)))
      else .ok ([], p + 1 + 4 * c.predictor_coeffs.length + 1 + 1 +
        (if c.residual_encoding = .Rice then 1 else 0))) =
      .ok (c.residuals, p + (write_channel_data c ft).length) := by
    have hrem : (p + (write_channel_data c ft).length) -
        (p + 1 + 4 * c.predictor_coeffs.length + 1 + 1 +
          (if c.residual_encoding = .Rice then 1 else 0)) = c.residuals.length := by
      rw [hlwcd]; split <;> omega
    rw [hrem]
    by_cases hres : c.residuals = []
    · rw [if_neg (by simp [hres])]
      rw [hres]
      have : p + 1 + 4 * c.predictor_coeffs.length + 1 + 1 +
          (if c.residual_encoding = .Rice then 1 else 0) =
          p + (write_channel_data c ft).length := by
        rw [hlwcd, hres]; split <;> simp <;> omega
      rw [this]
    · rw [if_pos (by simp [List.length_pos_iff_ne_nil, hres])]
      have hrb := read_bytes_drop l c.residuals rest _ c.residuals.length h6 rfl
        (by omega)
      rw [hrb]
      have hpos : p + 1 + 4 * c.predictor_coeffs.length + 1 + 1 +
          (if c.residual_encoding = .Rice then 1 else 0) + c.residuals.length =
          p + (write_channel_data c ft).length := by rw [hlwcd]; omega
      rw [hpos]
  rw [r1]
  show ((if c.predictor_coeffs.length > 12 then
      Except.error "Invalid LPC order"
    else (do
      let (coeffs, pos) ← read_coeffs l (p + (write_channel_data c ft).length)
        c.predictor_coeffs.length (p + 1)
      let (sb, pos) ← read_u8 l pos
      let (reb, pos) ← read_u8 l pos
      let re := ResidualEncoding.ofByte reb
      let (rp, pos) ← (if re = ResidualEncoding.Rice then read_u8 l pos else Except.ok (0, pos))
      let (res, pos) ← (if (p + (write_channel_data c ft).length) - pos > 0 then
          read_bytes l pos ((p + (write_channel_data c ft).length) - pos)
        else Except.ok ([], pos))
      Except.ok (ChannelData.mk coeffs sb re rp res, pos))) :
    Except String (ChannelData × Nat)) = _
  rw [if_neg (by omega)]
  rw [hrc]
  show (do
      let (sb, pos) ← read_u8 l (p + 1 + 4 * c.predictor_coeffs.length)
      let (reb, pos) ← read_u8 l pos
      let re := ResidualEncoding.ofByte reb
      let (rp, pos) ← (if re = ResidualEncoding.Rice then read_u8 l pos else Except.ok (0, pos))
      let (res, pos) ← (if (p + (write_channel_data c ft).length) - pos > 0 then
          read_bytes l pos ((p + (write_channel_data c ft).length) - pos)
        else Except.ok ([], pos))
      Except.ok (ChannelData.mk c.predictor_coeffs sb re rp res, pos)) = _
  rw [r3]
  show (do
      let (reb, pos) ← read_u8 l (p + 1 + 4 * c.predictor_coeffs.length + 1)
      let re := ResidualEncoding.ofByte reb
      let (rp, pos) ← (if re = ResidualEncoding.Rice then read_u8 l pos else Except.ok (0, pos))
      let (res, pos) ← (if (p + (write_channel_data c ft).length) - pos > 0 then
          read_bytes l pos ((p + (write_channel_data c ft).length) - pos)
        else Except.ok ([], pos))
      Except.ok (ChannelData.mk c.predictor_coeffs c.shift_bits re rp res, pos)) = _
  rw [r4]
  show (do
      let (rp, pos) ← (if ResidualEncoding.ofByte c.residual_encoding.toByte = ResidualEncoding.Rice then
          read_u8 l (p + 1 + 4 * c.predictor_coeffs.length + 1 + 1)
        else Except.ok (0, p + 1 + 4 * c.predictor_coeffs.length + 1 + 1))
      let (res, pos) ← (if (p + (write_channel_data c ft).length) - pos > 0 then
          read_bytes l pos ((p + (write_channel_data c ft).length) - pos)
        else Except.ok ([], pos))
      Except.ok (ChannelData.mk c.predictor_coeffs c.shift_bits
        (ResidualEncoding.ofByte c.residual_encoding.toByte) rp res, pos)) = _
  rw [r5]
  show (do
      let (res, pos) ← (if (p + (write_channel_data c ft).length) -
            (p + 1 + 4 * c.predictor_coeffs.length + 1 + 1 +
              (if c.residual_encoding = ResidualEncoding.Rice then 1 else 0)) > 0 then
          read_bytes l (p + 1 + 4 * c.predictor_coeffs.length + 1 + 1 +
              (if c.residual_encoding = ResidualEncoding.Rice then 1 else 0))
            ((p + (write_channel_data c ft).length) -
              (p + 1 + 4 * c.predictor_coeffs.length + 1 + 1 +
                (if c.residual_encoding = ResidualEncoding.Rice then 1 else 0)))
        else Except.ok ([], p + 1 + 4 * c.predictor_coeffs.length + 1 + 1 +
          (if c.residual_encoding = ResidualEncoding.Rice then 1 else 0)))
      Except.ok (ChannelData.mk c.predictor_coeffs c.shift_bits
        (ResidualEncoding.ofByte c.residual_encoding.toByte) c.rice_parameter res,
        pos)) = _
  rw [r6]
  show Except.ok (ChannelData.mk c.predictor_coeffs c.shift_bits
      (ResidualEncoding.ofByte c.residual_encoding.toByte) c.rice_parameter c.residuals,
      p + (write_channel_data c ft).length) = _
  rw [ofByte_toByte]

theorem read_channel_data_silence (l : List Nat) (p samples : Nat) (hs : samples ≤ 2000000) :
    read_channel_data l .Silence samples p p = .ok (ChannelData.new_silence, p) := by
  rw [read_channel_data, if_neg (by omega), if_pos rfl]

theorem read_channel_data_raw (l rest : List Nat) (p samples : Nat) (d : List Nat)
    (hdrop : l.drop p = d ++ rest) (hs : samples ≤ 2000000) (hlen : d.length ≤ 2 * samples)
    (hp : p ≤ l.length) :
    read_channel_data l .Raw samples (p + d.length) p =
      .ok (ChannelData.new_raw d, p + d.length) := by
  rw [read_channel_data, if_neg (by omega), if_neg (by decide), if_pos rfl]
  have hmin : min (samples * 2) (p + d.length - p) = d.length := by omega
  rw [hmin, read_bytes_drop l d rest p d.length hdrop rfl hp]
  rfl

theorem read_channel_data_of_write (l rest : List Nat) (p samples : Nat) (ft : FrameType)
    (hft : ft = .Silence ∨ ft = .Raw ∨ ft.is_alpc = true)
    (c : ChannelData) (hwf : chanWF ft samples c) (hs : samples ≤ 2000000)
    (hdrop : l.drop p = write_channel_data c ft ++ rest) (hp : p ≤ l.length) :
    read_channel_data l ft samples (p + (write_channel_data c ft).length) p =
      .ok (c, p + (write_channel_data c ft).length) := by
  rcases hft with h | h | h
  · subst h
    rw [chanWF, if_pos rfl] at hwf
    subst hwf
    show read_channel_data l .Silence samples (p + 0) p = .ok (ChannelData.new_silence, p + 0)
    simpa using read_channel_data_silence l p samples hs
  · subst h
    rw [chanWF, if_neg (by decide), if_pos rfl] at hwf
    obtain ⟨hc, hlen⟩ := hwf
    have hwcd : write_channel_data c .Raw = c.residuals := rfl
    rw [hwcd] at hdrop ⊢
    have := read_channel_data_raw l rest p samples c.residuals hdrop hs hlen hp
    rw [← hc] at this
    exact this
  · rw [chanWF, if_neg (alpc_ne_silence ft h), if_neg (alpc_ne_raw ft h)] at hwf
    exact read_channel_data_alpc l rest p samples ft h c hwf hs hdrop

theorem read_channels_of_write (l : List Nat) (ft : FrameType) (samples : Nat)
    (hft : ft = .Silence ∨ ft = .Raw ∨ ft.is_alpc = true) (hs : samples ≤ 2000000) :
    ∀ (chs : List ChannelData) (p : Nat) (rest : List Nat),
      l.drop p = chs.flatMap (fun c =>
        leBytes 4 (write_channel_data c ft).length ++ write_channel_data c ft) ++ rest →
      (∀ c ∈ chs, chanWF ft samples c) →
      (∀ c ∈ chs, (write_channel_data c ft).length < 4294967296) →
      read_channels l ft samples chs.length p =
        .ok (chs, p + (chs.flatMap (fun c =>
          leBytes 4 (write_channel_data c ft).length ++
            write_channel_data c ft)).length) := by
  intro chs
  induction chs with
  | nil =>
    intro p rest hdrop hwf hsz
    simp only [List.length_nil, List.flatMap_nil, Nat.add_zero]
    rw [read_channels]
  | cons c t ih =>
    intro p rest hdrop hwf hsz
    simp only [List.flatMap_cons, List.append_assoc] at hdrop
    have hlen0 := congrArg List.length hdrop
    rw [List.length_drop] at hlen0
    simp only [List.length_append, leBytes_length] at hlen0
    have hp : p ≤ l.length := drop_length_le l _ _ p hdrop
      (by intro hc; have := congrArg List.length hc; simp [leBytes_length] at this)
    have r1 := read_u32_drop l _ p (write_channel_data c ft).length hdrop
      (hsz c (by simp)) hp
    have h2 := drop_advance l _ _ p 4 hdrop (leBytes_length 4 _)
    have rc := read_channel_data_of_write l (t.flatMap (fun c =>
        leBytes 4 (write_channel_data c ft).length ++ write_channel_data c ft) ++ rest)
      (p + 4) samples ft hft c (hwf c (by simp)) hs h2 (by omega)
    have h3 := drop_advance l _ _ (p + 4) (write_channel_data c ft).length h2 rfl
    have hrec := ih (p + 4 + (write_channel_data c ft).length) rest h3
      (fun x hx => hwf x (by simp [hx])) (fun x hx => hsz x (by simp [hx]))
    simp only [List.length_cons]
    rw [read_channels]
    rw [r1]
    show (do
      let (ch2, _) ← read_channel_data l ft samples
        (p + 4 + (write_channel_data c ft).length) (p + 4)
      let (rest2, pos2) ← read_channels l ft samples t.length
        (p + 4 + (write_channel_data c ft).length)
      Except.ok (ch2 :: rest2, pos2)) = _
    rw [rc]
    show (do
      let (rest2, pos2) ← read_channels l ft samples t.length
        (p + 4 + (write_channel_data c ft).length)
      Except.ok (c :: rest2, pos2)) = _
    rw [hrec]
    show Except.ok _ = _
    congr 2
    simp only [List.flatMap_cons, List.length_append, leBytes_length]
    omega

theorem read_frame_of_write (l rest : List Nat) (f : Frame) (numCh p : Nat)
    (hdrop : l.drop p = write_frame f ++ rest) (hwf : frameWF numCh f)
    (hsz : ∀ c ∈ f.channels,
      (write_channel_data c (FrameType.ofByte f.frame_type)).length < 4294967296) :
    read_frame l numCh f.byte_size p = .ok (f, p + f.byte_size) := by
  obtain ⟨hty, hfl, hs, hnc, hbr, hcwf⟩ := hwf
  have hnt : FrameType.ofByte f.frame_type ≠ .Transform := by
    rcases hbr with h | h | h
    · rw [h]; decide
    · rw [h]; decide
    · exact alpc_ne_transform _ h
  rw [write_frame, Nat.mod_eq_of_lt hty, Nat.mod_eq_of_lt hfl] at hdrop
  simp only [List.append_assoc, List.cons_append, List.nil_append] at hdrop
  have r1 := read_u8_drop l p f.frame_type _ hdrop
  have h2 := drop_advance_cons l _ p f.frame_type hdrop
  have hlen0 := congrArg List.length hdrop
  rw [List.length_drop] at hlen0
  simp only [List.length_cons, List.length_append, leBytes_length] at hlen0
  have r2 := read_u32_drop l _ (p + 1) f.frame_samples h2 (by omega) (by omega)
  have h3 := drop_advance l _ _ (p + 1) 4 h2 (leBytes_length 4 _)
  have r3 := read_u8_drop l (p + 1 + 4) f.flags _ h3
  have h4 := drop_advance_cons l _ (p + 1 + 4) f.flags h3
  have rc := read_channels_of_write l (FrameType.ofByte f.frame_type) f.frame_samples
    hbr hs f.channels (p + 1 + 4 + 1) rest h4 hcwf hsz
  rw [read_frame]
  rw [r1]
  show (do
    let (samples, pos) ← read_u32_le l (p + 1)
    let (flags, pos) ← read_u8 l pos
    let ft := FrameType.ofByte f.frame_type
    let (chs, _) ← read_channels l ft samples
      (if ft = FrameType.Transform then 1 else numCh) pos
    Except.ok (Frame.mk f.frame_type samples flags chs, p + f.byte_size)) = _
  rw [r2]
  show (do
    let (flags, pos) ← read_u8 l (p + 1 + 4)
    let ft := FrameType.ofByte f.frame_type
    let (chs, _) ← read_channels l ft f.frame_samples
      (if ft = FrameType.Transform then 1 else numCh) pos
    Except.ok (Frame.mk f.frame_type f.frame_samples flags chs, p + f.byte_size)) = _
  rw [r3]
  show (do
    let (chs, _) ← read_channels l (FrameType.ofByte f.frame_type) f.frame_samples
      (if FrameType.ofByte f.frame_type = FrameType.Transform then 1 else numCh)
      (p + 1 + 4 + 1)
    Except.ok (Frame.mk f.frame_type f.frame_samples f.flags chs,
      p + f.byte_size)) = _
  rw [if_neg hnt, ← hnc, rc]
  rfl

theorem byte_size_pos (f : Frame) : 6 ≤ f.byte_size := by
  rw [Frame.byte_size]
  omega

theorem byte_size_le_bdc (f : Frame) (fs : List Frame) (hf : f ∈ fs) :
    f.byte_size ≤ (build_data_chunk fs).length := by
  rw [build_data_chunk_length]
  exact List.single_le_sum (fun x _ => Nat.zero_le x) _ (List.mem_map_of_mem _ hf)

theorem read_frames_loop_of_write (l : List Nat) (numCh dataStart dataLen : Nat)
    (hdl : dataLen < 4294967296) :
    ∀ (fs : List Frame) (i off : Nat) (rest : List Nat),
      l.drop (dataStart + off) = build_data_chunk fs ++ rest →
      (∀ f ∈ fs, frameWF numCh f) →
      off + (build_data_chunk fs).length = dataLen →
      read_frames_loop l numCh dataStart (dataStart + dataLen)
        (writtenTocAux fs i off) = .ok fs := by
  intro fs
  induction fs with
  | nil =>
    intro i off rest hdrop hwf hoff
    rw [writtenTocAux, read_frames_loop]
  | cons f t ih =>
    intro i off rest hdrop hwf hoff
    rw [build_data_chunk_cons] at hdrop hoff
    simp only [List.append_assoc] at hdrop
    simp only [List.length_append] at hoff
    have hbs6 := byte_size_pos f
    have hwfl := write_frame_length f
    have hbs : f.byte_size % 4294967296 = f.byte_size :=
      Nat.mod_eq_of_lt (by omega)
    have hszch : ∀ c ∈ f.channels,
        (write_channel_data c (FrameType.ofByte f.frame_type)).length < 4294967296 := by
      intro c hc
      have h1 : 4 + channel_byte_size (FrameType.ofByte f.frame_type) c ≤ f.byte_size := by
        rw [Frame.byte_size]
        have := List.single_le_sum (fun (x : Nat) _ => Nat.zero_le x) _
          (List.mem_map_of_mem
            (fun ch => 4 + channel_byte_size (FrameType.ofByte f.frame_type) ch) hc)
        simp only [] at this
        omega
      rw [write_channel_data_length]
      omega
    have hrf := read_frame_of_write l (build_data_chunk t ++ rest) f numCh
      (dataStart + off) hdrop (hwf f (by simp)) hszch
    have hadv := drop_advance l _ _ (dataStart + off) f.byte_size hdrop hwfl
    have hrec := ih (i + 1) (off + f.byte_size % 4294967296) rest
      (by rw [hbs, ← Nat.add_assoc]; exact hadv)
      (fun x hx => hwf x (by simp [hx])) (by rw [hbs]; omega)
    rw [hbs] at hrec
    rw [writtenTocAux, read_frames_loop]
    rw [if_neg (by simp only []; omega)]
    rw [hbs, hrf]
    show (do
      let fs2 ← read_frames_loop l numCh dataStart (dataStart + dataLen)
        (writtenTocAux t (i + 1) (off + f.byte_size))
      Except.ok (f :: fs2)) = _
    rw [hrec]
    rfl

theorem xor_lt_32 (a b : Nat) (ha : a < 4294967296) (hb : b < 4294967296) :
    a ^^^ b < 4294967296 := by
  have := @Nat.xor_lt_two_pow a b 32
    (by norm_num at ha ⊢; exact ha) (by norm_num at hb ⊢; exact hb)
  norm_num at this
  exact this

theorem crc32_step_lt (c : Nat) (h : c < 4294967296) : crc32_step c < 4294967296 := by
  rw [crc32_step]
  have h1 : c >>> 1 < 4294967296 := by
    rw [Nat.shiftRight_one]
    omega
  split
  · exact xor_lt_32 _ _ h1 (by norm_num)
  · exact h1

theorem crc32_byte_lt (c b : Nat) (h : c < 4294967296) :
    crc32_byte c b < 4294967296 := by
  rw [crc32_byte]
  have hinit : c ^^^ b % 256 < 4294967296 :=
    xor_lt_32 _ _ h (by have : b % 256 < 256 := Nat.mod_lt b (by norm_num); omega)
  generalize c ^^^ b % 256 = x at hinit
  have : ∀ (l : List Nat) (x : Nat), x < 4294967296 →
      (l.foldl (fun c _ => crc32_step c) x) < 4294967296 := by
    intro l
    induction l with
    | nil => intro x hx; simpa using hx
    | cons a t ih =>
      intro x hx
      rw [List.foldl_cons]
      exact ih _ (crc32_step_lt x hx)
  exact this _ x hinit

theorem crc32_compute_lt (data : List Nat) : crc32_compute data < 4294967296 := by
  rw [crc32_compute]
  have : ∀ (l : List Nat) (x : Nat), x < 4294967296 →
      (l.foldl (fun crc b => crc32_byte crc b) x) < 4294967296 := by
    intro l
    induction l with
    | nil => intro x hx; simpa using hx
    | cons a t ih =>
      intro x hx
      rw [List.foldl_cons]
      exact ih _ (crc32_byte_lt x a hx)
  exact xor_lt_32 _ _ (this data 4294967295 (by norm_num)) (by norm_num)

theorem write_header_ex_length (sr ch bd cl tf crc flags ts ds es ms : Nat) :
    (write_header_ex sr ch bd cl tf crc flags ts ds es ms).length = 70 := by
  simp [write_header_ex, MAGIC, leBytes_length]

theorem build_toc_chunk_length (fs : List Frame) :
    (build_toc_chunk fs).length = 4 + 20 * fs.length := by
  simp [build_toc_chunk, leBytes_length, toc_entries_bytes_length]

theorem write_ex_flags_lt (lossy : Bool) (q : Nat) :
    (if lossy then (1 ||| (q % 256) <<< 8) % 65536 else 0) < 65536 := by
  cases lossy
  · simp
  · simp only [if_pos]
    exact Nat.mod_lt _ (by norm_num)

set_option maxHeartbeats 1000000 in
theorem reader_read_write_ex_aux (l : List Nat) (sr ch bd cl q : Nat) (lossy : Bool)
    (frames : List Frame) (meta : List Nat)
    (hW : l = write_ex sr ch bd cl lossy q frames meta)
    (hsr : sr < 4294967296) (hch : ch < 256) (hbd : bd < 256) (hcl : cl < 256)
    (hn : frames.length ≤ 100000)
    (hwf : ∀ f ∈ frames, frameWF ch f)
    (hdata : (build_data_chunk frames).length < 4294967296)
    (hmeta : meta.length < 18446744073709551616) :
    reader_read l = .ok (FloFile.mk
      (writtenHeader sr ch bd cl frames.length (crc32_compute (build_data_chunk frames))
        (if lossy then (1 ||| (q % 256) <<< 8) % 65536 else 0)
        (4 + frames.length * 20) (build_data_chunk frames).length 0 meta.length)
      (writtenTocAux frames 0 0) frames [] meta) := by
  have hW2 : l = write_header_ex sr ch bd cl frames.length
      (crc32_compute (build_data_chunk frames))
      (if lossy then (1 ||| (q % 256) <<< 8) % 65536 else 0)
      (4 + frames.length * 20) (build_data_chunk frames).length 0 meta.length ++
      (build_toc_chunk frames ++ (build_data_chunk frames ++ meta)) := by
    rw [hW, write_ex]
    simp [List.append_assoc]
  have hlen : l.length = 70 + (4 + 20 * frames.length) +
      (build_data_chunk frames).length + meta.length := by
    rw [hW2]
    simp [write_header_ex_length, build_toc_chunk_length, List.length_append]
    omega
  have hdrop0 : l.drop 0 = write_header_ex sr ch bd cl frames.length
      (crc32_compute (build_data_chunk frames))
      (if lossy then (1 ||| (q % 256) <<< 8) % 65536 else 0)
      (4 + frames.length * 20) (build_data_chunk frames).length 0 meta.length ++
      (build_toc_chunk frames ++ (build_data_chunk frames ++ meta)) := by
    rw [List.drop_zero]
    exact hW2
  obtain ⟨hdrTail, hht⟩ : ∃ t, write_header_ex sr ch bd cl frames.length
      (crc32_compute (build_data_chunk frames))
      (if lossy then (1 ||| (q % 256) <<< 8) % 65536 else 0)
      (4 + frames.length * 20) (build_data_chunk frames).length 0 meta.length =
      MAGIC ++ t := by
    refine ⟨?_, ?_⟩
    · exact [VERSION_MAJOR] ++ ([VERSION_MINOR] ++ (leBytes 2
        (if lossy then (1 ||| (q % 256) <<< 8) % 65536 else 0) ++ (leBytes 4 sr ++
        ([ch % 256] ++ ([bd % 256] ++ (leBytes 8 frames.length ++ ([cl % 256] ++
        ([0, 0, 0] ++ (leBytes 4 (crc32_compute (build_data_chunk frames)) ++
        (leBytes 8 HEADER_SIZE ++ (leBytes 8 (4 + frames.length * 20) ++
        (leBytes 8 (build_data_chunk frames).length ++ (leBytes 8 0 ++
        leBytes 8 meta.length)))))))))))))
    · rw [write_header_ex]
      simp only [List.append_assoc]
  have hmagic : read_bytes l 0 4 = .ok (MAGIC, 4) :=
    read_bytes_drop l MAGIC (hdrTail ++ (build_toc_chunk frames ++
        (build_data_chunk frames ++ meta))) 0 4
      (by rw [List.drop_zero, hW2, hht, List.append_assoc]) rfl (by omega)
  have hhdr0 := read_header_of_write sr ch bd cl frames.length
    (crc32_compute (build_data_chunk frames))
    (if lossy then (1 ||| (q % 256) <<< 8) % 65536 else 0)
    (4 + frames.length * 20) (build_data_chunk frames).length 0 meta.length
    (build_toc_chunk frames ++ (build_data_chunk frames ++ meta))
    hsr hch hbd hcl (by omega) (crc32_compute_lt _) (write_ex_flags_lt lossy q)
    (by omega) (by omega) (by norm_num) hmeta
  rw [← hW2] at hhdr0
  have h70 : l.drop 70 = build_toc_chunk frames ++ (build_data_chunk frames ++ meta) := by
    have := drop_advance l _ _ 0 70 hdrop0 (write_header_ex_length _ _ _ _ _ _ _ _ _ _ _)
    simpa using this
  rw [build_toc_chunk, List.append_assoc] at h70
  have hrn := read_u32_drop l _ 70 frames.length h70 (by omega) (by omega)
  have h74 := drop_advance l _ _ 70 4 h70 (leBytes_length 4 _)
  have hentries := read_toc_entries_of_write frames 0 0 74 l
    (build_data_chunk frames ++ meta) h74 (by omega)
    (by have := sizeSum_lt frames hn; omega)
  have htoc : read_toc l (4 + frames.length * 20) 70 =
      .ok (writtenTocAux frames 0 0, 74 + 20 * frames.length) := by
    rw [read_toc, if_neg (by omega)]
    rw [hrn]
    show (if frames.length > 100000 then Except.error "Invalid TOC: too many entries"
      else read_toc_entries l frames.length 74) = _
    rw [if_neg (by omega), hentries]
  have hd : l.drop (74 + 20 * frames.length) = build_data_chunk frames ++ meta := by
    have := drop_advance l _ _ 74 (20 * frames.length) h74
      (toc_entries_bytes_length frames 0 0)
    simpa using this
  have hloop := read_frames_loop_of_write l ch (74 + 20 * frames.length)
    (build_data_chunk frames).length hdata frames 0 0 meta
    (by rw [Nat.add_zero]; exact hd) hwf (by omega)
  have hdc : read_data_chunk l (build_data_chunk frames).length ch
      (74 + 20 * frames.length) (writtenTocAux frames 0 0) =
      .ok (frames, 74 + 20 * frames.length + (build_data_chunk frames).length) := by
    rw [read_data_chunk, hloop]
    rfl
  have hskip : cursor_skip l (74 + 20 * frames.length + (build_data_chunk frames).length)
      0 = 74 + 20 * frames.length + (build_data_chunk frames).length := by
    rw [cursor_skip]
    omega
  have hmd : l.drop (74 + 20 * frames.length + (build_data_chunk frames).length) =
      meta ++ [] := by
    have := drop_advance l _ _ (74 + 20 * frames.length)
      (build_data_chunk frames).length hd rfl
    simpa using this
  have hrmeta := read_bytes_drop l meta [] _ meta.length hmd rfl (by omega)
  rw [reader_read]
  rw [hmagic]
  show (if MAGIC ≠ MAGIC then (Except.error "Invalid flo file: bad magic" :
      Except String FloFile)
    else (do
      let (header, pos) ← read_header l 4
      let (toc, pos) ← read_toc l header.toc_size pos
      let (frames2, pos) ← read_data_chunk l header.data_size header.channels pos toc
      let pos := cursor_skip l pos header.extra_size
      let (metadata, _) ← read_bytes l pos header.meta_size
      Except.ok (FloFile.mk header toc frames2 [] metadata))) = _
  rw [if_neg (by simp)]
  rw [hhdr0]
  show (do
    let (toc, pos) ← read_toc l (4 + frames.length * 20) 70
    let (frames2, pos) ← read_data_chunk l (build_data_chunk frames).length ch pos toc
    let pos := cursor_skip l pos 0
    let (metadata, _) ← read_bytes l pos meta.length
    Except.ok (FloFile.mk (writtenHeader sr ch bd cl frames.length
      (crc32_compute (build_data_chunk frames))
      (if lossy then (1 ||| (q % 256) <<< 8) % 65536 else 0)
      (4 + frames.length * 20) (build_data_chunk frames).length 0 meta.length)
      toc frames2 [] metadata)) = _
  rw [htoc]
  show (do
    let (frames2, pos) ← read_data_chunk l (build_data_chunk frames).length ch
      (74 + 20 * frames.length) (writtenTocAux frames 0 0)
    let pos := cursor_skip l pos 0
    let (metadata, _) ← read_bytes l pos meta.length
    Except.ok (FloFile.mk (writtenHeader sr ch bd cl frames.length
      (crc32_compute (build_data_chunk frames))
      (if lossy then (1 ||| (q % 256) <<< 8) % 65536 else 0)
      (4 + frames.length * 20) (build_data_chunk frames).length 0 meta.length)
      (writtenTocAux frames 0 0) frames2 [] metadata)) = _
  rw [hdc]
  show (do
    let (metadata, _) ← read_bytes l (cursor_skip l
      (74 + 20 * frames.length + (build_data_chunk frames).length) 0) meta.length
    Except.ok (FloFile.mk (writtenHeader sr ch bd cl frames.length
      (crc32_compute (build_data_chunk frames))
      (if lossy then (1 ||| (q % 256) <<< 8) % 65536 else 0)
      (4 + frames.length * 20) (build_data_chunk frames).length 0 meta.length)
      (writtenTocAux frames 0 0) frames [] metadata)) = _
  rw [hskip, hrmeta]
  rfl


theorem write_header_ex_split62 (sr ch bd cl tf crc flags ts ds es ms : Nat) :
    write_header_ex sr ch bd cl tf crc flags ts ds es ms =
      hdr62 sr ch bd cl tf crc flags ts ds es ++ leBytes 8 ms := rfl

theorem hdr62_length (sr ch bd cl tf crc flags ts ds es : Nat) :
    (hdr62 sr ch bd cl tf crc flags ts ds es).length = 62 := by
  simp [hdr62, MAGIC, leBytes_length]

theorem write_ex_length (sr ch bd cl q : Nat) (lossy : Bool) (frames : List Frame)
    (meta : List Nat) :
    (write_ex sr ch bd cl lossy q frames meta).length =
      74 + 20 * frames.length + (build_data_chunk frames).length + meta.length := by
  rw [write_ex]
  simp [List.length_append, write_header_ex_length, build_toc_chunk_length]
  omega

theorem write_split (sr ch bd cl : Nat) (frames : List Frame) (mm : List Nat) :
    write sr ch bd cl frames mm =
      ((hdr62 sr ch bd cl frames.length (crc32_compute (build_data_chunk frames)) 0
          (4 + frames.length * 20) (build_data_chunk frames).length 0 ++
        leBytes 8 mm.length) ++
       (build_toc_chunk frames ++ build_data_chunk frames)) ++ mm := by
  rw [write, write_ex, write_header_ex_split62]
  simp [List.append_assoc]

theorem write_take4 (sr ch bd cl : Nat) (frames : List Frame) (mm : List Nat) :
    (write sr ch bd cl frames mm).take 4 = MAGIC := by
  rw [write_split, hdr62]
  simp only [List.append_assoc, MAGIC]
  rfl

theorem take_append_of_length (A B : List Nat) (k : Nat) (h : A.length = k) :
    (A ++ B).take k = A := by
  rw [← h, List.take_left]

theorem drop_append_of_length (A B : List Nat) (k : Nat) (h : A.length = k) :
    (A ++ B).drop k = B := by
  rw [← h, List.drop_left]

set_option maxHeartbeats 2000000 in
/-- C3: updating the metadata of a written flo file is exactly rewriting the
file with the new metadata: `update_metadata_bytes` succeeds (no panic, no
error), the result is byte-for-byte `write` with the new metadata, bytes
`[0, 62)` (which include the stored data CRC-32 at `[26, 30)`) are unchanged,
the 8-byte little-endian `meta_size` field at offset 62 reads the new length,
every byte of the TOC and DATA regions `[70, meta_offset)` is unchanged, and
decoding the updated file yields exactly the same samples.  Stripping
metadata is the `m = []` instance. -/
theorem c3_update_metadata (sr ch bd cl : Nat) (frames : List Frame) (meta m : List Nat)
    (hsr : sr < 4294967296) (hch : ch < 256) (hbd : bd < 256) (hcl : cl < 256)
    (hn : frames.length ≤ 100000) (hwf : ∀ f ∈ frames, frameWF ch f)
    (hdata : (build_data_chunk frames).length < 4294967296)
    (hmeta : meta.length < 18446744073709551616)
    (hm : m.length < 18446744073709551616) :
    update_metadata_bytes (write sr ch bd cl frames meta) m =
      some (.ok (write sr ch bd cl frames m)) ∧
    (write sr ch bd cl frames m).take 62 = (write sr ch bd cl frames meta).take 62 ∧
    ((write sr ch bd cl frames m).take 70).drop 62 = leBytes 8 m.length ∧
    (∀ i, 70 ≤ i → i < 74 + 20 * frames.length + (build_data_chunk frames).length →
      (write sr ch bd cl frames m)[i]? = (write sr ch bd cl frames meta)[i]?) ∧
    decode_int (write sr ch bd cl frames m) = decode_int (write sr ch bd cl frames meta) := by
  have hRmeta := reader_read_write_ex_aux (write sr ch bd cl frames meta) sr ch bd cl 0
    false frames meta rfl hsr hch hbd hcl hn hwf hdata hmeta
  have hRm := reader_read_write_ex_aux (write sr ch bd cl frames m) sr ch bd cl 0
    false frames m rfl hsr hch hbd hcl hn hwf hdata hm
  have hLmeta : (write sr ch bd cl frames meta).length =
      74 + 20 * frames.length + (build_data_chunk frames).length + meta.length :=
    write_ex_length sr ch bd cl 0 false frames meta
  have hLm : (write sr ch bd cl frames m).length =
      74 + 20 * frames.length + (build_data_chunk frames).length + m.length :=
    write_ex_length sr ch bd cl 0 false frames m
  have hsplitMeta := write_split sr ch bd cl frames meta
  have hsplitM := write_split sr ch bd cl frames m
  have htake4Meta := write_take4 sr ch bd cl frames meta
  generalize hGme : write sr ch bd cl frames meta = Wme
    at hRmeta hLmeta hsplitMeta htake4Meta ⊢
  generalize hGm : write sr ch bd cl frames m = Wm at hRm hLm hsplitM ⊢
  have hA62 := hdr62_length sr ch bd cl frames.length
    (crc32_compute (build_data_chunk frames)) 0 (4 + frames.length * 20)
    (build_data_chunk frames).length 0
  have hTD : (build_toc_chunk frames ++ build_data_chunk frames).length =
      4 + 20 * frames.length + (build_data_chunk frames).length := by
    simp [List.length_append, build_toc_chunk_length]
  have hP70 : (hdr62 sr ch bd cl frames.length (crc32_compute (build_data_chunk frames))
      0 (4 + frames.length * 20) (build_data_chunk frames).length 0 ++
      leBytes 8 meta.length).length = 70 := by
    simp [List.length_append, hA62, leBytes_length]
  have hP70m : (hdr62 sr ch bd cl frames.length (crc32_compute (build_data_chunk frames))
      0 (4 + frames.length * 20) (build_data_chunk frames).length 0 ++
      leBytes 8 m.length).length = 70 := by
    simp [List.length_append, hA62, leBytes_length]
  refine ⟨?_, ?_, ?_, ?_, ?_⟩
  · rw [update_metadata_bytes, if_neg (by rw [HEADER_SIZE]; omega),
      if_neg (by rw [htake4Meta]; simp)]
    rw [hRmeta]
    show (if Wme.length <
        4 + 66 + (4 + frames.length * 20) + (build_data_chunk frames).length + 0 then
        (none : Option (Except String (List Nat)))
      else
        if (Wme.take
            (4 + 66 + (4 + frames.length * 20) + (build_data_chunk frames).length + 0) ++
            m).length < 70 then none
        else some (.ok (setBytes (Wme.take
            (4 + 66 + (4 + frames.length * 20) + (build_data_chunk frames).length + 0) ++
            m) 62 (leBytes 8 m.length)))) = _
    have hmo : 4 + 66 + (4 + frames.length * 20) + (build_data_chunk frames).length + 0 =
        74 + 20 * frames.length + (build_data_chunk frames).length := by omega
    rw [hmo, if_neg (by omega)]
    have htake : Wme.take
        (74 + 20 * frames.length + (build_data_chunk frames).length) =
        (hdr62 sr ch bd cl frames.length (crc32_compute (build_data_chunk frames)) 0
          (4 + frames.length * 20) (build_data_chunk frames).length 0 ++
          leBytes 8 meta.length) ++
        (build_toc_chunk frames ++ build_data_chunk frames) := by
      rw [hsplitMeta]
      have hlenP : ((hdr62 sr ch bd cl frames.length
          (crc32_compute (build_data_chunk frames)) 0 (4 + frames.length * 20)
          (build_data_chunk frames).length 0 ++ leBytes 8 meta.length) ++
          (build_toc_chunk frames ++ build_data_chunk frames)).length =
          74 + 20 * frames.length + (build_data_chunk frames).length := by
        simp only [List.length_append, hA62, leBytes_length, build_toc_chunk_length]
        omega
      rw [← hlenP, List.take_left]
    rw [htake]
    rw [if_neg (by simp only [List.length_append, hP70, hTD]; omega)]
    have htk62 : (((hdr62 sr ch bd cl frames.length
        (crc32_compute (build_data_chunk frames)) 0 (4 + frames.length * 20)
        (build_data_chunk frames).length 0 ++ leBytes 8 meta.length) ++
        (build_toc_chunk frames ++ build_data_chunk frames)) ++ m).take 62 =
        hdr62 sr ch bd cl frames.length (crc32_compute (build_data_chunk frames)) 0
          (4 + frames.length * 20) (build_data_chunk frames).length 0 := by
      rw [List.append_assoc, List.append_assoc, ← hA62, List.take_left]
    have hdp70 : (((hdr62 sr ch bd cl frames.length
        (crc32_compute (build_data_chunk frames)) 0 (4 + frames.length * 20)
        (build_data_chunk frames).length 0 ++ leBytes 8 meta.length) ++
        (build_toc_chunk frames ++ build_data_chunk frames)) ++ m).drop
        (62 + (leBytes 8 m.length).length) =
        (build_toc_chunk frames ++ build_data_chunk frames) ++ m := by
      rw [List.append_assoc]
      have h70 : 62 + (leBytes 8 m.length).length = (hdr62 sr ch bd cl frames.length
          (crc32_compute (build_data_chunk frames)) 0 (4 + frames.length * 20)
          (build_data_chunk frames).length 0 ++ leBytes 8 meta.length).length := by
        simp [List.length_append, hA62, leBytes_length]
      rw [h70, List.drop_left]
    have hfinal : setBytes (((hdr62 sr ch bd cl frames.length
        (crc32_compute (build_data_chunk frames)) 0 (4 + frames.length * 20)
        (build_data_chunk frames).length 0 ++ leBytes 8 meta.length) ++
        (build_toc_chunk frames ++ build_data_chunk frames)) ++ m) 62
        (leBytes 8 m.length) = Wm := by
      rw [setBytes, htk62, hdp70, hsplitM]
      simp [List.append_assoc]
    rw [hfinal]
  · rw [hsplitM, hsplitMeta]
    simp only [List.append_assoc]
    rw [take_append_of_length _ _ 62 hA62, take_append_of_length _ _ 62 hA62]
  · rw [hsplitM]
    rw [List.append_assoc (hdr62 sr ch bd cl frames.length
      (crc32_compute (build_data_chunk frames)) 0 (4 + frames.length * 20)
      (build_data_chunk frames).length 0 ++ leBytes 8 m.length)
      (build_toc_chunk frames ++ build_data_chunk frames) m]
    rw [take_append_of_length _ _ 70 hP70m]
    rw [drop_append_of_length _ _ 62 hA62]
  · intro i h70i hupper
    rw [hsplitM, hsplitMeta]
    rw [List.append_assoc (hdr62 sr ch bd cl frames.length
      (crc32_compute (build_data_chunk frames)) 0 (4 + frames.length * 20)
      (build_data_chunk frames).length 0 ++ leBytes 8 m.length)
      (build_toc_chunk frames ++ build_data_chunk frames) m]
    rw [List.append_assoc (hdr62 sr ch bd cl frames.length
      (crc32_compute (build_data_chunk frames)) 0 (4 + frames.length * 20)
      (build_data_chunk frames).length 0 ++ leBytes 8 meta.length)
      (build_toc_chunk frames ++ build_data_chunk frames) meta]
    have hle_m : (hdr62 sr ch bd cl frames.length
        (crc32_compute (build_data_chunk frames)) 0 (4 + frames.length * 20)
        (build_data_chunk frames).length 0 ++ leBytes 8 m.length).length ≤ i := by
      rw [hP70m]; omega
    have hle_me : (hdr62 sr ch bd cl frames.length
        (crc32_compute (build_data_chunk frames)) 0 (4 + frames.length * 20)
        (build_data_chunk frames).length 0 ++ leBytes 8 meta.length).length ≤ i := by
      rw [hP70]; omega
    rw [List.getElem?_append_right hle_m, List.getElem?_append_right hle_me]
    rw [hP70m, hP70]
    have hcond : i - 70 < (build_toc_chunk frames ++ build_data_chunk frames).length := by
      rw [hTD]; omega
    have hgm : ((build_toc_chunk frames ++ build_data_chunk frames) ++ m)[i - 70]? =
        (build_toc_chunk frames ++ build_data_chunk frames)[i - 70]? := by
      rw [List.getElem?_append, if_pos hcond]
    have hgme : ((build_toc_chunk frames ++ build_data_chunk frames) ++ meta)[i - 70]? =
        (build_toc_chunk frames ++ build_data_chunk frames)[i - 70]? := by
      rw [List.getElem?_append, if_pos hcond]
    rw [hgm, hgme]
  · rw [decode_int, decode_int, hRm, hRmeta]
    show (if frames.any (fun f => f.frame_type = FrameType.Transform.toByte) then
        (Except.ok none : Except String (Option (List Int)))
      else .ok (some (decode_file_int (FloFile.mk
        (writtenHeader sr ch bd cl frames.length
          (crc32_compute (build_data_chunk frames)) 0
          (4 + frames.length * 20) (build_data_chunk frames).length 0 m.length)
        (writtenTocAux frames 0 0) frames [] m)))) =
      (if frames.any (fun f => f.frame_type = FrameType.Transform.toByte) then
        (Except.ok none : Except String (Option (List Int)))
      else .ok (some (decode_file_int (FloFile.mk
        (writtenHeader sr ch bd cl frames.length
          (crc32_compute (build_data_chunk frames)) 0
          (4 + frames.length * 20) (build_data_chunk frames).length 0 meta.length)
        (writtenTocAux frames 0 0) frames [] meta))))
    simp only [decode_file_int, decode_file_channels, writtenHeader]




/-- C3 witness: a one-frame silence file with metadata `[7, 8]` updated to
`[9]`. -/
theorem c3_update_metadata_witness :
    update_metadata_bytes
        (write 44100 1 16 5 [Frame.mk 0 2 0 [ChannelData.new_silence]] [7, 8]) [9] =
      some (.ok (write 44100 1 16 5 [Frame.mk 0 2 0 [ChannelData.new_silence]] [9])) :=
  (c3_update_metadata 44100 1 16 5 [Frame.mk 0 2 0 [ChannelData.new_silence]] [7, 8] [9]
    (by decide) (by decide) (by decide) (by decide) (by decide) (by decide) (by decide)
    (by decide) (by decide)).1

/-- C8 (amended): a container whose header declares `channels = 0` is *not*
rejected: whenever the reader parses it (and no frame is a transform frame),
`decode` succeeds and returns the empty sample stream. -/
theorem c8_channels_zero (data : List Nat) (f : FloFile)
    (hf : reader_read data = .ok f) (hc : f.header.channels = 0)
    (ht : f.frames.any (fun fr => fr.frame_type = FrameType.Transform.toByte) = false) :
    decode_int data = .ok (some []) := by
  rw [decode_int, hf]
  show (if f.frames.any (fun fr => fr.frame_type = FrameType.Transform.toByte) then
      (Except.ok none : Except String (Option (List Int)))
    else .ok (some (decode_file_int f))) = _
  rw [ht]
  simp only [Bool.false_eq_true, if_false]
  have hdf : decode_file_int f = [] := by
    rw [decode_file_int, hc, interleave_int]
    simp
  rw [hdf]

/-- C8 witness: the amended theorem applied to the writer's own
zero-channel, zero-frame file. -/
theorem c8_channels_zero_witness :
    decode_int (write_ex 44100 0 16 5 false 0 [] []) = .ok (some []) :=
  c8_channels_zero (write_ex 44100 0 16 5 false 0 [] [])
    (FloFile.mk (Header.mk 1 0 0 44100 0 16 0 5 0 66 4 0 0 0) [] [] [] [])
    rfl rfl rfl

/-- C8 counterexample: a well-formed container with `channels = 0` (produced
by the writer itself) parses with `channels = 0` and decodes to `Ok []`
instead of being rejected with an error. -/
theorem c8_channels_zero_counterexample :
    (reader_read (write_ex 44100 0 16 5 false 0 [] [])).map
      (fun f => f.header.channels) = .ok 0 ∧
    decode_int (write_ex 44100 0 16 5 false 0 [] []) = .ok (some []) :=
  ⟨rfl, rfl⟩

/-- C5 (amended): once the streaming decoder is in the `Error` state, `feed`
returns `Ok(false)` without touching the buffer and `next_frame` returns
`Ok(None)`; no stored error is returned (none is stored — the parse error is
reported only once, at the transition into the `Error` state). -/
theorem c5_error_state (d : SDecoder) (data : List Nat) (h : d.state = .Error) :
    d.feed data = (d, .ok false) ∧ d.next_frame = (d, .ok none) := by
  constructor
  · rw [SDecoder.feed, if_pos (Or.inl h)]
  · rw [SDecoder.next_frame, if_pos (by rw [h]; decide)]

/-- C5 witness: the amended theorem at a fresh decoder forced into the
`Error` state. -/
theorem c5_error_state_witness :
    ({ SDecoder.new with state := .Error } : SDecoder).feed [5] =
      ({ SDecoder.new with state := .Error }, .ok false) ∧
    ({ SDecoder.new with state := .Error } : SDecoder).next_frame =
      ({ SDecoder.new with state := .Error }, .ok none) :=
  c5_error_state { SDecoder.new with state := .Error } [5] rfl

/-- C5 counterexample: feeding 70 zero bytes (bad magic) returns the parse
error and moves to the `Error` state, but the *subsequent* `feed` returns
`Ok(false)` and `next_frame` returns `Ok(None)` — success values, not the
stored error the claim promises. -/
theorem c5_error_state_counterexample :
    (SDecoder.new.feed (List.replicate 70 0)).2 = .error "Invalid flo file: bad magic" ∧
    (SDecoder.new.feed (List.replicate 70 0)).1.state = .Error ∧
    ((SDecoder.new.feed (List.replicate 70 0)).1.feed [1, 2, 3]).2 = .ok false ∧
    ((SDecoder.new.feed (List.replicate 70 0)).1.next_frame).2 = .ok none :=
  ⟨rfl, rfl, rfl, rfl⟩

/-- C1: the lossless round trip is NOT bit-exact for quiet non-silent
signals.  Mono input with i32 samples `[1, 1, 1, 1]` (the `f32_to_i32` image
of a quiet 16-bit-exact signal) at compression level 0: every channel picks
fixed-order-0 (Rice) because its 2 encoded bytes beat 8 raw bytes, but
`order_used = 0` keeps `all_raw` true, so `encode_frame` marks the frame
`Raw` (`FrameType::Raw = 254`, third conjunct).  The decoder then reads the
Rice bytes `[0x92, 0x40]` as raw little-endian i16 PCM and returns
`[16530, 0, 0, 0] ≠ [1, 1, 1, 1]`. -/
theorem c1_lossless_roundtrip_bug :
    decode_int (encode_int 4 1 16 0 (fun _ => false) [1, 1, 1, 1] []) =
      .ok (some [16530, 0, 0, 0]) ∧
    ([16530, 0, 0, 0] : List Int) ≠ [1, 1, 1, 1] ∧
    (encode_frames_int 1 0 4 (fun _ => false) [1, 1, 1, 1]).map Frame.frame_type =
      [FrameType.Raw.toByte] :=
  ⟨rfl, by decide, rfl⟩

end Flo
